import Mathlib

/-!
Shallow embedding of `janitor/functions/conditional_join.py`: a conditional
(non-equi) join engine over pandas DataFrames.  Columns are modelled as lists
of `Option Int` (`none` models NaN/null; `Int` stands for any totally ordered
value domain — numeric, datetime ordinal, or an interned string/categorical
code).  Row labels are natural numbers; after the engine's RangeIndex reset
(lines 158-159 of the source) labels coincide with positions, which the
embedding takes as an invariant.  Parallel numpy arrays are modelled as lists
of tuples; numpy boolean-mask filtering becomes `List.filter`.
-/

/-- A cell value: `none` models NaN/null, `some v` a concrete value. -/
abbrev Val := Option Int

/-- A pandas Series as consumed by the matchers: a list of
(row label, value) pairs.  The label vector models `s.index`. -/
abbrev Series := List (Nat × Val)

/-- Elementwise equality of two cells, as numpy `operator.eq` behaves on
float data: any comparison involving NaN is False. -/
def elemEq (a b : Val) : Bool :=
  match a, b with
  | some x, some y => x == y
  | _, _ => false

/-- Models `operator_map` (source lines 1019-1026): elementwise evaluation of
one of the six operators on two cells, with numpy/IEEE null semantics —
every comparison involving NaN is False, except `!=` which is True. -/
def elemCmp (op : String) (a b : Val) : Bool :=
  if op == "==" then elemEq a b
  else if op == "!=" then !(elemEq a b)
  else
    match a, b with
    | some x, some y =>
        if op == "<" then decide (x < y)
        else if op == "<=" then decide (x ≤ y)
        else if op == ">" then decide (x > y)
        else if op == ">=" then decide (x ≥ y)
        else false
    | _, _ => false

/-- The mathematical relation an operator string denotes on non-null values. -/
def opRel (op : String) (x y : Int) : Prop :=
  if op == "==" then x = y
  else if op == "!=" then x ≠ y
  else if op == "<" then x < y
  else if op == "<=" then x ≤ y
  else if op == ">" then x > y
  else if op == ">=" then x ≥ y
  else False

instance (op : String) (x y : Int) : Decidable (opRel op x y) :=
  inferInstanceAs (Decidable (if op == "==" then x = y
    else if op == "!=" then x ≠ y
    else if op == "<" then x < y
    else if op == "<=" then x ≤ y
    else if op == ">" then x > y
    else if op == ">=" then x ≥ y
    else False))

/-- Non-null values of a series, in order (what pandas aggregations see). -/
def svals (s : Series) : List Int := s.filterMap Prod.snd

/-- Minimum of a list of values; `none` on the empty list.  Models
`Series.min()`, which skips nulls (applied to `svals`). -/
def listMin : List Int → Option Int
  | [] => none
  | x :: xs =>
      some (match listMin xs with
            | none => x
            | some m => min x m)

/-- Maximum of a list of values; `none` on the empty list.  Models
`Series.max()`, which skips nulls (applied to `svals`). -/
def listMax : List Int → Option Int
  | [] => none
  | x :: xs =>
      some (match listMax xs with
            | none => x
            | some m => max x m)

/-- Models the guard `left_c.min() > right_c.max()` (source line 784):
pandas skips nulls in min/max, and a comparison against NaN (an all-null or
empty column) is False. -/
def minGtMax (left_c right_c : Series) : Bool :=
  match listMin (svals left_c), listMax (svals right_c) with
  | some a, some b => decide (a > b)
  | _, _ => false

/-- Models the guard `left_c.max() < right_c.min()` (source line 875). -/
def maxLtMin (left_c right_c : Series) : Bool :=
  match listMax (svals left_c), listMin (svals right_c) with
  | some a, some b => decide (a < b)
  | _, _ => false

/-- Models `s.dropna() if s.hasnans else s` (source lines 787, 791): the
non-null rows of a series, with their labels.  When `hasnans` is false every
value is already `some`, so unconditionally unwrapping is the same map. -/
def dropna (s : Series) : List (Nat × Int) :=
  s.filterMap fun p =>
    match p.2 with
    | some v => some (p.1, v)
    | none => none

/-- Value-ordering on (label, value) rows, the key of `sort_values`. -/
def valLe (a b : Nat × Int) : Prop := a.2 ≤ b.2

instance : DecidableRel valLe := fun a b => inferInstanceAs (Decidable (a.2 ≤ b.2))

instance : IsTotal (Nat × Int) valLe := ⟨fun a b => Int.le_total a.2 b.2⟩

instance : IsTrans (Nat × Int) valLe := ⟨fun _ _ _ h h' => le_trans h h'⟩

/-- Models `Series.is_monotonic_increasing`: the value column is
non-decreasing. -/
def is_monotonic_increasing : List (Nat × Int) → Bool
  | [] => true
  | [_] => true
  | a :: b :: t => decide (a.2 ≤ b.2) && is_monotonic_increasing (b :: t)

/-- Models `if not right_c.is_monotonic_increasing: right_c =
right_c.sort_values()` (source lines 789-790): sort the (label, value) rows
by value unless the values are already monotone non-decreasing.  A stable
sort is used; the source's sort need not be stable and no claim depends on
the order of equal values. -/
def sort_values (r : List (Nat × Int)) : List (Nat × Int) :=
  if is_monotonic_increasing r then r else r.insertionSort valLe

/-- Models `numpy.searchsorted(sorted_vals, v, side="left")`: the number of
entries strictly below `v`, which for a sorted array is the left-bias
insertion point. -/
def searchsorted_left (sorted_vals : List Int) (v : Int) : Nat :=
  sorted_vals.countP fun w => decide (w < v)

/-- Models `numpy.searchsorted(sorted_vals, v, side="right")`: the number of
entries at most `v`, which for a sorted array is the right-bias insertion
point. -/
def searchsorted_right (sorted_vals : List Int) (v : Int) : Nat :=
  sorted_vals.countP fun w => decide (w ≤ v)

/-- Result of a range matcher.  The source returns tuples of two arities
(spec §9 notes this conflates two modes): `pairs` is the final
(left labels, right labels) form returned when `len_conditions == 1`;
`bounds` is the intermediate form `(left_index, right_index, search_indices,
indices)` returned to the multi-condition combiners. -/
inductive MatchResult where
  | pairs (left_ids right_ids : List Nat)
  | bounds (left_ids right_ids : List Nat) (search_indices indices : List Nat)
deriving DecidableEq, Repr

/-- Cumulative sums of a list (models `numpy.cumsum`). -/
def cumsum : List Int → List Int
  | [] => []
  | x :: xs => x :: (cumsum xs).map (fun y => x + y)

/-- Models `_interval_ranges(indices, right)` (source lines 1029-1058): the
cumulative-sum scatter trick that produces the concatenation of
`range(indices[i], right[i])` for all i.  `ids[cum_length[:-1]] = ...` is a
numpy scatter-assignment, modelled by a fold of `List.set` (which, like the
claim requires, must stay in bounds to be meaningful — `List.set` is a no-op
out of bounds). -/
def _interval_ranges (indices right : List Nat) : List Int :=
  let cum_length := cumsum (List.zipWith (fun (r : Nat) (i : Nat) => (r : Int) - (i : Int)) right indices)
  let total := (cum_length.getLast?.getD 0).toNat
  let ids0 := List.replicate total (1 : Int)
  let ids1 := ids0.set 0 ((indices.headD 0 : Nat) : Int)
  let scat := List.zip (cum_length.dropLast.map Int.toNat)
      (List.zipWith (fun (i : Nat) (r : Nat) => (i : Int) - (r : Int) + 1) (indices.drop 1) right.dropLast)
  let ids2 := scat.foldl (fun acc pv => acc.set pv.1 pv.2) ids1
  cumsum ids2

/-- Models `_less_than_indices(left_c, right_c, strict, len_conditions)`
(source lines 769-857).  Parallel arrays (left_index, left values,
search_indices) are carried as one list of triples; boolean-mask filtering
of the parallel arrays becomes a single `List.filter`.  The strict branch's
`np.where(rows_equal, replacements, search_indices)` is the per-row
conditional replacement written pointwise. -/
def _less_than_indices (left_c right_c : Series) (strict : Bool)
    (len_conditions : Nat) : Option MatchResult :=
  if minGtMax left_c right_c then none else
  let rightNN := sort_values (dropna right_c)
  let leftNN := dropna left_c
  let right_index := rightNN.map Prod.fst
  let right_vals := rightNN.map Prod.snd
  let len_right := right_vals.length
  let work0 := leftNN.map fun p => (p.1, p.2, searchsorted_left right_vals p.2)
  let work1 := work0.filter fun t => decide (t.2.2 ≠ len_right)
  if work1.isEmpty then none else
  let work2 :=
    if strict then
      (work1.map fun t =>
        if right_vals.getD t.2.2 0 == t.2.1 then
          (t.1, t.2.1, searchsorted_right right_vals t.2.1)
        else t).filter fun t => decide (t.2.2 ≠ len_right)
    else work1
  if work2.isEmpty then none else
  let left_index := work2.map fun t => t.1
  let search_indices := work2.map fun t => t.2.2
  let indices := List.replicate search_indices.length len_right
  if len_conditions > 1 then
    some (.bounds left_index right_index search_indices indices)
  else
    let positions := _interval_ranges search_indices indices
    let counts := List.zipWith (fun a b => a - b) indices search_indices
    let right_out := positions.map fun p => right_index.getD p.toNat 0
    let left_out := (List.zipWith (fun i c => List.replicate c i) left_index counts).flatten
    some (.pairs left_out right_out)

/-- Models `_greater_than_indices(left_c, right_c, strict, len_conditions)`
(source lines 860-941), the mirror construction: right-bias insertion points,
matching right positions `[0, search_index)`, with the strict adjustment
re-searching with left bias (and the source's `replacements - 1` clamp for
the `replacements == len(right)` case, which is unreachable when the tie
test fired). -/
def _greater_than_indices (left_c right_c : Series) (strict : Bool)
    (len_conditions : Nat) : Option MatchResult :=
  if maxLtMin left_c right_c then none else
  let rightNN := sort_values (dropna right_c)
  let leftNN := dropna left_c
  let right_index := rightNN.map Prod.fst
  let right_vals := rightNN.map Prod.snd
  let len_right := right_vals.length
  let work0 := leftNN.map fun p => (p.1, p.2, searchsorted_right right_vals p.2)
  let work1 := work0.filter fun t => decide (1 ≤ t.2.2)
  if work1.isEmpty then none else
  let work2 :=
    if strict then
      (work1.map fun t =>
        if right_vals.getD (t.2.2 - 1) 0 == t.2.1 then
          let repl := searchsorted_left right_vals t.2.1
          (t.1, t.2.1, if repl == len_right then repl - 1 else repl)
        else t).filter fun t => decide (1 ≤ t.2.2)
    else work1
  if work2.isEmpty then none else
  let left_index := work2.map fun t => t.1
  let search_indices := work2.map fun t => t.2.2
  let indices := List.replicate search_indices.length 0
  if len_conditions > 1 then
    some (.bounds left_index right_index search_indices indices)
  else
    let positions := _interval_ranges indices search_indices
    let right_out := positions.map fun p => right_index.getD p.toNat 0
    let left_out := (List.zipWith (fun i c => List.replicate c i) left_index search_indices).flatten
    some (.pairs left_out right_out)

/-- Rows keyed for an equality join: (row label, tuple of key-column cells). -/
abbrev KeyedRows := List (Nat × List Val)

/-- Modelled from the spec: the external hash-join primitive (spec §6, "A
hash-join primitive producing positional index pairs for equal keys (single
or composite key)"), which the source consumes through pandas'
`_MergeOperation(...)._get_join_indexers()` — pandas library code, not part
of this repository.  It produces every positional pair with equal key
tuples, one occurrence each, grouped by left position in order. -/
def hashJoinPositions (lkeys rkeys : List (List Val)) : List (Nat × Nat) :=
  (List.range lkeys.length).flatMap fun i =>
    ((List.range rkeys.length).filter fun j =>
        decide (rkeys.getD j [] = lkeys.getD i [])).map fun j => (i, j)

/-- Models `_equal_indices(left_c, right_c, len_conditions)` (source lines
944-979): delegate to the hash-join primitive; with `len_conditions > 1`
return positional indexers, otherwise map them through the labels. -/
def _equal_indices (left_c right_c : KeyedRows) (len_conditions : Nat) :
    Option (List Nat × List Nat) :=
  let res := hashJoinPositions (left_c.map Prod.snd) (right_c.map Prod.snd)
  if !(0 < res.length) then none
  else if 1 < len_conditions then some (res.map Prod.fst, res.map Prod.snd)
  else
    some (res.map (fun p => (left_c.map Prod.fst).getD p.1 0),
          res.map (fun p => (right_c.map Prod.fst).getD p.2 0))

/-- Final label pairs of a 1-mode matcher result; `none` and the
intermediate `bounds` form (never produced in 1-mode) give empty arrays,
mirroring the `dummy = np.array([], dtype=int)` fallback of
`_not_equal_indices`. -/
def pairsOf : Option MatchResult → List Nat × List Nat
  | some (.pairs l r) => (l, r)
  | _ => ([], [])

/-- Models `_not_equal_indices(left_c, right_c)` (source lines 982-1016):
the concatenation of the strict less-than and strict greater-than pairs. -/
def _not_equal_indices (left_c right_c : Series) : Option MatchResult :=
  let lt_pair := pairsOf (_less_than_indices left_c right_c true 1)
  let gt_pair := pairsOf (_greater_than_indices left_c right_c true 1)
  if !(0 < lt_pair.1.length) && !(0 < gt_pair.1.length) then none
  else some (.pairs (lt_pair.1 ++ gt_pair.1) (lt_pair.2 ++ gt_pair.2))

/-- Models `_generic_func_cond_join(left_c, right_c, op, len_conditions)`
(source lines 370-394), the dispatch over the four matchers.  For the `==`
branch the series is viewed as single-column keyed rows. -/
def _generic_func_cond_join (left_c right_c : Series) (op : String)
    (len_conditions : Nat) : Option MatchResult :=
  let strict := op == ">" || op == "<" || op == "!="
  if op == "<" || op == "<=" then
    _less_than_indices left_c right_c strict len_conditions
  else if op == ">" || op == ">=" then
    _greater_than_indices left_c right_c strict len_conditions
  else if op == "!=" then
    _not_equal_indices left_c right_c
  else
    match _equal_indices (left_c.map fun p => (p.1, [p.2]))
        (right_c.map fun p => (p.1, [p.2])) len_conditions with
    | none => none
    | some (l, r) => some (.pairs l r)

/-- The pandas dtype of a column, at the granularity the type gate inspects:
the five permitted families plus `other` for anything else (bool, object,
timedelta, ...). -/
inductive DType where
  | date
  | int
  | float
  | str
  | cat
  | other
deriving DecidableEq, Repr

/-- A pandas DataFrame: column names, their dtypes, a flag modelling
`isinstance(df.columns, pd.MultiIndex)`, and rows of cells.  The row index
is positional (a RangeIndex), which the engine resets anyway. -/
structure Frame where
  cols : List String
  dtypes : List DType
  multiCols : Bool
  rows : List (List Val)
deriving DecidableEq, Repr

/-- Position of a column label, `none` if absent. -/
def Frame.colIdx (f : Frame) (c : String) : Option Nat :=
  f.cols.findIdx? fun n => n == c

/-- The cell vector of column `c` (`df[c]` without labels); an absent column
reads as all-null (validation rejects absent columns before any read). -/
def Frame.col (f : Frame) (c : String) : List Val :=
  match f.colIdx c with
  | some k => f.rows.map fun r => r.getD k none
  | none => f.rows.map fun _ => none

/-- Dtype of column `c` (`df[c].dtype`). -/
def Frame.dtypeOf (f : Frame) (c : String) : DType :=
  match f.colIdx c with
  | some k => f.dtypes.getD k .other
  | none => .other

/-- Models `df[c]` as a labelled series; labels are positions (RangeIndex). -/
def Frame.colS (f : Frame) (c : String) : Series :=
  (List.range f.rows.length).zip (f.col c)

/-- Models `df.loc[labels, c]`: label-based row selection of one column,
possibly with repeats and in any order. -/
def Frame.locS (f : Frame) (labels : List Nat) (c : String) : Series :=
  labels.map fun l => (l, (f.col c).getD l none)

/-- Models `df.loc[labels, cs]` viewed as join keys: each selected row
paired with its tuple of key-column cells. -/
def Frame.locKeyed (f : Frame) (labels : List Nat) (cs : List String) : KeyedRows :=
  labels.map fun l => (l, cs.map fun c => (f.col c).getD l none)

/-- Models `df.empty`: zero rows or zero columns. -/
def Frame.emptyF (f : Frame) : Bool := f.rows.isEmpty || f.cols.isEmpty

/-- A parsed join condition `(left_on, right_on, op)`. -/
structure Cond where
  left_on : String
  right_on : String
  op : String
deriving DecidableEq, Repr

/-- Source lines 742-745. -/
def less_than_join_types : List String := ["<", "<="]

/-- Source lines 746-749. -/
def greater_than_join_types : List String := [">", ">="]

/-- Models `_multiple_conditional_join_eq(df, right, conditions)` (source
lines 397-479): all `==` conditions become one composite-key hash join over
the rows whose key cells are all non-null (the source's one-column and
multi-column dropna branches coincide at this granularity); the remaining
conditions are applied as one conjunctive elementwise mask.  Label lists
stand for the narrowed frames `df.loc[...]`, so the final
`df.index[df_index]` is `getD` through the kept-label list. -/
def _multiple_conditional_join_eq (df right : Frame) (conditions : List Cond) :
    Option (List Nat × List Nat) :=
  let eq_cond := conditions.filter fun c => c.op == "=="
  let rest := conditions.filter fun c => c.op != "=="
  let left_on := eq_cond.map fun c => c.left_on
  let right_on := eq_cond.map fun c => c.right_on
  let llabels := (List.range df.rows.length).filter fun l =>
      left_on.all fun c => ((df.col c).getD l none).isSome
  let rlabels := (List.range right.rows.length).filter fun r =>
      right_on.all fun c => ((right.col c).getD r none).isSome
  let left_c := df.locKeyed llabels left_on
  let right_c := right.locKeyed rlabels right_on
  match _equal_indices left_c right_c 2 with
  | none => none
  | some (df_index, right_index) =>
    if rest.isEmpty then
      some (df_index.map fun p => llabels.getD p 0,
            right_index.map fun p => rlabels.getD p 0)
    else
      let kept := (df_index.zip right_index).filter fun pr =>
        rest.all fun c =>
          elemCmp c.op ((df.col c.left_on).getD (llabels.getD pr.1 0) none)
                       ((right.col c.right_on).getD (rlabels.getD pr.2 0) none)
      if kept.isEmpty then none
      else some (kept.map fun pr => llabels.getD pr.1 0,
                 kept.map fun pr => rlabels.getD pr.2 0)

/-- Models `_multiple_conditional_join_ne(df, right, conditions)` (source
lines 482-517): the first `!=` condition through the matcher, the remaining
conditions as one conjunctive elementwise mask over the label pairs.  An
empty condition list cannot reach this function (validation requires one);
the 1-mode matcher never returns the `bounds` form. -/
def _multiple_conditional_join_ne (df right : Frame) (conditions : List Cond) :
    Option (List Nat × List Nat) :=
  match conditions with
  | [] => none
  | first :: rest =>
    match _generic_func_cond_join (df.colS first.left_on)
        (right.colS first.right_on) first.op 1 with
    | none => none
    | some (.bounds _ _ _ _) => none
    | some (.pairs df_index right_index) =>
      if rest.isEmpty then some (df_index, right_index)
      else
        let kept := (df_index.zip right_index).filter fun (pr : Nat × Nat) =>
          rest.all fun (c : Cond) =>
            elemCmp c.op ((df.col c.left_on).getD pr.1 none)
                         ((right.col c.right_on).getD pr.2 none)
        if kept.isEmpty then none
        else some (kept.map Prod.fst, kept.map Prod.snd)

/-- One step of the search-space narrowing loop of
`_multiple_conditional_join_le_lt` (source lines 537-553): `!=` conditions
are skipped; an ordering condition runs the matcher in bounds mode and the
surviving label universes replace the working ones; a `None` result
short-circuits the whole combiner. -/
def narrowStep (df right : Frame) (acc : Option (List Nat × List Nat))
    (c : Cond) : Option (List Nat × List Nat) :=
  match acc with
  | none => none
  | some (df_index, right_index) =>
    if c.op == "!=" then some (df_index, right_index)
    else
      match _generic_func_cond_join (df.locS df_index c.left_on)
          (right.locS right_index c.right_on) c.op 2 with
      | some (.bounds li ri _ _) => some (li, ri)
      | _ => none

/-- Models `_multiple_conditional_join_le_lt(df, right, conditions)` (source
lines 520-637): narrow both label universes with every ordering condition,
promote the last-seen ordering condition to the front unless the first
condition is already an ordering one (`conditions.remove` is `List.erase`),
materialize the first condition's per-row ranges, scan each row's range with
the second condition's elementwise operator, and apply the remaining
conditions as one conjunctive mask.  Unreachable shapes (no conditions,
fewer than two conditions, a non-`bounds` result for an ordering condition)
map to `None`. -/
def _multiple_conditional_join_le_lt (df right : Frame) (conditions : List Cond) :
    Option (List Nat × List Nat) :=
  let init : Option (List Nat × List Nat) :=
    some (List.range df.rows.length, List.range right.rows.length)
  match conditions.foldl (narrowStep df right) init with
  | none => none
  | some (df_index0, right_index0) =>
    let conds2 :=
      match conditions with
      | [] => []
      | c0 :: _ =>
        if less_than_join_types.contains c0.op ||
            greater_than_join_types.contains c0.op then conditions
        else
          match (conditions.filter fun (c : Cond) => less_than_join_types.contains c.op ||
              greater_than_join_types.contains c.op).getLast? with
          | none => conditions
          | some lt_gt => lt_gt :: conditions.erase lt_gt
    match conds2 with
    | [] => none
    | first :: rest1 =>
      match _generic_func_cond_join (df.locS df_index0 first.left_on)
          (right.locS right_index0 first.right_on) first.op 2 with
      | some (.bounds df_index right_index search_indices indices) =>
        let lowhigh :=
          if less_than_join_types.contains first.op then (search_indices, indices)
          else (indices, search_indices)
        match rest1 with
        | [] => none
        | second :: rest2 =>
          let left_vals := df_index.map fun l => (df.col second.left_on).getD l none
          let right_vals := right_index.map fun r => (right.col second.right_on).getD r none
          let scanned := (((df_index.zip left_vals).zip (lowhigh.1.zip lowhigh.2)).map
            (fun (t : (Nat × Val) × Nat × Nat) =>
              let idxr := ((right_index.zip right_vals).drop t.2.1).take (t.2.2 - t.2.1)
              (t.1.1, (idxr.filter fun (rv : Nat × Val) =>
                elemCmp second.op t.1.2 rv.2).map Prod.fst))).filter
            fun (pr : Nat × List Nat) => !pr.2.isEmpty
          if scanned.isEmpty then none
          else
            let df_index3 := (scanned.map fun (pr : Nat × List Nat) =>
              List.replicate pr.2.length pr.1).flatten
            let right_index3 := (scanned.map fun (pr : Nat × List Nat) => pr.2).flatten
            if rest2.isEmpty then some (df_index3, right_index3)
            else
              let kept := (df_index3.zip right_index3).filter fun (pr : Nat × Nat) =>
                rest2.all fun (c : Cond) =>
                  elemCmp c.op ((df.col c.left_on).getD pr.1 none)
                               ((right.col c.right_on).getD pr.2 none)
              if kept.isEmpty then none
              else some (kept.map Prod.fst, kept.map Prod.snd)
      | _ => none

/-- The joined output at the granularity the claims inspect: the two
namespaced column groups (the `MultiIndex.from_product([["left"], ...])` /
`[["right"], ...]` prefixes of source lines 661-662 and 721-722 become the
two groups) with their dtypes, and rows as (left label, right label) pairs —
`none` on a side models the null-filled cells of an outer row.  A row
`(some l, some r)` denotes row `l` of the left table concatenated with row
`r` of the right table. -/
structure JoinedFrame where
  leftCols : List String
  leftDtypes : List DType
  rightCols : List String
  rightDtypes : List DType
  rows : List (Option Nat × Option Nat)
deriving DecidableEq, Repr

/-- Lexicographic order on matched position pairs: the order
`np.lexsort((right_index, left_index))` sorts by (primary key
`left_index`, secondary key `right_index`). -/
def pairLe (a b : Nat × Nat) : Prop := a.1 < b.1 ∨ (a.1 = b.1 ∧ a.2 ≤ b.2)

instance : DecidableRel pairLe := fun a b =>
  inferInstanceAs (Decidable (a.1 < b.1 ∨ (a.1 = b.1 ∧ a.2 ≤ b.2)))

instance : IsTotal (Nat × Nat) pairLe := by
  constructor
  intro a b
  unfold pairLe
  omega

instance : IsTrans (Nat × Nat) pairLe := by
  constructor
  intro a b c h h'
  unfold pairLe at h h' ⊢
  omega

/-- Models `_create_conditional_join_frame(df, right, left_index,
right_index, how, sort_by_appearance)` (source lines 704-739).  `lexsort`
plus reindexing both arrays is a stable sort of the pair list by `pairLe`.
`pd.concat(..., axis="columns")` for inner keeps the pair order;
`df.join(right, how="left")` on the relabelled right block emits, for each
left row in frame order, its matched right labels in stored order, or one
null-filled row; `how="right"` is the mirror image, grouped by right row. -/
def _create_conditional_join_frame (df right : Frame)
    (left_index right_index : List Nat) (how : String)
    (sort_by_appearance : Bool) : JoinedFrame :=
  let ps0 := left_index.zip right_index
  let ps := if sort_by_appearance then ps0.insertionSort pairLe else ps0
  if how == "inner" then
    ⟨df.cols, df.dtypes, right.cols, right.dtypes,
      ps.map fun p => (some p.1, some p.2)⟩
  else if how == "left" then
    ⟨df.cols, df.dtypes, right.cols, right.dtypes,
      (List.range df.rows.length).flatMap fun l =>
        let ms := ps.filter fun (p : Nat × Nat) => p.1 == l
        if ms.isEmpty then [(some l, none)]
        else ms.map fun p => (some l, some p.2)⟩
  else
    ⟨df.cols, df.dtypes, right.cols, right.dtypes,
      (List.range right.rows.length).flatMap fun r =>
        let ms := ps.filter fun (p : Nat × Nat) => p.2 == r
        if ms.isEmpty then [(none, some r)]
        else ms.map fun p => (some p.1, some r)⟩

/-- Models the `float if dtype.kind == "i" else dtype` widening of source
lines 673-676 and 685-688: integer columns of the null-filled side of an
outer join are widened to float. -/
def widen (d : DType) : DType := if d == DType.int then DType.float else d

/-- Models `_create_conditional_join_empty_frame(df, right, how)` (source
lines 653-691): the zero-match result.  Inner: zero rows, both dtype lists
as-is.  Left: every left row once with a null right side, right integer
dtypes widened to float (`df.join` of an empty typed right block).  Right:
the mirror image. -/
def _create_conditional_join_empty_frame (df right : Frame) (how : String) :
    JoinedFrame :=
  if how == "inner" then
    ⟨df.cols, df.dtypes, right.cols, right.dtypes, []⟩
  else if how == "left" then
    ⟨df.cols, df.dtypes, right.cols, right.dtypes.map widen,
      (List.range df.rows.length).map fun l => (some l, none)⟩
  else
    ⟨df.cols, df.dtypes.map widen, right.cols, right.dtypes,
      (List.range right.rows.length).map fun r => (none, some r)⟩

/-- The right-hand input of `conditional_join`: a DataFrame or a (possibly
unnamed) Series.  `check("right", right, [pd.DataFrame, pd.Series])` is
enforced by this type. -/
inductive RightObj where
  | frame (f : Frame)
  | series (name : Option String) (dtype : DType) (vals : List Val)
deriving DecidableEq, Repr

/-- Models `right.to_frame()`: a named series becomes a one-column frame
(`none` name renders as the empty label; validation rejects it first). -/
def RightObj.toFrame : RightObj → Frame
  | .frame f => f
  | .series name dtype vals => ⟨[name.getD ""], [dtype], false, vals.map fun v => [v]⟩

/-- A raw, caller-supplied condition tuple: a tuple of strings of any arity.
The tuple-of-three-strings shape is what validation checks. -/
abbrev RawCond := List String

/-- Parse a validated raw condition into its three fields. -/
def parseCond (c : RawCond) : Cond := ⟨c.getD 0 "", c.getD 1 "", c.getD 2 ""⟩

/-- Modelled from the spec: `janitor.utils.check_column` (imported by the
source from outside this module) fails with a descriptive error when a
condition references a column label absent from its table (spec §4.1 (c)). -/
def check_column (f : Frame) (c : String) : Except String Unit :=
  if f.cols.contains c then .ok ()
  else .error ("The column " ++ c ++ " is not present in the dataframe.")

/-- Models `_check_operator(op)` (source lines 752-766). -/
def _check_operator (op : String) : Except String Unit :=
  if [">", "<", ">=", "<=", "==", "!="].contains op then .ok ()
  else .error "The conditional join operator should be one of >, >=, ==, !=, <, <="

/-- The column-existence and operator checks of the per-condition loop
(source lines 285-291), first failure wins. -/
def checkConditionCols (df rightF : Frame) : List RawCond → Except String Unit
  | [] => .ok ()
  | c :: rest =>
    match check_column df (c.getD 0 "") with
    | .error e => .error e
    | .ok () =>
      match check_column rightF (c.getD 1 "") with
      | .error e => .error e
      | .ok () =>
        match _check_operator (c.getD 2 "") with
        | .error e => .error e
        | .ok () => checkConditionCols df rightF rest

/-- Models `_conditional_join_preliminary_checks(df, right, conditions, how,
sort_by_appearance)` (source lines 201-301), in source order.  The
defensive copies of lines 238-239 are value copies here; `sort_by_appearance`
being a bool is enforced by its type.  On success the validated
(left frame, right frame, parsed conditions, how) is returned. -/
def _conditional_join_preliminary_checks (df : Frame) (right : RightObj)
    (conditions : List RawCond) (how : String) :
    Except String (Frame × Frame × List Cond × String) :=
  if df.emptyF then
    .error "The dataframe on the left should not be empty."
  else if df.multiCols then
    .error "MultiIndex columns are not supported for conditional_join."
  else if (match right with
           | .series none _ _ => true
           | .series (some "") _ _ => true
           | _ => false) then
    .error "Unnamed Series are not supported for conditional_join."
  else
    let rightF := right.toFrame
    if rightF.emptyF then
      .error "The Pandas object on the right should not be empty."
    else if rightF.multiCols then
      .error "MultiIndex columns are not supported for conditional joins."
    else if conditions.isEmpty then
      .error "Kindly provide at least one join condition."
    else if conditions.any fun c => c.length ≠ 3 then
      .error "condition should have only three elements."
    else
      match checkConditionCols df rightF conditions with
      | .error e => .error e
      | .ok () =>
        if !(["inner", "left", "right"].contains how) then
          .error "how should be one of inner, left, right."
        else
          .ok (df, rightF, conditions.map parseCond, how)

/-- Models `_conditional_join_type_check(left_column, right_column, op)`
(source lines 304-367) at dtype granularity.  The source iterates a Python
set of dtype predicates with for/else; membership of the left dtype in the
five families, and existence of one family containing both dtypes, is what
the two loops decide. -/
def _conditional_join_type_check (left_dtype right_dtype : DType) (op : String) :
    Except String Unit :=
  let permitted : List (DType → Bool) :=
    [fun d => d == DType.date, fun d => d == DType.int, fun d => d == DType.float,
     fun d => d == DType.str, fun d => d == DType.cat]
  if !(permitted.any fun f => f left_dtype) then
    .error "conditional_join only supports string, category, integer, float or date dtypes."
  else if !(permitted.any fun f => f left_dtype && f right_dtype) then
    .error "Both columns should have the same type."
  else if left_dtype == DType.cat && op != "==" then
    .error "For categorical columns, only the == operator is supported."
  else if left_dtype == DType.str && op != "==" then
    .error "For string columns, only the == operator is supported."
  else .ok ()

/-- The per-condition dtype-gate loop of `_conditional_join_compute`
(source lines 146-156), first failure wins. -/
def typeCheckAll (df rightF : Frame) : List Cond → Except String Unit
  | [] => .ok ()
  | c :: rest =>
    match _conditional_join_type_check (df.dtypeOf c.left_on)
        (rightF.dtypeOf c.right_on) c.op with
    | .error e => .error e
    | .ok () => typeCheckAll df rightF rest

/-- The matcher/combiner dispatch of `_conditional_join_compute` (source
lines 158-196): a single condition goes straight to its matcher (with the
`==`-specific dropna of lines 167-170), several conditions to the combiner
selected by the operator mix; the optional value is the pair of parallel
position arrays the assembler receives. -/
def computeDispatch (df rightF : Frame) (conds : List Cond) :
    Option (List Nat × List Nat) :=
  let eq_check := conds.any fun c => c.op == "=="
  let less_great := conds.any fun c =>
    less_than_join_types.contains c.op || greater_than_join_types.contains c.op
  match conds with
  | [c] =>
    let left_c0 := df.colS c.left_on
    let right_c0 := rightF.colS c.right_on
    let left_c := if eq_check then left_c0.filter (fun p => p.2.isSome) else left_c0
    let right_c := if eq_check then right_c0.filter (fun p => p.2.isSome) else right_c0
    match _generic_func_cond_join left_c right_c c.op 1 with
    | none => none
    | some res => some (pairsOf (some res))
  | _ =>
    if eq_check then _multiple_conditional_join_eq df rightF conds
    else if less_great then _multiple_conditional_join_le_lt df rightF conds
    else _multiple_conditional_join_ne df rightF conds

/-- Models `_conditional_join_compute(df, right, conditions, how,
sort_by_appearance)` (source lines 119-198) after the dtype gate: the
optional pair-index result of the dispatch is handed to the assembler, and
`None` produces the typed empty frame. -/
def _conditional_join_compute (df : Frame) (right : RightObj)
    (conditions : List RawCond) (how : String) (sort_by_appearance : Bool) :
    Except String JoinedFrame :=
  match _conditional_join_preliminary_checks df right conditions how with
  | .error e => .error e
  | .ok (df, rightF, conds, how) =>
    match typeCheckAll df rightF conds with
    | .error e => .error e
    | .ok () =>
      match computeDispatch df rightF conds with
      | none => .ok (_create_conditional_join_empty_frame df rightF how)
      | some (li, ri) =>
        .ok (_create_conditional_join_frame df rightF li ri how sort_by_appearance)

/-- Models the public `conditional_join(df, right, *conditions, how,
sort_by_appearance)` (source lines 20-116), which forwards to the compute
function. -/
def conditional_join (df : Frame) (right : RightObj) (conditions : List RawCond)
    (how : String) (sort_by_appearance : Bool) : Except String JoinedFrame :=
  _conditional_join_compute df right conditions how sort_by_appearance

/-- A heap of pandas objects: the caller's frames live in numbered cells.
Mutating pandas statements (`df.index = ...`, `df.columns = ...`) are writes
to a cell; `df.copy()` allocates a fresh cell. -/
abbrev Store := List Frame

/-- Read a heap cell. -/
def Store.read (st : Store) (r : Nat) : Frame := st.getD r ⟨[], [], false, []⟩

/-- Overwrite a heap cell (models an in-place pandas mutation). -/
def Store.write (st : Store) (r : Nat) (f : Frame) : Store := st.set r f

/-- Allocate a fresh cell holding a copy of `f` (models `f.copy()`). -/
def Store.alloc (st : Store) (f : Frame) : Store × Nat := (st ++ [f], st.length)

/-- Heap-level model of one `conditional_join(df, right, ...)` call on two
caller-owned frames.  The preliminary checks only read; the defensive copies
(source lines 238-239) allocate fresh cells; every subsequent in-place
mutation of the source — the RangeIndex resets of lines 158-159 and the
column namespacing of lines 661-662 and 721-722 — targets the fresh cells
(written back through `Store.write` here; the index reset is the identity on
the embedded frame since labels are positions, and the namespacing is
carried by the result's column groups).  The computed result is read off the
fresh cells. -/
def conditional_join_heap (st : Store) (dfRef rightRef : Nat)
    (conditions : List RawCond) (how : String) (sort_by_appearance : Bool) :
    Store × Except String JoinedFrame :=
  let df0 := st.read dfRef
  let right0 := st.read rightRef
  let (st1, dfLoc) := st.alloc df0
  let (st2, rightLoc) := st1.alloc right0
  let st3 := st2.write dfLoc (st2.read dfLoc)
  let st4 := st3.write rightLoc (st3.read rightLoc)
  (st4, _conditional_join_compute (st4.read dfLoc)
    (RightObj.frame (st4.read rightLoc)) conditions how sort_by_appearance)

/-- The matched (left position, right position) pairs of a joined result:
the fully populated rows, in row order. -/
def matchedPairs (J : JoinedFrame) : List (Nat × Nat) :=
  J.rows.filterMap fun pr =>
    match pr with
    | (some l, some r) => some (l, r)
    | _ => none

/-- The pair (l, r) satisfies condition `c` on the original column values:
both cells are non-null and the operator's relation holds. -/
def condHolds (df rightF : Frame) (c : Cond) (l r : Nat) : Prop :=
  ∃ v w, (df.col c.left_on).getD l none = some v ∧
         (rightF.col c.right_on).getD r none = some w ∧ opRel c.op v w

/-- The usage and type defects that claim C6 lists: left or right table
empty, MultiIndex columns, unnamed (or empty-named) right Series, no
condition, a condition tuple of the wrong arity, a condition naming an
absent column, an unknown operator, an unsupported `how`, the two columns of
a condition not in one common family among {datetime, integer, float,
string, categorical}, or a string/categorical column under an operator other
than `==`. -/
def usageDefect (df : Frame) (right : RightObj) (conditions : List RawCond)
    (how : String) : Prop :=
  df.emptyF = true ∨
  right.toFrame.emptyF = true ∨
  df.multiCols = true ∨
  right.toFrame.multiCols = true ∨
  (∃ d v, right = RightObj.series none d v) ∨
  (∃ d v, right = RightObj.series (some "") d v) ∨
  conditions = [] ∨
  (∃ c ∈ conditions, c.length ≠ 3) ∨
  (∃ c ∈ conditions, df.cols.contains (c.getD 0 "") = false ∨
    right.toFrame.cols.contains (c.getD 1 "") = false) ∨
  (∃ c ∈ conditions, ([">", "<", ">=", "<=", "==", "!="].contains (c.getD 2 "")) = false) ∨
  (["inner", "left", "right"].contains how) = false ∨
  (∃ c ∈ conditions, df.dtypeOf (c.getD 0 "") = DType.other ∨
    right.toFrame.dtypeOf (c.getD 1 "") = DType.other ∨
    df.dtypeOf (c.getD 0 "") ≠ right.toFrame.dtypeOf (c.getD 1 "")) ∨
  (∃ c ∈ conditions,
    (df.dtypeOf (c.getD 0 "") = DType.str ∨ df.dtypeOf (c.getD 0 "") = DType.cat ∨
     right.toFrame.dtypeOf (c.getD 1 "") = DType.str ∨
     right.toFrame.dtypeOf (c.getD 1 "") = DType.cat) ∧ c.getD 2 "" ≠ "==")

/-- The surviving (left label, left value, insertion point) triples of
`_less_than_indices` — the state of the parallel arrays `left_index, left_c,
search_indices` right before `np.repeat(len_right, ...)` (source line 847).
Identical, step by step, to the working prefix of `_less_than_indices`. -/
def ltWork (left_c right_c : Series) (strict : Bool) : List (Nat × Int × Nat) :=
  let right_vals := (sort_values (dropna right_c)).map Prod.snd
  let len_right := right_vals.length
  let work1 := ((dropna left_c).map fun p => (p.1, p.2, searchsorted_left right_vals p.2)).filter
    fun t => decide (t.2.2 ≠ len_right)
  if strict then
    (work1.map fun t =>
      if right_vals.getD t.2.2 0 == t.2.1 then
        (t.1, t.2.1, searchsorted_right right_vals t.2.1)
      else t).filter fun t => decide (t.2.2 ≠ len_right)
  else work1

/-- The surviving (left label, left value, insertion point) triples of
`_greater_than_indices` — the state right before `np.zeros(...)` (source
line 933).  Identical, step by step, to the working prefix of
`_greater_than_indices`. -/
def gtWork (left_c right_c : Series) (strict : Bool) : List (Nat × Int × Nat) :=
  let right_vals := (sort_values (dropna right_c)).map Prod.snd
  let len_right := right_vals.length
  let work1 := ((dropna left_c).map fun p => (p.1, p.2, searchsorted_right right_vals p.2)).filter
    fun t => decide (1 ≤ t.2.2)
  if strict then
    (work1.map fun t =>
      if right_vals.getD (t.2.2 - 1) 0 == t.2.1 then
        let repl := searchsorted_left right_vals t.2.1
        (t.1, t.2.1, if repl == len_right then repl - 1 else repl)
      else t).filter fun t => decide (1 ≤ t.2.2)
  else work1

/-- The two parallel label arrays of a matcher result zipped into explicit
(left label, right label) pairs. -/
def pairList (pr : List Nat × List Nat) : List (Nat × Nat) := pr.1.zip pr.2

/-- The scatter positions `cum_length[:-1]` that `_interval_ranges` writes
to (as naturals), exactly as the definition computes them. -/
def scatterPositions (indices right : List Nat) : List Nat :=
  ((cumsum (List.zipWith (fun (r : Nat) (i : Nat) => (r : Int) - (i : Int)) right indices)).dropLast).map
    Int.toNat

/-- The length `cum_length[-1]` of the `ids` array `_interval_ranges`
allocates, exactly as the definition computes it. -/
def rangesTotal (indices right : List Nat) : Nat :=
  ((cumsum (List.zipWith (fun (r : Nat) (i : Nat) => (r : Int) - (i : Int)) right indices)).getLast?.getD 0).toNat

/-- Labels of a series are pairwise distinct (true of every series the
engine builds: frame labels are RangeIndex positions). -/
def labelsNodup (s : Series) : Prop := (s.map Prod.fst).Nodup

/-- Example frames for concrete instantiations: the spec §8 example —
left rows {id:1,val:5},{id:2,val:10}; right rows {id:1,val:7},{id:2,val:3}. -/
def exDf : Frame := ⟨["val"], [DType.int], false, [[some 5], [some 10]]⟩

/-- Right table of the spec §8 example. -/
def exRt : Frame := ⟨["val"], [DType.int], false, [[some 7], [some 3]]⟩

/-- One-row left frame with a null in column b (float columns admit NaN). -/
def exDfNull : Frame := ⟨["a", "b"], [DType.float, DType.float], false, [[some 1, none]]⟩

/-- One-row right frame with non-null x, y. -/
def exRtNull : Frame := ⟨["x", "y"], [DType.float, DType.float], false, [[some 2, some 5]]⟩

/-- Two-row frame with values 1, 2 in column a. -/
def exDfTwo : Frame := ⟨["a"], [DType.int], false, [[some 1], [some 2]]⟩

/-- Two-row frame with values 1, 2 in column b. -/
def exRtTwo : Frame := ⟨["b"], [DType.int], false, [[some 1], [some 2]]⟩

/-! ## Cumulative-sum and scatter lemmas for the interval expansion -/

theorem cumsum_append (xs ys : List Int) :
    cumsum (xs ++ ys) = cumsum xs ++ (cumsum ys).map (fun y => xs.sum + y) := by
  induction xs with
  | nil =>
    simp only [List.nil_append, cumsum, List.sum_nil, zero_add]
    simp
  | cons x xs ih =>
    have hc : (x :: xs) ++ ys = x :: (xs ++ ys) := rfl
    rw [hc]
    show x :: (cumsum (xs ++ ys)).map (fun y => x + y) = _
    rw [ih, List.map_append, List.map_map]
    show _ = x :: ((cumsum xs).map (fun y => x + y) ++
      (cumsum ys).map (fun y => (x :: xs).sum + y))
    congr 1
    congr 1
    refine List.map_congr_left fun a _ => ?_
    simp [Function.comp, List.sum_cons, add_assoc]

theorem cumsum_getLast (l : List Int) (h : l ≠ []) :
    (cumsum l).getLast?.getD 0 = l.sum := by
  induction l with
  | nil => simp at h
  | cons x xs ih =>
    cases xs with
    | nil => simp [cumsum]
    | cons y ys =>
      have hne : cumsum (y :: ys) ≠ [] := by simp [cumsum]
      have : (cumsum (x :: y :: ys)).getLast? =
          ((cumsum (y :: ys)).map (fun z => x + z)).getLast? := by
        simp only [cumsum]
        cases hmap : (cumsum (y :: ys)).map (fun z => x + z) with
        | nil => simp [cumsum] at hmap
        | cons a as => simp [hmap]
      rw [this, List.getLast?_map]
      have ih' := ih (by simp)
      cases hlast : (cumsum (y :: ys)).getLast? with
      | none => simp [hlast] at ih'; simp [List.getLast?_eq_none_iff] at hlast; exact absurd hlast hne
      | some a =>
        simp [hlast] at ih'
        simp [ih', List.sum_cons]

theorem sum_block (v : Int) (m : Nat) : (v :: List.replicate m 1).sum = v + m := by
  simp [List.sum_cons, List.sum_replicate, nsmul_eq_mul]

theorem cumsum_block (v : Int) (m : Nat) :
    cumsum (v :: List.replicate m 1) =
      (List.range (m + 1)).map (fun (i : Nat) => v + (i : Int)) := by
  induction m with
  | zero =>
    have h1 : List.range 1 = [0] := rfl
    rw [h1]
    show [v] = [v + ((0 : Nat) : Int)]
    norm_num
  | succ m ih =>
    have hsplit : v :: List.replicate (m + 1) (1 : Int) =
        (v :: List.replicate m 1) ++ [1] := by
      rw [List.replicate_succ']
      rfl
    rw [hsplit, cumsum_append, ih, sum_block]
    conv_rhs => rw [List.range_succ, List.map_append]
    refine congrArg _ ?_
    show [(v + (m : Int)) + 1] = [v + ((m + 1 : Nat) : Int)]
    push_cast
    ring_nf

theorem cumsum_all_pos (l : List Int) (h : ∀ x ∈ l, 1 ≤ x) :
    ∀ c ∈ cumsum l, 1 ≤ c := by
  induction l with
  | nil => simp [cumsum]
  | cons x xs ih =>
    intro c hc
    simp only [cumsum, List.mem_cons, List.mem_map] at hc
    rcases hc with rfl | ⟨d, hd, rfl⟩
    · exact h c (by simp)
    · have h1 := ih (fun y hy => h y (by simp [hy])) d hd
      have h2 := h x (by simp)
      omega

theorem sum_all_pos (l : List Int) (h : ∀ x ∈ l, 1 ≤ x) : (l.length : Int) ≤ l.sum := by
  induction l with
  | nil => simp
  | cons x xs ih =>
    have h1 := ih fun y hy => h y (by simp [hy])
    have h2 := h x (by simp)
    simp only [List.sum_cons, List.length_cons]
    push_cast
    omega

theorem foldl_set_append (l : List (Nat × Int)) (xs ys : List Int)
    (h : ∀ pv ∈ l, xs.length ≤ pv.1) :
    l.foldl (fun acc pv => acc.set pv.1 pv.2) (xs ++ ys) =
      xs ++ (l.map (fun pv => (pv.1 - xs.length, pv.2))).foldl
        (fun acc pv => acc.set pv.1 pv.2) ys := by
  induction l generalizing ys with
  | nil => simp
  | cons pv l ih =>
    simp only [List.foldl_cons, List.map_cons]
    rw [List.set_append, if_neg (by have := h pv (by simp); omega)]
    exact ih _ fun q hq => h q (by simp [hq])

theorem zipWith_sub_pos (is rs : List Nat)
    (h : List.Forall₂ (fun x y => x < y) is rs) :
    ∀ x ∈ List.zipWith (fun (r : Nat) (i : Nat) => (r : Int) - (i : Int)) rs is, 1 ≤ x := by
  induction h with
  | nil => simp
  | cons hxy htail ih =>
    intro x hx
    simp only [List.zipWith_cons_cons, List.mem_cons] at hx
    rcases hx with rfl | hx
    · omega
    · exact ih x hx

theorem range'_cast (a m : Nat) :
    (List.range' a m).map (fun (n : Nat) => (n : Int)) =
      (List.range m).map (fun (i : Nat) => (a : Int) + i) := by
  rw [List.range'_eq_map_range, List.map_map]
  refine List.map_congr_left fun i _ => ?_
  simp only [Function.comp_apply]
  push_cast
  ring

theorem interval_ranges_def (indices right : List Nat) :
    _interval_ranges indices right =
      cumsum ((List.zip
          (((cumsum (List.zipWith (fun (r : Nat) (i : Nat) => (r : Int) - (i : Int)) right indices)).dropLast).map Int.toNat)
          (List.zipWith (fun (i : Nat) (r : Nat) => (i : Int) - (r : Int) + 1) (indices.drop 1) right.dropLast)).foldl
        (fun acc pv => acc.set pv.1 pv.2)
        ((List.replicate
            ((cumsum (List.zipWith (fun (r : Nat) (i : Nat) => (r : Int) - (i : Int)) right indices)).getLast?.getD 0).toNat
            (1 : Int)).set 0 ((indices.headD 0 : Nat) : Int))) := rfl

theorem interval_ranges_single (a b : Nat) (hab : a < b) :
    _interval_ranges [a] [b] =
      (List.range' a (b - a)).map (fun (n : Nat) => (n : Int)) := by
  rw [interval_ranges_def]
  have h1 : List.zipWith (fun (r : Nat) (i : Nat) => (r : Int) - (i : Int)) [b] [a] =
      [(b : Int) - a] := rfl
  have h2 : cumsum [(b : Int) - a] = [(b : Int) - a] := rfl
  rw [h1, h2]
  have h3 : ([(b : Int) - a].dropLast).map Int.toNat = [] := rfl
  rw [h3]
  simp only [List.zip_nil_left, List.foldl_nil]
  have h4 : ([(b : Int) - a].getLast?.getD 0).toNat = b - a := by
    simp only [List.getLast?_singleton, Option.getD_some]
    omega
  rw [h4]
  have h5 : b - a = (b - a - 1) + 1 := by omega
  rw [h5, List.replicate_succ, List.set_cons_zero]
  have h6 : ([a] : List Nat).headD 0 = a := rfl
  rw [h6, cumsum_block, range'_cast]

theorem cumsum_ne_nil (l : List Int) (h : l ≠ []) : cumsum l ≠ [] := by
  cases l with
  | nil => exact absurd rfl h
  | cons x xs => simp [cumsum]

theorem set_replicate_zero (m : Nat) (v : Int) (h : 1 ≤ m) :
    (List.replicate m (1 : Int)).set 0 v = v :: List.replicate (m - 1) 1 := by
  cases m with
  | zero => omega
  | succ m => rw [List.replicate_succ, List.set_cons_zero]; rfl

theorem foldl_set_cons (x : Int) (ys : List Int) (l : List (Nat × Int))
    (h : ∀ pv ∈ l, 1 ≤ pv.1) :
    l.foldl (fun acc pv => acc.set pv.1 pv.2) (x :: ys) =
      x :: (l.map (fun pv => (pv.1 - 1, pv.2))).foldl
        (fun acc pv => acc.set pv.1 pv.2) ys := by
  have h1 : x :: ys = [x] ++ ys := rfl
  rw [h1, foldl_set_append l [x] ys (by simpa using h)]
  rfl

theorem interval_ranges_cons (a b a' b' : Nat) (as bs : List Nat)
    (hab : a < b)
    (hf : List.Forall₂ (fun x y => x < y) (a' :: as) (b' :: bs)) :
    _interval_ranges (a :: a' :: as) (b :: b' :: bs) =
      (List.range' a (b - a)).map (fun (n : Nat) => (n : Int)) ++
        _interval_ranges (a' :: as) (b' :: bs) := by
  have hls'pos : ∀ x ∈ List.zipWith (fun (r : Nat) (i : Nat) => (r : Int) - (i : Int))
      (b' :: bs) (a' :: as), 1 ≤ x := zipWith_sub_pos _ _ hf
  have hls'ne : List.zipWith (fun (r : Nat) (i : Nat) => (r : Int) - (i : Int))
      (b' :: bs) (a' :: as) ≠ [] := by simp
  have hcum'ne : cumsum (List.zipWith (fun (r : Nat) (i : Nat) => (r : Int) - (i : Int))
      (b' :: bs) (a' :: as)) ≠ [] := cumsum_ne_nil _ hls'ne
  have hcum'pos : ∀ c ∈ cumsum (List.zipWith (fun (r : Nat) (i : Nat) => (r : Int) - (i : Int))
      (b' :: bs) (a' :: as)), 1 ≤ c := cumsum_all_pos _ hls'pos
  have hsumpos : 1 ≤ (List.zipWith (fun (r : Nat) (i : Nat) => (r : Int) - (i : Int))
      (b' :: bs) (a' :: as)).sum := by
    have h1 := sum_all_pos _ hls'pos
    have h2 : 1 ≤ (List.zipWith (fun (r : Nat) (i : Nat) => (r : Int) - (i : Int))
        (b' :: bs) (a' :: as)).length := by simp
    have h3 : (1 : Int) ≤ (List.zipWith (fun (r : Nat) (i : Nat) => (r : Int) - (i : Int))
        (b' :: bs) (a' :: as)).length := by exact_mod_cast h2
    omega
  -- names for the reused pieces
  set LS := List.zipWith (fun (r : Nat) (i : Nat) => (r : Int) - (i : Int))
      (b' :: bs) (a' :: as) with hLS
  set TP := ((cumsum LS).dropLast).map Int.toNat with hTP
  set VS := List.zipWith (fun (i : Nat) (r : Nat) => (i : Int) - (r : Int) + 1)
      as ((b' :: bs).dropLast) with hVS
  set T' := LS.sum.toNat with hT'
  have hT'pos : 1 ≤ T' := by omega
  set F := ((List.zip TP VS).map (fun pv => (pv.1 - 1, pv.2))).foldl
      (fun acc pv => acc.set pv.1 pv.2) (List.replicate (T' - 1) (1 : Int)) with hF
  have hTPpos : ∀ p ∈ TP, 1 ≤ p := by
    intro p hp
    rw [hTP] at hp
    rcases List.mem_map.mp hp with ⟨c, hc, rfl⟩
    have := hcum'pos c (List.dropLast_subset _ hc)
    omega
  -- the tail call evaluates to cumsum (a' :: F)
  have htail : _interval_ranges (a' :: as) (b' :: bs) =
      cumsum (((a' : Nat) : Int) :: F) := by
    rw [interval_ranges_def]
    have e1 : ((a' :: as).headD 0 : Nat) = a' := rfl
    have e2 : (a' :: as).drop 1 = as := rfl
    have e3 : (cumsum LS).getLast?.getD 0 = LS.sum := cumsum_getLast _ hls'ne
    rw [e1, e2, ← hLS, ← hVS, ← hTP, e3, ← hT']
    rw [set_replicate_zero _ _ hT'pos]
    rw [foldl_set_cons _ _ _ (fun pv hpv => hTPpos pv.1 (List.of_mem_zip hpv).1)]
  -- the head call evaluates to cumsum (blockA ++ (v₀ :: F))
  have hbig : _interval_ranges (a :: a' :: as) (b :: b' :: bs) =
      cumsum ((((a : Nat) : Int) :: List.replicate (b - a - 1) 1) ++
        ((((a' : Nat) : Int) - (b : Nat) + 1) :: F)) := by
    rw [interval_ranges_def]
    have e1 : ((a :: a' :: as).headD 0 : Nat) = a := rfl
    have e2 : (a :: a' :: as).drop 1 = a' :: as := rfl
    have ezip : List.zipWith (fun (r : Nat) (i : Nat) => (r : Int) - (i : Int))
        (b :: b' :: bs) (a :: a' :: as) = ((b : Int) - a) :: LS := by
      rw [hLS]
      rfl
    have evals : List.zipWith (fun (i : Nat) (r : Nat) => (i : Int) - (r : Int) + 1)
        (a' :: as) ((b :: b' :: bs).dropLast) =
        (((a' : Nat) : Int) - (b : Nat) + 1) :: VS := by
      rw [List.dropLast_cons_of_ne_nil (by simp : (b' :: bs) ≠ [])]
      rw [hVS]
      rfl
    rw [e1, e2, ezip, evals]
    -- the cumulative length vector decomposes
    have ecum : cumsum (((b : Int) - a) :: LS) =
        ((b : Int) - a) :: (cumsum LS).map (fun y => ((b : Int) - a) + y) := rfl
    rw [ecum]
    -- total = (b - a) + T'
    have etot : ((((b : Int) - a) :: (cumsum LS).map (fun y => ((b : Int) - a) + y)).getLast?.getD 0).toNat =
        (b - a) + T' := by
      have h1 : (((b : Int) - a) :: (cumsum LS).map (fun y => ((b : Int) - a) + y)) =
          cumsum (((b : Int) - a) :: LS) := rfl
      rw [h1, cumsum_getLast _ (by simp), List.sum_cons, hT']
      omega
    rw [etot]
    -- positions decompose
    have epos : ((((b : Int) - a) :: (cumsum LS).map (fun y => ((b : Int) - a) + y)).dropLast).map Int.toNat =
        (b - a) :: TP.map (fun p => (b - a) + p) := by
      rw [List.dropLast_cons_of_ne_nil (by simpa using hcum'ne)]
      rw [← List.map_dropLast, List.map_cons, List.map_map, hTP, List.map_map]
      refine congrArg₂ List.cons (by omega) (List.map_congr_left fun c hc => ?_)
      have := hcum'pos c (List.dropLast_subset _ hc)
      simp only [Function.comp_apply]
      omega
    rw [epos]
    -- initial array decomposes
    have einit : (List.replicate ((b - a) + T') (1 : Int)).set 0 ((a : Nat) : Int) =
        (((a : Nat) : Int) :: List.replicate (b - a - 1) 1) ++ List.replicate T' 1 := by
      rw [List.replicate_add, List.set_append, if_pos (by simp; omega)]
      rw [set_replicate_zero _ _ (by omega)]
    rw [einit]
    -- the scatter fold decomposes
    have escat : List.zip ((b - a) :: TP.map (fun p => (b - a) + p))
        ((((a' : Nat) : Int) - (b : Nat) + 1) :: VS) =
        ((b - a), (((a' : Nat) : Int) - (b : Nat) + 1)) ::
          (List.zip TP VS).map (Prod.map (fun p => (b - a) + p) id) := by
      rw [List.zip_cons_cons, List.zip_map_left]
    rw [escat, List.foldl_cons]
    have eset : ((((a : Nat) : Int) :: List.replicate (b - a - 1) 1) ++ List.replicate T' 1).set
        (b - a) (((a' : Nat) : Int) - (b : Nat) + 1) =
        (((a : Nat) : Int) :: List.replicate (b - a - 1) 1) ++
          ((((a' : Nat) : Int) - (b : Nat) + 1) :: List.replicate (T' - 1) 1) := by
      rw [List.set_append, if_neg (by simp; omega)]
      refine congrArg _ ?_
      have h1 : (b - a) - (((a : Nat) : Int) :: List.replicate (b - a - 1) (1 : Int)).length = 0 := by
        simp
        omega
      rw [h1, set_replicate_zero _ _ hT'pos]
    rw [eset]
    rw [foldl_set_append _ _ _ (by
      intro pv hpv
      rcases List.mem_map.mp hpv with ⟨q, hq, rfl⟩
      simp only [Prod.map, List.length_cons, List.length_replicate]
      omega)]
    refine congrArg cumsum (congrArg _ ?_)
    have emap : ((List.zip TP VS).map (Prod.map (fun p => (b - a) + p) id)).map
        (fun pv => (pv.1 - (((a : Nat) : Int) :: List.replicate (b - a - 1) (1 : Int)).length, pv.2)) =
        List.zip TP VS := by
      rw [List.map_map]
      have : ∀ q ∈ List.zip TP VS,
          ((fun pv => (pv.1 - (((a : Nat) : Int) :: List.replicate (b - a - 1) (1 : Int)).length, pv.2)) ∘
            Prod.map (fun p => (b - a) + p) id) q = q := by
        intro q hq
        simp only [Function.comp_apply, Prod.map, List.length_cons, List.length_replicate, id]
        have h2 : (b - a) + q.1 - (b - a - 1 + 1) = q.1 := by omega
        rw [h2]
      rw [List.map_congr_left this]
      exact List.map_id _
    rw [emap]
    rw [foldl_set_cons _ _ _ (fun pv hpv => hTPpos pv.1 (List.of_mem_zip hpv).1)]
  -- assemble
  rw [hbig, htail, cumsum_append]
  have hhead : cumsum (((a : Nat) : Int) :: List.replicate (b - a - 1) 1) =
      (List.range' a (b - a)).map (fun (n : Nat) => (n : Int)) := by
    rw [cumsum_block, range'_cast]
    have : (b - a - 1) + 1 = b - a := by omega
    rw [this]
  rw [hhead]
  refine congrArg _ ?_
  have hsum : (((a : Nat) : Int) :: List.replicate (b - a - 1) 1).sum = (b : Int) - 1 := by
    rw [sum_block]
    have h1 : ((b - a - 1 : Nat) : Int) = (b : Int) - a - 1 := by omega
    rw [h1]
    ring
  rw [hsum]
  have hc1 : cumsum ((((a' : Nat) : Int) - (b : Nat) + 1) :: F) =
      (((a' : Nat) : Int) - (b : Nat) + 1) :: (cumsum F).map
        (fun y => (((a' : Nat) : Int) - (b : Nat) + 1) + y) := rfl
  have hc2 : cumsum (((a' : Nat) : Int) :: F) =
      ((a' : Nat) : Int) :: (cumsum F).map (fun y => ((a' : Nat) : Int) + y) := rfl
  rw [hc1, hc2, List.map_cons, List.map_map]
  refine congrArg₂ List.cons (by ring) (List.map_congr_left fun y _ => ?_)
  simp only [Function.comp_apply]
  ring

theorem interval_ranges_eq (indices right : List Nat)
    (h : List.Forall₂ (fun x y => x < y) indices right) (hne : indices ≠ []) :
    _interval_ranges indices right =
      ((List.zipWith (fun (x : Nat) (y : Nat) => List.range' x (y - x)) indices right).flatten).map
        (fun (n : Nat) => (n : Int)) := by
  induction indices generalizing right with
  | nil => exact absurd rfl hne
  | cons a as ih =>
    cases right with
    | nil => exact absurd (List.Forall₂.length_eq h) (by simp)
    | cons b bs =>
      have hab : a < b := (List.forall₂_cons.mp h).1
      have htail : List.Forall₂ (fun x y => x < y) as bs := (List.forall₂_cons.mp h).2
      cases as with
      | nil =>
        cases bs with
        | nil =>
          rw [interval_ranges_single a b hab]
          simp
        | cons b' bs' => exact absurd (List.Forall₂.length_eq htail) (by simp)
      | cons a' as' =>
        cases bs with
        | nil => exact absurd (List.Forall₂.length_eq htail) (by simp)
        | cons b' bs' =>
          rw [interval_ranges_cons a b a' b' as' bs' hab htail]
          rw [ih (b' :: bs') htail (by simp)]
          simp

theorem cumsum_dropLast_lt (l : List Int) (h : ∀ x ∈ l, 1 ≤ x) :
    ∀ c ∈ (cumsum l).dropLast, c < l.sum := by
  induction l with
  | nil => simp [cumsum]
  | cons x xs ih =>
    intro c hc
    cases xs with
    | nil => simp [cumsum] at hc
    | cons y ys =>
      have hmapne : (cumsum (y :: ys)).map (fun z => x + z) ≠ [] := by
        have := cumsum_ne_nil (y :: ys) (by simp)
        simpa using this
      have hun : cumsum (x :: y :: ys) = x :: (cumsum (y :: ys)).map (fun z => x + z) := rfl
      rw [hun, List.dropLast_cons_of_ne_nil hmapne, ← List.map_dropLast] at hc
      have hsum : 1 ≤ (y :: ys).sum := by
        have h1 := sum_all_pos (y :: ys) fun z hz => h z (by simp [hz])
        have h2 : (1 : Int) ≤ ((y :: ys).length : Int) := by
          have h3 : 1 ≤ (y :: ys).length := by simp
          exact_mod_cast h3
        omega
      simp only [List.mem_cons, List.mem_map] at hc
      rcases hc with rfl | ⟨d, hd, rfl⟩
      · simp only [List.sum_cons] at hsum ⊢
        omega
      · have hih := ih (fun z hz => h z (by simp [hz])) d hd
        simp only [List.sum_cons] at hih ⊢
        omega

theorem interval_ranges_in_bounds (indices right : List Nat)
    (h : List.Forall₂ (fun x y => x < y) indices right) (hne : indices ≠ []) :
    0 < rangesTotal indices right ∧
      ∀ p ∈ scatterPositions indices right, p < rangesTotal indices right := by
  have hpos := zipWith_sub_pos indices right h
  have hlsne : List.zipWith (fun (r : Nat) (i : Nat) => (r : Int) - (i : Int)) right indices ≠ [] := by
    cases indices with
    | nil => exact absurd rfl hne
    | cons a as =>
      cases right with
      | nil => exact absurd (List.Forall₂.length_eq h) (by simp)
      | cons b bs => simp
  have hsum : 1 ≤ (List.zipWith (fun (r : Nat) (i : Nat) => (r : Int) - (i : Int)) right indices).sum := by
    have h1 := sum_all_pos _ hpos
    have h2 : (List.zipWith (fun (r : Nat) (i : Nat) => (r : Int) - (i : Int)) right indices).length ≠ 0 := by
      simpa using hlsne
    have h3 : (1 : Int) ≤ (List.zipWith (fun (r : Nat) (i : Nat) => (r : Int) - (i : Int)) right indices).length := by
      omega
    omega
  have htot : rangesTotal indices right =
      ((List.zipWith (fun (r : Nat) (i : Nat) => (r : Int) - (i : Int)) right indices).sum).toNat := by
    unfold rangesTotal
    rw [cumsum_getLast _ hlsne]
  constructor
  · rw [htot]; omega
  · intro p hp
    unfold scatterPositions at hp
    rcases List.mem_map.mp hp with ⟨c, hc, rfl⟩
    have hlt := cumsum_dropLast_lt _ hpos c hc
    rw [htot]
    omega

/-! ## Sorting, null-dropping and binary search facts -/

theorem is_mono_iff (r : List (Nat × Int)) :
    is_monotonic_increasing r = true ↔ List.Chain' valLe r := by
  induction r with
  | nil => simp [is_monotonic_increasing]
  | cons a t ih =>
    cases t with
    | nil => simp [is_monotonic_increasing]
    | cons b t' =>
      rw [List.chain'_cons]
      simp only [is_monotonic_increasing, Bool.and_eq_true, decide_eq_true_eq]
      rw [ih]
      rfl

theorem sort_values_perm (r : List (Nat × Int)) : (sort_values r).Perm r := by
  unfold sort_values
  split
  · exact List.Perm.refl r
  · exact List.perm_insertionSort valLe r

theorem sort_values_sorted (r : List (Nat × Int)) : List.Sorted valLe (sort_values r) := by
  unfold sort_values
  split
  case isTrue h => exact List.chain'_iff_pairwise.mp ((is_mono_iff r).mp h)
  case isFalse h => exact List.sorted_insertionSort valLe r

theorem sort_values_snd_sorted (r : List (Nat × Int)) :
    List.Pairwise (fun (x : Int) (y : Int) => x ≤ y) ((sort_values r).map Prod.snd) :=
  List.Pairwise.map Prod.snd (fun _ _ h => h) (sort_values_sorted r)

theorem mem_dropna (s : Series) (i : Nat) (v : Int) :
    (i, v) ∈ dropna s ↔ (i, some v) ∈ s := by
  unfold dropna
  rw [List.mem_filterMap]
  constructor
  · rintro ⟨⟨j, w⟩, hmem, hmap⟩
    cases w with
    | none => simp at hmap
    | some u =>
      simp only [Option.some.injEq, Prod.mk.injEq] at hmap
      obtain ⟨rfl, rfl⟩ := hmap
      exact hmem
  · intro hmem
    exact ⟨(i, some v), hmem, rfl⟩

theorem dropna_fst_sublist (s : Series) :
    ((dropna s).map Prod.fst).Sublist (s.map Prod.fst) := by
  induction s with
  | nil => simp [dropna]
  | cons p tl ih =>
    unfold dropna at ih ⊢
    cases hp : p.2 with
    | none =>
      rw [List.filterMap_cons]
      simp only [hp, List.map_cons]
      exact List.Sublist.cons p.1 ih
    | some v =>
      rw [List.filterMap_cons]
      simp only [hp, List.map_cons]
      exact ih.cons₂ p.1

theorem dropna_nodup (s : Series) (h : labelsNodup s) :
    ((dropna s).map Prod.fst).Nodup :=
  (dropna_fst_sublist s).nodup h

theorem sorted_countP_lt (l : List Int) (hs : List.Pairwise (fun (x : Int) (y : Int) => x ≤ y) l)
    (v : Int) :
    ∀ p, p < l.length → (l.getD p 0 < v ↔ p < l.countP (fun w => decide (w < v))) := by
  induction l with
  | nil => intro p hp; simp at hp
  | cons x xs ih =>
    intro p hp
    have hx : ∀ y ∈ xs, x ≤ y := fun y hy => List.rel_of_pairwise_cons hs hy
    have hxs := hs.of_cons
    rw [List.countP_cons]
    cases p with
    | zero =>
      rw [List.getD_cons_zero]
      constructor
      · intro h0
        rw [if_pos (by simpa using h0)]
        omega
      · intro h0
        by_contra hneg
        have hz : xs.countP (fun w => decide (w < v)) = 0 := by
          rw [List.countP_eq_zero]
          intro y hy
          have := hx y hy
          simp only [decide_eq_true_eq]
          omega
        rw [hz, if_neg (by simpa using hneg)] at h0
        omega
    | succ p =>
      rw [List.getD_cons_succ]
      have hp' : p < xs.length := by simpa using hp
      by_cases hxv : x < v
      · rw [if_pos (by simpa using hxv)]
        rw [ih hxs p hp']
        omega
      · rw [if_neg (by simpa using hxv)]
        have hz : xs.countP (fun w => decide (w < v)) = 0 := by
          rw [List.countP_eq_zero]
          intro y hy
          have := hx y hy
          simp only [decide_eq_true_eq]
          omega
        rw [hz]
        constructor
        · intro h0
          have hmem : xs.getD p 0 ∈ xs := by
            rw [List.getD_eq_getElem _ _ hp']
            exact List.getElem_mem hp'
          have := hx _ hmem
          omega
        · omega

theorem sorted_countP_le (l : List Int) (hs : List.Pairwise (fun (x : Int) (y : Int) => x ≤ y) l)
    (v : Int) :
    ∀ p, p < l.length → (l.getD p 0 ≤ v ↔ p < l.countP (fun w => decide (w ≤ v))) := by
  induction l with
  | nil => intro p hp; simp at hp
  | cons x xs ih =>
    intro p hp
    have hx : ∀ y ∈ xs, x ≤ y := fun y hy => List.rel_of_pairwise_cons hs hy
    have hxs := hs.of_cons
    rw [List.countP_cons]
    cases p with
    | zero =>
      rw [List.getD_cons_zero]
      constructor
      · intro h0
        rw [if_pos (by simpa using h0)]
        omega
      · intro h0
        by_contra hneg
        have hz : xs.countP (fun w => decide (w ≤ v)) = 0 := by
          rw [List.countP_eq_zero]
          intro y hy
          have := hx y hy
          simp only [decide_eq_true_eq]
          omega
        rw [hz, if_neg (by simpa using hneg)] at h0
        omega
    | succ p =>
      rw [List.getD_cons_succ]
      have hp' : p < xs.length := by simpa using hp
      by_cases hxv : x ≤ v
      · rw [if_pos (by simpa using hxv)]
        rw [ih hxs p hp']
        omega
      · rw [if_neg (by simpa using hxv)]
        have hz : xs.countP (fun w => decide (w ≤ v)) = 0 := by
          rw [List.countP_eq_zero]
          intro y hy
          have := hx y hy
          simp only [decide_eq_true_eq]
          omega
        rw [hz]
        constructor
        · intro h0
          have hmem : xs.getD p 0 ∈ xs := by
            rw [List.getD_eq_getElem _ _ hp']
            exact List.getElem_mem hp'
          have := hx _ hmem
          omega
        · omega

theorem lt_no_tie (rv : List Int) (hs : List.Pairwise (fun (x : Int) (y : Int) => x ≤ y) rv)
    (v : Int) (hlt : searchsorted_left rv v < rv.length)
    (hne : ¬ rv.getD (searchsorted_left rv v) 0 = v) :
    searchsorted_right rv v = searchsorted_left rv v := by
  have hge : ¬ rv.getD (searchsorted_left rv v) 0 < v := by
    intro hcon
    have := (sorted_countP_lt rv hs v _ hlt).mp hcon
    exact absurd this (by unfold searchsorted_left; omega)
  have hgt : v < rv.getD (searchsorted_left rv v) 0 := by
    rcases lt_trichotomy (rv.getD (searchsorted_left rv v) 0) v with h | h | h
    · exact absurd h hge
    · exact absurd h hne
    · exact h
  have hle : searchsorted_right rv v ≤ searchsorted_left rv v := by
    by_contra hcon
    have h1 : searchsorted_left rv v < searchsorted_right rv v := by omega
    have := (sorted_countP_le rv hs v _ hlt).mpr h1
    omega
  have hmono : searchsorted_left rv v ≤ searchsorted_right rv v := by
    unfold searchsorted_left searchsorted_right
    exact List.countP_mono_left fun x _ hx => by
      simp only [decide_eq_true_eq] at hx ⊢
      omega
  omega

theorem gt_no_tie (rv : List Int) (hs : List.Pairwise (fun (x : Int) (y : Int) => x ≤ y) rv)
    (v : Int) (h1 : 1 ≤ searchsorted_right rv v)
    (hne : ¬ rv.getD (searchsorted_right rv v - 1) 0 = v) :
    searchsorted_left rv v = searchsorted_right rv v := by
  have hlen : searchsorted_right rv v ≤ rv.length := List.countP_le_length _
  have hp : searchsorted_right rv v - 1 < rv.length := by omega
  have hle : rv.getD (searchsorted_right rv v - 1) 0 ≤ v := by
    rw [sorted_countP_le rv hs v _ hp]
    unfold searchsorted_right at h1 ⊢
    omega
  have hlt : rv.getD (searchsorted_right rv v - 1) 0 < v := by
    rcases lt_or_eq_of_le hle with h | h
    · exact h
    · exact absurd h hne
  have h2 : searchsorted_right rv v - 1 < searchsorted_left rv v := by
    unfold searchsorted_left
    rw [← sorted_countP_lt rv hs v _ hp]
    exact hlt
  have hmono : searchsorted_left rv v ≤ searchsorted_right rv v := by
    unfold searchsorted_left searchsorted_right
    exact List.countP_mono_left fun x _ hx => by
      simp only [decide_eq_true_eq] at hx ⊢
      omega
  omega

theorem gt_tie_no_clamp (rv : List Int)
    (hs : List.Pairwise (fun (x : Int) (y : Int) => x ≤ y) rv)
    (v : Int) (h1 : 1 ≤ searchsorted_right rv v)
    (heq : rv.getD (searchsorted_right rv v - 1) 0 = v) :
    searchsorted_left rv v ≠ rv.length := by
  have hlen : searchsorted_right rv v ≤ rv.length := List.countP_le_length _
  have hp : searchsorted_right rv v - 1 < rv.length := by omega
  have hnlt : ¬ rv.getD (searchsorted_right rv v - 1) 0 < v := by omega
  rw [sorted_countP_lt rv hs v _ hp] at hnlt
  unfold searchsorted_left
  omega

theorem filter_map_eq_filterMap {α β : Type} (f : α → β) (q : β → Bool) (l : List α) :
    (l.map f).filter q = l.filterMap fun a => if q (f a) then some (f a) else none := by
  induction l with
  | nil => rfl
  | cons x xs ih => by_cases h : q (f x) <;> simp [h, ih]

theorem ss_left_le_right (rv : List Int) (v : Int) :
    searchsorted_left rv v ≤ searchsorted_right rv v := by
  unfold searchsorted_left searchsorted_right
  exact List.countP_mono_left fun x _ hx => by
    simp only [decide_eq_true_eq] at hx ⊢
    omega

theorem ss_left_le_length (rv : List Int) (v : Int) :
    searchsorted_left rv v ≤ rv.length := List.countP_le_length _

theorem ss_right_le_length (rv : List Int) (v : Int) :
    searchsorted_right rv v ≤ rv.length := List.countP_le_length _

/-- The surviving work rows of `_less_than_indices` are exactly the non-null
left rows whose insertion point (right-bias when strict, left-bias when not)
lies strictly inside the sorted right array — the per-row collapse of the
filter/replace/filter pipeline. -/
theorem ltWork_eq (L R : Series) (strict : Bool) :
    ltWork L R strict = (dropna L).filterMap (fun p =>
      if (if strict then searchsorted_right ((sort_values (dropna R)).map Prod.snd) p.2
          else searchsorted_left ((sort_values (dropna R)).map Prod.snd) p.2) <
          ((sort_values (dropna R)).map Prod.snd).length
      then some (p.1, p.2,
        if strict then searchsorted_right ((sort_values (dropna R)).map Prod.snd) p.2
        else searchsorted_left ((sort_values (dropna R)).map Prod.snd) p.2)
      else none) := by
  have hs := sort_values_snd_sorted (dropna R)
  simp only [ltWork]
  revert hs
  generalize (sort_values (dropna R)).map Prod.snd = rv
  intro hs
  cases strict with
  | false =>
    simp only [Bool.false_eq_true, if_false]
    rw [filter_map_eq_filterMap]
    refine List.filterMap_congr fun p _ => ?_
    have hle := ss_left_le_length rv p.2
    by_cases h : searchsorted_left rv p.2 = rv.length
    · rw [if_neg (by simpa using h), if_neg (by omega)]
    · rw [if_pos (by simpa using h), if_pos (by omega)]
  | true =>
    simp only [if_true]
    rw [filter_map_eq_filterMap, filter_map_eq_filterMap, List.filterMap_filterMap]
    refine List.filterMap_congr fun p _ => ?_
    have hle := ss_left_le_length rv p.2
    have hrle := ss_right_le_length rv p.2
    have hmono := ss_left_le_right rv p.2
    by_cases h0 : searchsorted_left rv p.2 = rv.length
    · rw [if_neg (by simpa using h0), Option.none_bind, if_neg (by omega)]
    · rw [if_pos (by simpa using h0), Option.some_bind]
      by_cases htie : rv.getD (searchsorted_left rv p.2) 0 = p.2
      · simp only [beq_iff_eq, htie, if_pos rfl, eq_self_iff_true, if_true]
        by_cases h1 : searchsorted_right rv p.2 = rv.length
        · rw [if_neg (by simpa using h1), if_neg (by omega)]
        · have hcond : searchsorted_right rv p.2 < rv.length := by omega
          rw [if_pos (by simpa using h1), if_pos hcond]
      · simp only [beq_iff_eq, if_neg htie]
        have heqq := lt_no_tie rv hs p.2 (by omega) htie
        rw [heqq]
        rw [if_pos (by simpa using h0), if_pos (by omega)]

/-- The surviving work rows of `_greater_than_indices` are exactly the
non-null left rows whose insertion point (left-bias when strict, right-bias
when not) is positive — the per-row collapse of the pipeline, including the
unreachable `replacements - 1` clamp. -/
theorem gtWork_eq (L R : Series) (strict : Bool) :
    gtWork L R strict = (dropna L).filterMap (fun p =>
      if 0 < (if strict then searchsorted_left ((sort_values (dropna R)).map Prod.snd) p.2
              else searchsorted_right ((sort_values (dropna R)).map Prod.snd) p.2)
      then some (p.1, p.2,
        if strict then searchsorted_left ((sort_values (dropna R)).map Prod.snd) p.2
        else searchsorted_right ((sort_values (dropna R)).map Prod.snd) p.2)
      else none) := by
  have hs := sort_values_snd_sorted (dropna R)
  simp only [gtWork]
  revert hs
  generalize (sort_values (dropna R)).map Prod.snd = rv
  intro hs
  cases strict with
  | false =>
    simp only [Bool.false_eq_true, if_false]
    rw [filter_map_eq_filterMap]
    refine List.filterMap_congr fun p _ => ?_
    by_cases h : 1 ≤ searchsorted_right rv p.2
    · rw [if_pos (by simpa using h), if_pos (by omega)]
    · rw [if_neg (by simpa using h), if_neg (by omega)]
  | true =>
    simp only [if_true]
    rw [filter_map_eq_filterMap, filter_map_eq_filterMap, List.filterMap_filterMap]
    refine List.filterMap_congr fun p _ => ?_
    have hmono := ss_left_le_right rv p.2
    by_cases h0 : 1 ≤ searchsorted_right rv p.2
    · rw [if_pos (by simpa using h0), Option.some_bind]
      by_cases htie : rv.getD (searchsorted_right rv p.2 - 1) 0 = p.2
      · have hnoclamp := gt_tie_no_clamp rv hs p.2 h0 htie
        simp only [beq_iff_eq, htie, if_pos rfl, eq_self_iff_true, if_true, if_neg hnoclamp]
        by_cases h1 : 1 ≤ searchsorted_left rv p.2
        · have hcond : 0 < searchsorted_left rv p.2 := by omega
          rw [if_pos (by simpa using h1), if_pos hcond]
        · rw [if_neg (by simpa using h1), if_neg (by omega)]
      · simp only [beq_iff_eq, if_neg htie]
        have heqq := gt_no_tie rv hs p.2 h0 htie
        rw [← heqq] at h0 ⊢
        rw [if_pos (by simpa using h0), if_pos (by omega)]
    · rw [if_neg (by simpa using h0), Option.none_bind, if_neg (by omega)]

theorem listMin_le (l : List Int) (m : Int) (h : listMin l = some m) :
    ∀ v ∈ l, m ≤ v := by
  induction l generalizing m with
  | nil => simp [listMin] at h
  | cons x xs ih =>
    intro v hv
    simp only [listMin] at h
    rcases List.mem_cons.mp hv with rfl | hv'
    · cases hxs : listMin xs with
      | none => rw [hxs] at h; simp at h; omega
      | some m' => rw [hxs] at h; simp at h; omega
    · cases hxs : listMin xs with
      | none =>
        cases xs with
        | nil => simp at hv'
        | cons y ys => simp [listMin] at hxs
      | some m' =>
        have := ih m' hxs v hv'
        rw [hxs] at h
        simp at h
        omega

theorem le_listMax (l : List Int) (m : Int) (h : listMax l = some m) :
    ∀ v ∈ l, v ≤ m := by
  induction l generalizing m with
  | nil => simp [listMax] at h
  | cons x xs ih =>
    intro v hv
    simp only [listMax] at h
    rcases List.mem_cons.mp hv with rfl | hv'
    · cases hxs : listMax xs with
      | none => rw [hxs] at h; simp at h; omega
      | some m' => rw [hxs] at h; simp at h; omega
    · cases hxs : listMax xs with
      | none =>
        cases xs with
        | nil => simp at hv'
        | cons y ys => simp [listMax] at hxs
      | some m' =>
        have := ih m' hxs v hv'
        rw [hxs] at h
        simp at h
        omega

theorem mem_svals (s : Series) (v : Int) : v ∈ svals s ↔ ∃ i, (i, some v) ∈ s := by
  unfold svals
  rw [List.mem_filterMap]
  constructor
  · rintro ⟨⟨i, w⟩, hm, hw⟩
    exact ⟨i, by simpa [show w = some v from hw] using hm⟩
  · rintro ⟨i, hm⟩
    exact ⟨(i, some v), hm, rfl⟩

theorem rv_mem_svals (R : Series) (w : Int)
    (hw : w ∈ (sort_values (dropna R)).map Prod.snd) : w ∈ svals R := by
  rcases List.mem_map.mp hw with ⟨⟨j, w'⟩, hm, rfl⟩
  have hm' : (j, w') ∈ dropna R := (sort_values_perm (dropna R)).mem_iff.mp hm
  exact (mem_svals R w').mpr ⟨j, (mem_dropna R j w').mp hm'⟩

theorem ltWork_nil_of_minGtMax (L R : Series) (strict : Bool)
    (h : minGtMax L R = true) : ltWork L R strict = [] := by
  rw [ltWork_eq, List.filterMap_eq_nil_iff]
  intro p hp
  unfold minGtMax at h
  cases hmin : listMin (svals L) with
  | none => rw [hmin] at h; simp at h
  | some a =>
    cases hmax : listMax (svals R) with
    | none => rw [hmin, hmax] at h; simp at h
    | some b =>
      rw [hmin, hmax] at h
      simp only [decide_eq_true_eq] at h
      have hva : a ≤ p.2 := by
        refine listMin_le _ _ hmin p.2 ((mem_svals L p.2).mpr ⟨p.1, ?_⟩)
        exact (mem_dropna L p.1 p.2).mp hp
      have hall : ∀ w ∈ (sort_values (dropna R)).map Prod.snd, w ≤ p.2 ∧ w < p.2 := by
        intro w hw
        have := le_listMax _ _ hmax w (rv_mem_svals R w hw)
        omega
      have hleft : searchsorted_left ((sort_values (dropna R)).map Prod.snd) p.2 =
          ((sort_values (dropna R)).map Prod.snd).length := by
        unfold searchsorted_left
        rw [List.countP_eq_length]
        intro w hw
        simpa using (hall w hw).2
      have hright : searchsorted_right ((sort_values (dropna R)).map Prod.snd) p.2 =
          ((sort_values (dropna R)).map Prod.snd).length := by
        unfold searchsorted_right
        rw [List.countP_eq_length]
        intro w hw
        simpa using (hall w hw).1
      cases strict with
      | false => rw [if_neg (by simp only [Bool.false_eq_true, if_false, hleft]; omega)]
      | true => rw [if_neg (by simp only [if_true, hright]; omega)]

theorem gtWork_nil_of_maxLtMin (L R : Series) (strict : Bool)
    (h : maxLtMin L R = true) : gtWork L R strict = [] := by
  rw [gtWork_eq, List.filterMap_eq_nil_iff]
  intro p hp
  unfold maxLtMin at h
  cases hmax : listMax (svals L) with
  | none => rw [hmax] at h; simp at h
  | some a =>
    cases hmin : listMin (svals R) with
    | none => rw [hmax, hmin] at h; simp at h
    | some b =>
      rw [hmax, hmin] at h
      simp only [decide_eq_true_eq] at h
      have hva : p.2 ≤ a := by
        refine le_listMax _ _ hmax p.2 ((mem_svals L p.2).mpr ⟨p.1, ?_⟩)
        exact (mem_dropna L p.1 p.2).mp hp
      have hall : ∀ w ∈ (sort_values (dropna R)).map Prod.snd, ¬ w ≤ p.2 ∧ ¬ w < p.2 := by
        intro w hw
        have := listMin_le _ _ hmin w (rv_mem_svals R w hw)
        omega
      have hleft : searchsorted_left ((sort_values (dropna R)).map Prod.snd) p.2 = 0 := by
        unfold searchsorted_left
        rw [List.countP_eq_zero]
        intro w hw
        simpa using (hall w hw).2
      have hright : searchsorted_right ((sort_values (dropna R)).map Prod.snd) p.2 = 0 := by
        unfold searchsorted_right
        rw [List.countP_eq_zero]
        intro w hw
        simpa using (hall w hw).1
      cases strict with
      | false => rw [if_neg (by simp only [Bool.false_eq_true, if_false, hright]; omega)]
      | true => rw [if_neg (by simp only [if_true, hleft]; omega)]

theorem lt_indices_def (L R : Series) (strict : Bool) (k : Nat) :
    _less_than_indices L R strict k =
      (if minGtMax L R then none
       else if (((dropna L).map fun p =>
            (p.1, p.2, searchsorted_left ((sort_values (dropna R)).map Prod.snd) p.2)).filter
            fun t => decide (t.2.2 ≠ ((sort_values (dropna R)).map Prod.snd).length)).isEmpty then none
       else if (ltWork L R strict).isEmpty then none
       else if 1 < k then
         some (.bounds ((ltWork L R strict).map fun t => t.1)
           ((sort_values (dropna R)).map Prod.fst)
           ((ltWork L R strict).map fun t => t.2.2)
           (List.replicate ((ltWork L R strict).map fun t => t.2.2).length
             ((sort_values (dropna R)).map Prod.snd).length))
       else
         some (.pairs
           ((List.zipWith (fun i c => List.replicate c i)
             ((ltWork L R strict).map fun t => t.1)
             (List.zipWith (fun a b => a - b)
               (List.replicate ((ltWork L R strict).map fun t => t.2.2).length
                 ((sort_values (dropna R)).map Prod.snd).length)
               ((ltWork L R strict).map fun t => t.2.2))).flatten)
           ((_interval_ranges ((ltWork L R strict).map fun t => t.2.2)
             (List.replicate ((ltWork L R strict).map fun t => t.2.2).length
               ((sort_values (dropna R)).map Prod.snd).length)).map
             (fun p => ((sort_values (dropna R)).map Prod.fst).getD p.toNat 0)))) := rfl

theorem gt_indices_def (L R : Series) (strict : Bool) (k : Nat) :
    _greater_than_indices L R strict k =
      (if maxLtMin L R then none
       else if (((dropna L).map fun p =>
            (p.1, p.2, searchsorted_right ((sort_values (dropna R)).map Prod.snd) p.2)).filter
            fun t => decide (1 ≤ t.2.2)).isEmpty then none
       else if (gtWork L R strict).isEmpty then none
       else if 1 < k then
         some (.bounds ((gtWork L R strict).map fun t => t.1)
           ((sort_values (dropna R)).map Prod.fst)
           ((gtWork L R strict).map fun t => t.2.2)
           (List.replicate ((gtWork L R strict).map fun t => t.2.2).length 0))
       else
         some (.pairs
           ((List.zipWith (fun i c => List.replicate c i)
             ((gtWork L R strict).map fun t => t.1)
             ((gtWork L R strict).map fun t => t.2.2)).flatten)
           ((_interval_ranges
             (List.replicate ((gtWork L R strict).map fun t => t.2.2).length 0)
             ((gtWork L R strict).map fun t => t.2.2)).map
             (fun p => ((sort_values (dropna R)).map Prod.fst).getD p.toNat 0)))) := rfl

theorem ltWork_of_work1_nil (L R : Series) (strict : Bool)
    (h : ((dropna L).map fun p =>
        (p.1, p.2, searchsorted_left ((sort_values (dropna R)).map Prod.snd) p.2)).filter
        (fun t => decide (t.2.2 ≠ ((sort_values (dropna R)).map Prod.snd).length)) = []) :
    ltWork L R strict = [] := by
  simp only [ltWork]
  cases strict with
  | false => simpa using h
  | true => simp only [if_true]; rw [h]; rfl

theorem gtWork_of_work1_nil (L R : Series) (strict : Bool)
    (h : ((dropna L).map fun p =>
        (p.1, p.2, searchsorted_right ((sort_values (dropna R)).map Prod.snd) p.2)).filter
        (fun t => decide (1 ≤ t.2.2)) = []) :
    gtWork L R strict = [] := by
  simp only [gtWork]
  cases strict with
  | false => simpa using h
  | true => simp only [if_true]; rw [h]; rfl

theorem lt_indices_eq (L R : Series) (strict : Bool) (k : Nat) :
    _less_than_indices L R strict k =
      if ltWork L R strict = [] then none
      else if 1 < k then
        some (.bounds ((ltWork L R strict).map fun t => t.1)
          ((sort_values (dropna R)).map Prod.fst)
          ((ltWork L R strict).map fun t => t.2.2)
          (List.replicate ((ltWork L R strict).map fun t => t.2.2).length
            ((sort_values (dropna R)).map Prod.snd).length))
      else
        some (.pairs
          ((List.zipWith (fun i c => List.replicate c i)
            ((ltWork L R strict).map fun t => t.1)
            (List.zipWith (fun a b => a - b)
              (List.replicate ((ltWork L R strict).map fun t => t.2.2).length
                ((sort_values (dropna R)).map Prod.snd).length)
              ((ltWork L R strict).map fun t => t.2.2))).flatten)
          ((_interval_ranges ((ltWork L R strict).map fun t => t.2.2)
            (List.replicate ((ltWork L R strict).map fun t => t.2.2).length
              ((sort_values (dropna R)).map Prod.snd).length)).map
            (fun p => ((sort_values (dropna R)).map Prod.fst).getD p.toNat 0))) := by
  rw [lt_indices_def]
  by_cases hm : minGtMax L R = true
  · rw [if_pos hm, if_pos (ltWork_nil_of_minGtMax L R strict hm)]
  · rw [if_neg (by simpa using hm)]
    by_cases h1 : ((dropna L).map fun p =>
        (p.1, p.2, searchsorted_left ((sort_values (dropna R)).map Prod.snd) p.2)).filter
        (fun t => decide (t.2.2 ≠ ((sort_values (dropna R)).map Prod.snd).length)) = []
    · rw [if_pos (by simpa [List.isEmpty_iff] using h1),
        if_pos (ltWork_of_work1_nil L R strict h1)]
    · rw [if_neg (by simpa [List.isEmpty_iff] using h1)]
      by_cases h2 : ltWork L R strict = []
      · rw [if_pos (by simpa [List.isEmpty_iff] using h2), if_pos h2]
      · rw [if_neg (by simpa [List.isEmpty_iff] using h2), if_neg h2]

theorem gt_indices_eq (L R : Series) (strict : Bool) (k : Nat) :
    _greater_than_indices L R strict k =
      if gtWork L R strict = [] then none
      else if 1 < k then
        some (.bounds ((gtWork L R strict).map fun t => t.1)
          ((sort_values (dropna R)).map Prod.fst)
          ((gtWork L R strict).map fun t => t.2.2)
          (List.replicate ((gtWork L R strict).map fun t => t.2.2).length 0))
      else
        some (.pairs
          ((List.zipWith (fun i c => List.replicate c i)
            ((gtWork L R strict).map fun t => t.1)
            ((gtWork L R strict).map fun t => t.2.2)).flatten)
          ((_interval_ranges
            (List.replicate ((gtWork L R strict).map fun t => t.2.2).length 0)
            ((gtWork L R strict).map fun t => t.2.2)).map
            (fun p => ((sort_values (dropna R)).map Prod.fst).getD p.toNat 0))) := by
  rw [gt_indices_def]
  by_cases hm : maxLtMin L R = true
  · rw [if_pos hm, if_pos (gtWork_nil_of_maxLtMin L R strict hm)]
  · rw [if_neg (by simpa using hm)]
    by_cases h1 : ((dropna L).map fun p =>
        (p.1, p.2, searchsorted_right ((sort_values (dropna R)).map Prod.snd) p.2)).filter
        (fun t => decide (1 ≤ t.2.2)) = []
    · rw [if_pos (by simpa [List.isEmpty_iff] using h1),
        if_pos (gtWork_of_work1_nil L R strict h1)]
    · rw [if_neg (by simpa [List.isEmpty_iff] using h1)]
      by_cases h2 : gtWork L R strict = []
      · rw [if_pos (by simpa [List.isEmpty_iff] using h2), if_pos h2]
      · rw [if_neg (by simpa [List.isEmpty_iff] using h2), if_neg h2]

theorem zipWith_replicate_right' {α β γ : Type} (f : α → β → γ) (l : List α) (b : β) :
    List.zipWith f l (List.replicate l.length b) = l.map fun a => f a b := by
  induction l with
  | nil => rfl
  | cons x xs ih => simp only [List.length_cons, List.replicate_succ,
      List.zipWith_cons_cons, List.map_cons, ih]

theorem zipWith_replicate_left' {α β γ : Type} (f : α → β → γ) (a : α) (l : List β) :
    List.zipWith f (List.replicate l.length a) l = l.map fun b => f a b := by
  induction l with
  | nil => rfl
  | cons x xs ih => simp only [List.length_cons, List.replicate_succ,
      List.zipWith_cons_cons, List.map_cons, ih]

theorem zip_replicate_left' {α β : Type} (a : α) (l : List β) (k : Nat)
    (h : l.length = k) :
    (List.replicate k a).zip l = l.map fun b => (a, b) := by
  subst h
  induction l with
  | nil => rfl
  | cons x xs ih => simp only [List.length_cons, List.replicate_succ,
      List.zip_cons_cons, List.map_cons, ih]

theorem zip_flatten {α β : Type} (xs : List (List α)) (ys : List (List β))
    (h : List.Forall₂ (fun (u : List α) (v : List β) => u.length = v.length) xs ys) :
    xs.flatten.zip ys.flatten = (List.zipWith (fun u v => u.zip v) xs ys).flatten := by
  induction h with
  | nil => rfl
  | cons hlen htail ih =>
    simp only [List.flatten_cons, List.zipWith_cons_cons]
    rw [List.zip_append hlen, ih]

theorem forall₂_replicate_right {α β : Type} (r : α → β → Prop) (l : List α) (b : β) :
    List.Forall₂ r l (List.replicate l.length b) ↔ ∀ a ∈ l, r a b := by
  induction l with
  | nil => simp
  | cons x xs ih =>
    simp only [List.length_cons, List.replicate_succ, List.forall₂_cons, List.mem_cons]
    constructor
    · rintro ⟨hx, ht⟩ a ha
      rcases ha with rfl | ha
      · exact hx
      · exact ih.mp ht a ha
    · intro hall
      exact ⟨hall x (Or.inl rfl), ih.mpr fun a ha => hall a (Or.inr ha)⟩

theorem ltWork_si_lt (L R : Series) (strict : Bool) :
    ∀ t ∈ ltWork L R strict,
      t.2.2 < ((sort_values (dropna R)).map Prod.snd).length := by
  rw [ltWork_eq]
  intro t ht
  rcases List.mem_filterMap.mp ht with ⟨p, _, hp⟩
  by_cases hc : (if strict then searchsorted_right ((sort_values (dropna R)).map Prod.snd) p.2
      else searchsorted_left ((sort_values (dropna R)).map Prod.snd) p.2) <
      ((sort_values (dropna R)).map Prod.snd).length
  · rw [if_pos hc] at hp
    cases hp
    exact hc
  · rw [if_neg hc] at hp
    cases hp

theorem gtWork_si_pos (L R : Series) (strict : Bool) :
    ∀ t ∈ gtWork L R strict, 0 < t.2.2 := by
  rw [gtWork_eq]
  intro t ht
  rcases List.mem_filterMap.mp ht with ⟨p, _, hp⟩
  by_cases hc : 0 < (if strict then searchsorted_left ((sort_values (dropna R)).map Prod.snd) p.2
      else searchsorted_right ((sort_values (dropna R)).map Prod.snd) p.2)
  · rw [if_pos hc] at hp
    cases hp
    exact hc
  · rw [if_neg hc] at hp
    cases hp

theorem lt_pairList (L R : Series) (strict : Bool) :
    pairList (pairsOf (_less_than_indices L R strict 1)) =
      (ltWork L R strict).flatMap (fun t =>
        (List.range' t.2.2 (((sort_values (dropna R)).map Prod.snd).length - t.2.2)).map
          (fun q => (t.1, ((sort_values (dropna R)).map Prod.fst).getD q 0))) := by
  rw [lt_indices_eq]
  by_cases hw : ltWork L R strict = []
  · rw [if_pos hw, hw]
    rfl
  · rw [if_neg hw, if_neg (by omega)]
    unfold pairsOf pairList
    have hcounts : List.zipWith (fun a b => a - b)
        (List.replicate ((ltWork L R strict).map fun t => t.2.2).length
          ((sort_values (dropna R)).map Prod.snd).length)
        ((ltWork L R strict).map fun t => t.2.2) =
        (ltWork L R strict).map
          (fun t => ((sort_values (dropna R)).map Prod.snd).length - t.2.2) := by
      rw [zipWith_replicate_left', List.map_map]
      rfl
    rw [hcounts]
    have hleft : List.zipWith (fun i c => List.replicate c i)
        ((ltWork L R strict).map fun t => t.1)
        ((ltWork L R strict).map
          (fun t => ((sort_values (dropna R)).map Prod.snd).length - t.2.2)) =
        (ltWork L R strict).map (fun t =>
          List.replicate (((sort_values (dropna R)).map Prod.snd).length - t.2.2) t.1) := by
      rw [List.zipWith_map, List.zipWith_same]
    rw [hleft]
    have hpre : List.Forall₂ (fun x y => x < y) ((ltWork L R strict).map fun t => t.2.2)
        (List.replicate ((ltWork L R strict).map fun t => t.2.2).length
          ((sort_values (dropna R)).map Prod.snd).length) := by
      rw [forall₂_replicate_right]
      intro s hs
      rcases List.mem_map.mp hs with ⟨t, ht, rfl⟩
      exact ltWork_si_lt L R strict t ht
    rw [interval_ranges_eq _ _ hpre (by simpa using hw)]
    have hright : (((List.zipWith (fun (x : Nat) (y : Nat) => List.range' x (y - x))
        ((ltWork L R strict).map fun t => t.2.2)
        (List.replicate ((ltWork L R strict).map fun t => t.2.2).length
          ((sort_values (dropna R)).map Prod.snd).length)).flatten).map
          (fun (n : Nat) => (n : Int))).map
        (fun p => ((sort_values (dropna R)).map Prod.fst).getD p.toNat 0) =
        ((ltWork L R strict).map (fun t =>
          (List.range' t.2.2 (((sort_values (dropna R)).map Prod.snd).length - t.2.2)).map
            (fun q => ((sort_values (dropna R)).map Prod.fst).getD q 0))).flatten := by
      rw [zipWith_replicate_right', List.map_map, List.map_map, List.map_flatten,
        List.map_map]
      refine congrArg List.flatten (List.map_congr_left fun t _ => ?_)
      simp only [Function.comp_apply]
      refine List.map_congr_left fun q _ => ?_
      simp only [Function.comp_apply, Int.toNat_natCast]
    rw [hright]
    have hlens : List.Forall₂ (fun (u : List Nat) (v : List Nat) => u.length = v.length)
        ((ltWork L R strict).map (fun t =>
          List.replicate (((sort_values (dropna R)).map Prod.snd).length - t.2.2) t.1))
        ((ltWork L R strict).map (fun t =>
          (List.range' t.2.2 (((sort_values (dropna R)).map Prod.snd).length - t.2.2)).map
            (fun q => ((sort_values (dropna R)).map Prod.fst).getD q 0))) := by
      rw [List.forall₂_map_left_iff, List.forall₂_map_right_iff, List.forall₂_same]
      intro t _
      simp [List.length_replicate, List.length_map, List.length_range']
    rw [zip_flatten _ _ hlens]
    have hrows : List.zipWith (fun u v => u.zip v)
        ((ltWork L R strict).map (fun t =>
          List.replicate (((sort_values (dropna R)).map Prod.snd).length - t.2.2) t.1))
        ((ltWork L R strict).map (fun t =>
          (List.range' t.2.2 (((sort_values (dropna R)).map Prod.snd).length - t.2.2)).map
            (fun q => ((sort_values (dropna R)).map Prod.fst).getD q 0))) =
        (ltWork L R strict).map (fun t =>
          (List.range' t.2.2 (((sort_values (dropna R)).map Prod.snd).length - t.2.2)).map
            (fun q => (t.1, ((sort_values (dropna R)).map Prod.fst).getD q 0))) := by
      rw [List.zipWith_map, List.zipWith_same]
      refine List.map_congr_left fun t _ => ?_
      rw [zip_replicate_left' _ _ _ (by simp [List.length_map, List.length_range']),
        List.map_map]
      rfl
    rw [hrows, List.flatMap_def]

theorem forall₂_replicate_left {α β : Type} (r : α → β → Prop) (l : List β) (a : α) :
    List.Forall₂ r (List.replicate l.length a) l ↔ ∀ b ∈ l, r a b := by
  induction l with
  | nil => simp
  | cons x xs ih =>
    simp only [List.length_cons, List.replicate_succ, List.forall₂_cons, List.mem_cons]
    constructor
    · rintro ⟨hx, ht⟩ b hb
      rcases hb with rfl | hb
      · exact hx
      · exact ih.mp ht b hb
    · intro hall
      exact ⟨hall x (Or.inl rfl), ih.mpr fun b hb => hall b (Or.inr hb)⟩

theorem gt_pairList (L R : Series) (strict : Bool) :
    pairList (pairsOf (_greater_than_indices L R strict 1)) =
      (gtWork L R strict).flatMap (fun t =>
        (List.range' 0 t.2.2).map
          (fun q => (t.1, ((sort_values (dropna R)).map Prod.fst).getD q 0))) := by
  rw [gt_indices_eq]
  by_cases hw : gtWork L R strict = []
  · rw [if_pos hw, hw]
    rfl
  · rw [if_neg hw, if_neg (by omega)]
    unfold pairsOf pairList
    have hleft : List.zipWith (fun i c => List.replicate c i)
        ((gtWork L R strict).map fun t => t.1)
        ((gtWork L R strict).map fun t => t.2.2) =
        (gtWork L R strict).map (fun t => List.replicate t.2.2 t.1) := by
      rw [List.zipWith_map, List.zipWith_same]
    rw [hleft]
    have hpre : List.Forall₂ (fun x y => x < y)
        (List.replicate ((gtWork L R strict).map fun t => t.2.2).length 0)
        ((gtWork L R strict).map fun t => t.2.2) := by
      rw [forall₂_replicate_left]
      intro s hs
      rcases List.mem_map.mp hs with ⟨t, ht, rfl⟩
      exact gtWork_si_pos L R strict t ht
    rw [interval_ranges_eq _ _ hpre (by simpa using hw)]
    have hright : (((List.zipWith (fun (x : Nat) (y : Nat) => List.range' x (y - x))
        (List.replicate ((gtWork L R strict).map fun t => t.2.2).length 0)
        ((gtWork L R strict).map fun t => t.2.2)).flatten).map
          (fun (n : Nat) => (n : Int))).map
        (fun p => ((sort_values (dropna R)).map Prod.fst).getD p.toNat 0) =
        ((gtWork L R strict).map (fun t =>
          (List.range' 0 t.2.2).map
            (fun q => ((sort_values (dropna R)).map Prod.fst).getD q 0))).flatten := by
      rw [zipWith_replicate_left', List.map_map, List.map_map, List.map_flatten,
        List.map_map]
      refine congrArg List.flatten (List.map_congr_left fun t _ => ?_)
      simp only [Function.comp_apply, Nat.sub_zero]
      refine List.map_congr_left fun q _ => ?_
      simp only [Function.comp_apply, Int.toNat_natCast]
    rw [hright]
    have hlens : List.Forall₂ (fun (u : List Nat) (v : List Nat) => u.length = v.length)
        ((gtWork L R strict).map (fun t => List.replicate t.2.2 t.1))
        ((gtWork L R strict).map (fun t =>
          (List.range' 0 t.2.2).map
            (fun q => ((sort_values (dropna R)).map Prod.fst).getD q 0))) := by
      rw [List.forall₂_map_left_iff, List.forall₂_map_right_iff, List.forall₂_same]
      intro t _
      simp [List.length_replicate, List.length_map, List.length_range']
    rw [zip_flatten _ _ hlens]
    have hrows : List.zipWith (fun u v => u.zip v)
        ((gtWork L R strict).map (fun t => List.replicate t.2.2 t.1))
        ((gtWork L R strict).map (fun t =>
          (List.range' 0 t.2.2).map
            (fun q => ((sort_values (dropna R)).map Prod.fst).getD q 0))) =
        (gtWork L R strict).map (fun t =>
          (List.range' 0 t.2.2).map
            (fun q => (t.1, ((sort_values (dropna R)).map Prod.fst).getD q 0))) := by
      rw [List.zipWith_map, List.zipWith_same]
      refine List.map_congr_left fun t _ => ?_
      rw [zip_replicate_left' _ _ _ (by simp [List.length_map, List.length_range']),
        List.map_map]
      rfl
    rw [hrows, List.flatMap_def]

theorem mem_ltWork_iff (L R : Series) (strict : Bool) (i : Nat) (v : Int) (s : Nat) :
    (i, v, s) ∈ ltWork L R strict ↔
      (i, v) ∈ dropna L ∧
      s = (if strict then searchsorted_right ((sort_values (dropna R)).map Prod.snd) v
           else searchsorted_left ((sort_values (dropna R)).map Prod.snd) v) ∧
      s < ((sort_values (dropna R)).map Prod.snd).length := by
  rw [ltWork_eq, List.mem_filterMap]
  constructor
  · rintro ⟨p, hp, hf⟩
    by_cases hc : (if strict then searchsorted_right ((sort_values (dropna R)).map Prod.snd) p.2
        else searchsorted_left ((sort_values (dropna R)).map Prod.snd) p.2) <
        ((sort_values (dropna R)).map Prod.snd).length
    · rw [if_pos hc] at hf
      obtain ⟨rfl, rfl, rfl⟩ : p.1 = i ∧ p.2 = v ∧ _ = s := by
        simpa [Prod.ext_iff] using hf
      exact ⟨by simpa using hp, rfl, hc⟩
    · rw [if_neg hc] at hf
      cases hf
  · rintro ⟨hp, rfl, hlt⟩
    exact ⟨(i, v), hp, by rw [if_pos hlt]⟩

theorem mem_gtWork_iff (L R : Series) (strict : Bool) (i : Nat) (v : Int) (s : Nat) :
    (i, v, s) ∈ gtWork L R strict ↔
      (i, v) ∈ dropna L ∧
      s = (if strict then searchsorted_left ((sort_values (dropna R)).map Prod.snd) v
           else searchsorted_right ((sort_values (dropna R)).map Prod.snd) v) ∧
      0 < s := by
  rw [gtWork_eq, List.mem_filterMap]
  constructor
  · rintro ⟨p, hp, hf⟩
    by_cases hc : 0 < (if strict then searchsorted_left ((sort_values (dropna R)).map Prod.snd) p.2
        else searchsorted_right ((sort_values (dropna R)).map Prod.snd) p.2)
    · rw [if_pos hc] at hf
      obtain ⟨rfl, rfl, rfl⟩ : p.1 = i ∧ p.2 = v ∧ _ = s := by
        simpa [Prod.ext_iff] using hf
      exact ⟨by simpa using hp, rfl, hc⟩
    · rw [if_neg hc] at hf
      cases hf
  · rintro ⟨hp, rfl, hlt⟩
    exact ⟨(i, v), hp, by rw [if_pos hlt]⟩

theorem rs_index (R : Series) (q : Nat)
    (hq : q < ((sort_values (dropna R)).map Prod.snd).length) :
    (((sort_values (dropna R)).map Prod.fst).getD q 0,
      some (((sort_values (dropna R)).map Prod.snd).getD q 0)) ∈ R := by
  have hq' : q < (sort_values (dropna R)).length := by simpa using hq
  have h1 : ((sort_values (dropna R)).map Prod.fst).getD q 0 =
      ((sort_values (dropna R)).get ⟨q, hq'⟩).1 := by
    rw [List.getD_eq_getElem _ _ (by simpa using hq'), List.getElem_map]
    rfl
  have h2 : ((sort_values (dropna R)).map Prod.snd).getD q 0 =
      ((sort_values (dropna R)).get ⟨q, hq'⟩).2 := by
    rw [List.getD_eq_getElem _ _ (by simpa using hq'), List.getElem_map]
    rfl
  rw [h1, h2]
  have hmem : (sort_values (dropna R)).get ⟨q, hq'⟩ ∈ sort_values (dropna R) :=
    List.getElem_mem hq'
  have hmem' := (sort_values_perm (dropna R)).mem_iff.mp hmem
  exact (mem_dropna R _ _).mp (by simpa using hmem')

/-- The pairs returned by the 1-mode less-than matcher are exactly the
(left label, right label) pairs whose non-null values satisfy `<` (strict)
or `≤` (non-strict). -/
theorem lt_pairs_mem (L R : Series) (strict : Bool) (i j : Nat) :
    (i, j) ∈ pairList (pairsOf (_less_than_indices L R strict 1)) ↔
      ∃ v w, (i, some v) ∈ L ∧ (j, some w) ∈ R ∧
        (if strict then v < w else v ≤ w) := by
  rw [lt_pairList, List.mem_flatMap]
  have hs := sort_values_snd_sorted (dropna R)
  constructor
  · rintro ⟨t, ht, hpr⟩
    have helim := (mem_ltWork_iff L R strict t.1 t.2.1 t.2.2).mp ht
    obtain ⟨hmemL, hseq, hslt⟩ := helim
    rcases List.mem_map.mp hpr with ⟨q, hq, hpair⟩
    obtain ⟨h1, h2⟩ : t.1 = i ∧ ((sort_values (dropna R)).map Prod.fst).getD q 0 = j := by
      simpa [Prod.ext_iff] using hpair
    subst h1
    subst h2
    rcases List.mem_range'_1.mp hq with ⟨hq1, hq2⟩
    have hqlen : q < ((sort_values (dropna R)).map Prod.snd).length := by omega
    refine ⟨t.2.1, ((sort_values (dropna R)).map Prod.snd).getD q 0,
      (mem_dropna L t.1 t.2.1).mp hmemL, rs_index R q hqlen, ?_⟩
    rw [hseq] at hq1
    cases strict with
    | false =>
      simp only [Bool.false_eq_true, if_false] at hq1 ⊢
      have hnot : ¬ (((sort_values (dropna R)).map Prod.snd).getD q 0 < t.2.1) := by
        rw [sorted_countP_lt _ hs t.2.1 q hqlen]
        unfold searchsorted_left at hq1
        omega
      omega
    | true =>
      simp only [if_true] at hq1 ⊢
      have hnot : ¬ (((sort_values (dropna R)).map Prod.snd).getD q 0 ≤ t.2.1) := by
        rw [sorted_countP_le _ hs t.2.1 q hqlen]
        unfold searchsorted_right at hq1
        omega
      omega
  · rintro ⟨v, w, hvL, hwR, hrel⟩
    have hwRS : (j, w) ∈ sort_values (dropna R) :=
      (sort_values_perm (dropna R)).mem_iff.mpr ((mem_dropna R j w).mpr hwR)
    rcases List.mem_iff_getElem.mp hwRS with ⟨q, hq, hget⟩
    have hqv : ((sort_values (dropna R)).map Prod.snd).getD q 0 = w := by
      rw [List.getD_eq_getElem _ _ (by simpa using hq), List.getElem_map, hget]
    have hqj : ((sort_values (dropna R)).map Prod.fst).getD q 0 = j := by
      rw [List.getD_eq_getElem _ _ (by simpa using hq), List.getElem_map, hget]
    have hqlen : q < ((sort_values (dropna R)).map Prod.snd).length := by simpa using hq
    have hqge : (if strict then searchsorted_right ((sort_values (dropna R)).map Prod.snd) v
        else searchsorted_left ((sort_values (dropna R)).map Prod.snd) v) ≤ q := by
      cases strict with
      | false =>
        simp only [Bool.false_eq_true, if_false]
        simp only [Bool.false_eq_true, if_false] at hrel
        by_contra hcon
        have hx := (sorted_countP_lt _ hs v q hqlen).mpr
          (by unfold searchsorted_left at hcon; omega)
        rw [hqv] at hx
        omega
      | true =>
        simp only [if_true]
        simp only [if_true] at hrel
        by_contra hcon
        have hx := (sorted_countP_le _ hs v q hqlen).mpr
          (by unfold searchsorted_right at hcon; omega)
        rw [hqv] at hx
        omega
    refine ⟨(i, v, if strict then searchsorted_right ((sort_values (dropna R)).map Prod.snd) v
        else searchsorted_left ((sort_values (dropna R)).map Prod.snd) v), ?_, ?_⟩
    · rw [mem_ltWork_iff]
      exact ⟨(mem_dropna L i v).mpr hvL, rfl, by omega⟩
    · refine List.mem_map.mpr ⟨q, List.mem_range'_1.mpr ⟨hqge, by omega⟩, ?_⟩
      rw [hqj]

/-- The pairs returned by the 1-mode greater-than matcher are exactly the
(left label, right label) pairs whose non-null values satisfy `>` (strict)
or `≥` (non-strict). -/
theorem gt_pairs_mem (L R : Series) (strict : Bool) (i j : Nat) :
    (i, j) ∈ pairList (pairsOf (_greater_than_indices L R strict 1)) ↔
      ∃ v w, (i, some v) ∈ L ∧ (j, some w) ∈ R ∧
        (if strict then w < v else w ≤ v) := by
  rw [gt_pairList, List.mem_flatMap]
  have hs := sort_values_snd_sorted (dropna R)
  constructor
  · rintro ⟨t, ht, hpr⟩
    have helim := (mem_gtWork_iff L R strict t.1 t.2.1 t.2.2).mp ht
    obtain ⟨hmemL, hseq, hspos⟩ := helim
    rcases List.mem_map.mp hpr with ⟨q, hq, hpair⟩
    obtain ⟨h1, h2⟩ : t.1 = i ∧ ((sort_values (dropna R)).map Prod.fst).getD q 0 = j := by
      simpa [Prod.ext_iff] using hpair
    subst h1
    subst h2
    rcases List.mem_range'_1.mp hq with ⟨hq1, hq2⟩
    rw [hseq] at hq2
    simp only [Nat.zero_add] at hq2
    have hslen : (if strict then searchsorted_left ((sort_values (dropna R)).map Prod.snd) t.2.1
        else searchsorted_right ((sort_values (dropna R)).map Prod.snd) t.2.1) ≤
        ((sort_values (dropna R)).map Prod.snd).length := by
      cases strict with
      | false => simpa using ss_right_le_length ((sort_values (dropna R)).map Prod.snd) t.2.1
      | true => simpa using ss_left_le_length ((sort_values (dropna R)).map Prod.snd) t.2.1
    have hqlen : q < ((sort_values (dropna R)).map Prod.snd).length := by omega
    refine ⟨t.2.1, ((sort_values (dropna R)).map Prod.snd).getD q 0,
      (mem_dropna L t.1 t.2.1).mp hmemL, rs_index R q hqlen, ?_⟩
    cases strict with
    | false =>
      simp only [Bool.false_eq_true, if_false] at hq2 ⊢
      have hx := (sorted_countP_le _ hs t.2.1 q hqlen).mpr
        (by unfold searchsorted_right at hq2; omega)
      exact hx
    | true =>
      simp only [if_true] at hq2 ⊢
      have hx := (sorted_countP_lt _ hs t.2.1 q hqlen).mpr
        (by unfold searchsorted_left at hq2; omega)
      exact hx
  · rintro ⟨v, w, hvL, hwR, hrel⟩
    have hwRS : (j, w) ∈ sort_values (dropna R) :=
      (sort_values_perm (dropna R)).mem_iff.mpr ((mem_dropna R j w).mpr hwR)
    rcases List.mem_iff_getElem.mp hwRS with ⟨q, hq, hget⟩
    have hqv : ((sort_values (dropna R)).map Prod.snd).getD q 0 = w := by
      rw [List.getD_eq_getElem _ _ (by simpa using hq), List.getElem_map, hget]
    have hqj : ((sort_values (dropna R)).map Prod.fst).getD q 0 = j := by
      rw [List.getD_eq_getElem _ _ (by simpa using hq), List.getElem_map, hget]
    have hqlen : q < ((sort_values (dropna R)).map Prod.snd).length := by simpa using hq
    have hqlt : q < (if strict then searchsorted_left ((sort_values (dropna R)).map Prod.snd) v
        else searchsorted_right ((sort_values (dropna R)).map Prod.snd) v) := by
      cases strict with
      | false =>
        simp only [Bool.false_eq_true, if_false]
        simp only [Bool.false_eq_true, if_false] at hrel
        have hx := (sorted_countP_le _ hs v q hqlen).mp (by rw [hqv]; omega)
        unfold searchsorted_right
        omega
      | true =>
        simp only [if_true]
        simp only [if_true] at hrel
        have hx := (sorted_countP_lt _ hs v q hqlen).mp (by rw [hqv]; omega)
        unfold searchsorted_left
        omega
    refine ⟨(i, v, if strict then searchsorted_left ((sort_values (dropna R)).map Prod.snd) v
        else searchsorted_right ((sort_values (dropna R)).map Prod.snd) v), ?_, ?_⟩
    · rw [mem_gtWork_iff]
      exact ⟨(mem_dropna L i v).mpr hvL, rfl, by omega⟩
    · refine List.mem_map.mpr ⟨q, List.mem_range'_1.mpr ⟨by omega, by simpa using hqlt⟩, ?_⟩
      rw [hqj]

/-- C4: Range-matcher correctness including strict-tie handling.
`_less_than_indices(left, right, strict, 1)` returns exactly the index
pairs (left label, right label) whose non-null values satisfy
`left_value < right_value` (or `≤` when strict is false) — built, for each
surviving left row, from the right positions `[insertion_point, len(right))`
of the sorted right column with ties excluded by the right-bias re-search
when strict (lemmas `lt_pairList`, `ltWork_eq`) — and
`_greater_than_indices` is the mirrored construction returning exactly the
pairs with `left_value > right_value` (or `≥`). -/
theorem c4_range_matchers (L R : Series) (strict : Bool) (i j : Nat) :
    ((i, j) ∈ pairList (pairsOf (_less_than_indices L R strict 1)) ↔
      ∃ v w, (i, some v) ∈ L ∧ (j, some w) ∈ R ∧
        (if strict then v < w else v ≤ w)) ∧
    ((i, j) ∈ pairList (pairsOf (_greater_than_indices L R strict 1)) ↔
      ∃ v w, (i, some v) ∈ L ∧ (j, some w) ∈ R ∧
        (if strict then w < v else w ≤ v)) :=
  ⟨lt_pairs_mem L R strict i j, gt_pairs_mem L R strict i j⟩

/-- C10: Interval-expansion precondition and correctness.  (1) The arrays a
1-mode `_less_than_indices` call passes to `_interval_ranges` (per
`lt_indices_def`: the surviving insertion points and `len(right)` repeated)
are equal-length, non-empty, and every half-open range is non-empty, because
rows with insertion point `len(right)` were discarded; (2) mirrored for
`_greater_than_indices` (rows with insertion point below 1 discarded);
(3) under that precondition `_interval_ranges` returns exactly the
concatenation of `range(indices[i], right[i])`, its `ids` array is
non-empty (`ids[0]` in bounds) and every scatter position
`cum_length[:-1]` is strictly below the array length. -/
theorem c10_interval_expansion :
    (∀ (L R : Series) (strict : Bool), ltWork L R strict ≠ [] →
      List.Forall₂ (fun x y => x < y) ((ltWork L R strict).map fun t => t.2.2)
        (List.replicate ((ltWork L R strict).map fun t => t.2.2).length
          ((sort_values (dropna R)).map Prod.snd).length) ∧
      ((ltWork L R strict).map fun t => t.2.2) ≠ []) ∧
    (∀ (L R : Series) (strict : Bool), gtWork L R strict ≠ [] →
      List.Forall₂ (fun x y => x < y)
        (List.replicate ((gtWork L R strict).map fun t => t.2.2).length 0)
        ((gtWork L R strict).map fun t => t.2.2) ∧
      List.replicate ((gtWork L R strict).map fun t => t.2.2).length (0 : Nat) ≠ []) ∧
    (∀ indices right : List Nat,
      List.Forall₂ (fun x y => x < y) indices right → indices ≠ [] →
      (_interval_ranges indices right =
        ((List.zipWith (fun (x : Nat) (y : Nat) => List.range' x (y - x)) indices right).flatten).map
          (fun (n : Nat) => (n : Int))) ∧
      0 < rangesTotal indices right ∧
      ∀ p ∈ scatterPositions indices right, p < rangesTotal indices right) := by
  refine ⟨?_, ?_, ?_⟩
  · intro L R strict hne
    constructor
    · rw [forall₂_replicate_right]
      intro s hs
      rcases List.mem_map.mp hs with ⟨t, ht, rfl⟩
      exact ltWork_si_lt L R strict t ht
    · simpa using hne
  · intro L R strict hne
    constructor
    · rw [forall₂_replicate_left]
      intro s hs
      rcases List.mem_map.mp hs with ⟨t, ht, rfl⟩
      exact gtWork_si_pos L R strict t ht
    · simpa using hne
  · intro indices right hf hne
    exact ⟨interval_ranges_eq indices right hf hne,
      (interval_ranges_in_bounds indices right hf hne).1,
      (interval_ranges_in_bounds indices right hf hne).2⟩

/-- Witness for C10 at concrete inputs: the one-row series pair and the
concrete arrays ([1], [3]). -/
theorem c10_interval_expansion_witness :
    (List.Forall₂ (fun x y => x < y)
      ((ltWork [(0, some 1)] [(0, some 3)] false).map fun t => t.2.2)
      (List.replicate
        ((ltWork [(0, some 1)] [(0, some 3)] false).map fun t => t.2.2).length
        ((sort_values (dropna [(0, some 3)])).map Prod.snd).length)) ∧
    _interval_ranges [1] [3] =
      ((List.zipWith (fun (x : Nat) (y : Nat) => List.range' x (y - x)) [1] [3]).flatten).map
        (fun (n : Nat) => (n : Int)) := by
  refine ⟨(c10_interval_expansion.1 [(0, some 1)] [(0, some 3)] false (by decide)).1, ?_⟩
  exact (c10_interval_expansion.2.2 [1] [3]
    (List.forall₂_cons.mpr ⟨by norm_num, List.Forall₂.nil⟩) (by decide)).1

/-! ## Heap-model lemmas for the no-mutation claim -/

theorem store_read_write_ne (st : Store) (k : Nat) (f : Frame) (r : Nat) (h : r ≠ k) :
    (Store.write st k f).read r = st.read r := by
  unfold Store.write Store.read
  rw [List.getD_eq_getElem?_getD, List.getD_eq_getElem?_getD,
    List.getElem?_set_ne (fun hk => h hk.symm)]

theorem store_read_append (st : Store) (fs : List Frame) (r : Nat) (h : r < st.length) :
    Store.read (st ++ fs) r = st.read r := by
  unfold Store.read
  rw [List.getD_eq_getElem?_getD, List.getD_eq_getElem?_getD,
    List.getElem?_append_left h]

/-- C9: No caller-visible mutation.  In the heap model of one
`conditional_join` call, the defensive copies of source lines 238-239 are
fresh cells, and every in-place pandas mutation of the source (the
RangeIndex resets of lines 158-159 and the column namespacing of lines
661-662 and 721-722) writes only to those fresh cells; every cell the
caller owned before the call — in particular both input frames — is
unchanged when the call returns, whether the call returns a frame or an
error. -/
theorem c9_no_caller_mutation (st : Store) (dfRef rightRef : Nat)
    (conditions : List RawCond) (how : String) (sb : Bool) (r : Nat)
    (h : r < st.length) :
    (conditional_join_heap st dfRef rightRef conditions how sb).1.read r =
      st.read r := by
  have h3 : (conditional_join_heap st dfRef rightRef conditions how sb).1 =
      Store.write (Store.write ((st ++ [st.read dfRef]) ++ [st.read rightRef])
        st.length
        (Store.read ((st ++ [st.read dfRef]) ++ [st.read rightRef]) st.length))
        (st ++ [st.read dfRef]).length
        (Store.read (Store.write ((st ++ [st.read dfRef]) ++ [st.read rightRef])
          st.length
          (Store.read ((st ++ [st.read dfRef]) ++ [st.read rightRef]) st.length))
          (st ++ [st.read dfRef]).length) := rfl
  rw [h3]
  rw [store_read_write_ne _ _ _ _ (by simp; omega)]
  rw [store_read_write_ne _ _ _ _ (by omega)]
  rw [List.append_assoc, store_read_append _ _ _ h]

/-- Witness for C9: a concrete two-cell heap holding the spec §8 frames;
cell 0 is unchanged by the call. -/
theorem c9_no_caller_mutation_witness :
    (conditional_join_heap [exDf, exRt] 0 1 [["val", "val", "<"]] "inner" false).1.read 0 =
      Store.read [exDf, exRt] 0 :=
  c9_no_caller_mutation [exDf, exRt] 0 1 [["val", "val", "<"]] "inner" false 0
    (by decide)

/-! ## Validation inversion lemmas -/

theorem type_check_ok_inv (ld rd : DType) (op : String)
    (h : _conditional_join_type_check ld rd op = .ok ()) :
    ld ≠ DType.other ∧ rd ≠ DType.other ∧ ld = rd ∧
    ((ld = DType.str ∨ ld = DType.cat ∨ rd = DType.str ∨ rd = DType.cat) →
      op = "==") := by
  cases ld <;> cases rd <;>
    simp_all [_conditional_join_type_check, ite_eq_iff]

theorem check_column_ok_inv (f : Frame) (x : String) (u : Unit)
    (h : check_column f x = .ok u) : f.cols.contains x = true := by
  unfold check_column at h
  split at h
  · assumption
  · cases h

theorem check_operator_ok_inv (op : String) (u : Unit)
    (h : _check_operator op = .ok u) :
    ([">", "<", ">=", "<=", "==", "!="].contains op) = true := by
  unfold _check_operator at h
  split at h
  · assumption
  · cases h

theorem checkCols_ok_inv (df rf : Frame) (cs : List RawCond)
    (h : checkConditionCols df rf cs = .ok ()) :
    ∀ c ∈ cs, df.cols.contains (c.getD 0 "") = true ∧
      rf.cols.contains (c.getD 1 "") = true ∧
      ([">", "<", ">=", "<=", "==", "!="].contains (c.getD 2 "")) = true := by
  induction cs with
  | nil => simp
  | cons c rest ih =>
    intro c' hc'
    unfold checkConditionCols at h
    split at h
    · cases h
    · rename_i u1 heq1
      split at h
      · cases h
      · rename_i u2 heq2
        split at h
        · cases h
        · rename_i u3 heq3
          rcases List.mem_cons.mp hc' with rfl | hmem
          · exact ⟨check_column_ok_inv _ _ _ heq1, check_column_ok_inv _ _ _ heq2,
              check_operator_ok_inv _ _ heq3⟩
          · exact ih h c' hmem

theorem typeCheckAll_ok_inv (df rf : Frame) (cs : List Cond)
    (h : typeCheckAll df rf cs = .ok ()) :
    ∀ c ∈ cs, _conditional_join_type_check (df.dtypeOf c.left_on)
      (rf.dtypeOf c.right_on) c.op = .ok () := by
  induction cs with
  | nil => simp
  | cons c rest ih =>
    intro c' hc'
    unfold typeCheckAll at h
    split at h
    · cases h
    · rename_i u1 heq1
      rcases List.mem_cons.mp hc' with rfl | hmem
      · exact heq1
      · exact ih h c' hmem

theorem prelim_ok_inv (df : Frame) (right : RightObj) (conds : List RawCond)
    (how : String) (out : Frame × Frame × List Cond × String)
    (h : _conditional_join_preliminary_checks df right conds how = .ok out) :
    df.emptyF = false ∧ df.multiCols = false ∧
    (∀ d v, right ≠ RightObj.series none d v) ∧
    (∀ d v, right ≠ RightObj.series (some "") d v) ∧
    right.toFrame.emptyF = false ∧ right.toFrame.multiCols = false ∧
    conds ≠ [] ∧ (∀ c ∈ conds, c.length = 3) ∧
    checkConditionCols df right.toFrame conds = .ok () ∧
    ["inner", "left", "right"].contains how = true ∧
    out = (df, right.toFrame, conds.map parseCond, how) := by
  unfold _conditional_join_preliminary_checks at h
  dsimp only at h
  split at h
  · cases h
  · rename_i hde
    split at h
    · cases h
    · rename_i hdm
      split at h
      · cases h
      · rename_i hser
        split at h
        · cases h
        · rename_i hre
          split at h
          · cases h
          · rename_i hrm
            split at h
            · cases h
            · rename_i hcne
              split at h
              · cases h
              · rename_i hlen
                split at h
                · cases h
                · rename_i u0 hcols
                  split at h
                  · cases h
                  · rename_i hhow
                    refine ⟨by simpa using hde, by simpa using hdm, ?_, ?_,
                      by simpa using hre, by simpa using hrm,
                      by simpa using hcne, by simpa using hlen, ?_, ?_, ?_⟩
                    · intro d v hcon
                      subst hcon
                      simp at hser
                    · intro d v hcon
                      subst hcon
                      simp at hser
                    · exact hcols
                    · rcases Bool.eq_false_or_eq_true
                        (["inner", "left", "right"].contains how) with hb | hb
                      · exact hb
                      · exact absurd (by rw [hb]; rfl) hhow
                    · have h1 : (df, right.toFrame, conds.map parseCond, how)
                          = out := by injection h
                      exact h1.symm

theorem compute_ok_inv (df : Frame) (right : RightObj) (conds : List RawCond)
    (how : String) (sb : Bool) (J : JoinedFrame)
    (h : _conditional_join_compute df right conds how sb = .ok J) :
    _conditional_join_preliminary_checks df right conds how =
      .ok (df, right.toFrame, conds.map parseCond, how) ∧
    typeCheckAll df right.toFrame (conds.map parseCond) = .ok () := by
  unfold _conditional_join_compute at h
  cases hp : _conditional_join_preliminary_checks df right conds how with
  | error e =>
    rw [hp] at h
    cases h
  | ok out =>
    have hinv := prelim_ok_inv df right conds how out hp
    have hout := hinv.2.2.2.2.2.2.2.2.2.2
    subst hout
    simp only [hp] at h
    refine ⟨rfl, ?_⟩
    cases ht : typeCheckAll df right.toFrame (conds.map parseCond) with
    | error e =>
      simp only [ht] at h
      cases h
    | ok u =>
      rfl

/-- C6: the engine validates before computing — on an empty table,
MultiIndex columns, an unnamed right Series, no conditions, a malformed
condition tuple, an absent column, an unknown operator, an unsupported
`how`, mismatched or unsupported dtypes, or a string/categorical column
under a non-`==` operator, `conditional_join` raises an error and no join
result is produced. -/
theorem c6_fail_fast_validation (df : Frame) (right : RightObj)
    (conditions : List RawCond) (how : String) (sb : Bool)
    (hdef : usageDefect df right conditions how) :
    ∃ e, conditional_join df right conditions how sb = Except.error e := by
  cases hres : conditional_join df right conditions how sb with
  | error e => exact ⟨e, rfl⟩
  | ok J =>
    exfalso
    have hres' : _conditional_join_compute df right conditions how sb =
        Except.ok J := hres
    have hc := compute_ok_inv df right conditions how sb J hres'
    have hp := prelim_ok_inv df right conditions how _ hc.1
    have htc := typeCheckAll_ok_inv df right.toFrame _ hc.2
    obtain ⟨hde, hdm, hs1, hs2, hre, hrm, hcne, hlen, hcols, hhow, -⟩ := hp
    have hcolinv := checkCols_ok_inv df right.toFrame conditions hcols
    rcases hdef with h | h | h | h | h | h | h | h | h | h | h | h | h
    · rw [hde] at h; cases h
    · rw [hre] at h; cases h
    · rw [hdm] at h; cases h
    · rw [hrm] at h; cases h
    · obtain ⟨d, v, rfl⟩ := h
      exact hs1 d v rfl
    · obtain ⟨d, v, rfl⟩ := h
      exact hs2 d v rfl
    · exact hcne h
    · obtain ⟨c, hc', hne⟩ := h
      exact hne (hlen c hc')
    · obtain ⟨c, hc', hor⟩ := h
      rcases hor with hf | hf
      · rw [(hcolinv c hc').1] at hf; cases hf
      · rw [(hcolinv c hc').2.1] at hf; cases hf
    · obtain ⟨c, hc', hf⟩ := h
      rw [(hcolinv c hc').2.2] at hf
      cases hf
    · rw [hhow] at h; cases h
    · obtain ⟨c, hc', hor⟩ := h
      have hm : parseCond c ∈ conditions.map parseCond :=
        List.mem_map_of_mem _ hc'
      have hinv := type_check_ok_inv _ _ _ (htc _ hm)
      rcases hor with hf | hf | hf
      · exact hinv.1 hf
      · exact hinv.2.1 hf
      · exact hf hinv.2.2.1
    · obtain ⟨c, hc', hfam, hop⟩ := h
      have hm : parseCond c ∈ conditions.map parseCond :=
        List.mem_map_of_mem _ hc'
      have hinv := type_check_ok_inv _ _ _ (htc _ hm)
      exact hop (hinv.2.2.2 hfam)

theorem c6_fail_fast_validation_witness :
    ∃ e, conditional_join exDf (RightObj.frame exRt) [["val", "val", "~~"]]
      "inner" false = Except.error e :=
  c6_fail_fast_validation exDf (RightObj.frame exRt) [["val", "val", "~~"]]
    "inner" false
    (Or.inr (Or.inr (Or.inr (Or.inr (Or.inr (Or.inr (Or.inr (Or.inr
      (Or.inr (Or.inl (by decide)))))))))))

theorem compute_ok_cases (df : Frame) (right : RightObj) (conds : List RawCond)
    (how : String) (sb : Bool) (J : JoinedFrame)
    (h : _conditional_join_compute df right conds how sb = .ok J) :
    (computeDispatch df right.toFrame (conds.map parseCond) = none ∧
      J = _create_conditional_join_empty_frame df right.toFrame how) ∨
    (∃ li ri,
      computeDispatch df right.toFrame (conds.map parseCond) = some (li, ri) ∧
      J = _create_conditional_join_frame df right.toFrame li ri how sb) := by
  unfold _conditional_join_compute at h
  cases hp : _conditional_join_preliminary_checks df right conds how with
  | error e => rw [hp] at h; cases h
  | ok out =>
    have hinv := prelim_ok_inv df right conds how out hp
    have hout := hinv.2.2.2.2.2.2.2.2.2.2
    subst hout
    simp only [hp] at h
    cases ht : typeCheckAll df right.toFrame (conds.map parseCond) with
    | error e =>
      simp only [ht] at h
      cases h
    | ok u =>
      cases u
      simp only [ht] at h
      cases hd : computeDispatch df right.toFrame (conds.map parseCond) with
      | none =>
        simp only [hd] at h
        refine Or.inl ⟨rfl, ?_⟩
        have h1 : _create_conditional_join_empty_frame df right.toFrame how
            = J := by injection h
        exact h1.symm
      | some v =>
        obtain ⟨li, ri⟩ := v
        simp only [hd] at h
        refine Or.inr ⟨li, ri, rfl, ?_⟩
        have h1 : _create_conditional_join_frame df right.toFrame li ri how sb
            = J := by injection h
        exact h1.symm

theorem empty_frame_matchedPairs (df rt : Frame) (how : String) :
    matchedPairs (_create_conditional_join_empty_frame df rt how) = [] := by
  unfold _create_conditional_join_empty_frame matchedPairs
  split
  · rfl
  · split <;> simp

theorem empty_frame_cols (df rt : Frame) (how : String) :
    (_create_conditional_join_empty_frame df rt how).leftCols = df.cols ∧
    (_create_conditional_join_empty_frame df rt how).rightCols = rt.cols := by
  unfold _create_conditional_join_empty_frame
  split
  · exact ⟨rfl, rfl⟩
  · split <;> exact ⟨rfl, rfl⟩

theorem empty_frame_inner (df rt : Frame) :
    _create_conditional_join_empty_frame df rt "inner" =
      ⟨df.cols, df.dtypes, rt.cols, rt.dtypes, []⟩ := rfl

theorem empty_frame_left (df rt : Frame) :
    _create_conditional_join_empty_frame df rt "left" =
      ⟨df.cols, df.dtypes, rt.cols, rt.dtypes.map widen,
        (List.range df.rows.length).map fun l => (some l, none)⟩ := rfl

theorem empty_frame_right (df rt : Frame) :
    _create_conditional_join_empty_frame df rt "right" =
      ⟨df.cols, df.dtypes.map widen, rt.cols, rt.dtypes,
        (List.range rt.rows.length).map fun r => (none, some r)⟩ := rfl

/-- C7: for a valid call whose dispatch finds no match (returns `None`),
the result has zero matched row pairs and both sides' column names; for
`how='inner'` it has zero rows with both dtype lists preserved as-is; for
`how='left'` every left row appears once, null-filled on the right, and the
right-side integer dtypes are widened to float; `how='right'` is the mirror
image.  `widen` maps integer to float and fixes the other dtypes. -/
theorem c7_empty_result_typing (df : Frame) (right : RightObj)
    (conds : List RawCond) (how : String) (sb : Bool) (J : JoinedFrame)
    (h : conditional_join df right conds how sb = .ok J)
    (hnm : computeDispatch df right.toFrame (conds.map parseCond) = none) :
    matchedPairs J = [] ∧
    J.leftCols = df.cols ∧ J.rightCols = right.toFrame.cols ∧
    (how = "inner" →
      J.rows = [] ∧ J.leftDtypes = df.dtypes ∧
      J.rightDtypes = right.toFrame.dtypes) ∧
    (how = "left" →
      J.rows = (List.range df.rows.length).map (fun l => (some l, none)) ∧
      J.leftDtypes = df.dtypes ∧
      J.rightDtypes = right.toFrame.dtypes.map widen) ∧
    (how = "right" →
      J.rows = (List.range right.toFrame.rows.length).map
        (fun r => (none, some r)) ∧
      J.leftDtypes = df.dtypes.map widen ∧
      J.rightDtypes = right.toFrame.dtypes) ∧
    widen DType.int = DType.float ∧ widen DType.float = DType.float ∧
    widen DType.date = DType.date ∧ widen DType.str = DType.str ∧
    widen DType.cat = DType.cat := by
  have h' : _conditional_join_compute df right conds how sb = .ok J := h
  rcases compute_ok_cases df right conds how sb J h' with ⟨-, hJ⟩ | ⟨li, ri, hd, -⟩
  · subst hJ
    refine ⟨empty_frame_matchedPairs _ _ _, (empty_frame_cols _ _ _).1,
      (empty_frame_cols _ _ _).2, ?_, ?_, ?_, rfl, rfl, rfl, rfl, rfl⟩
    · intro h1
      subst h1
      rw [empty_frame_inner]
      exact ⟨rfl, rfl, rfl⟩
    · intro h1
      subst h1
      rw [empty_frame_left]
      exact ⟨rfl, rfl, rfl⟩
    · intro h1
      subst h1
      rw [empty_frame_right]
      exact ⟨rfl, rfl, rfl⟩
  · rw [hd] at hnm
    cases hnm

theorem c7_empty_result_typing_witness :
    matchedPairs (_create_conditional_join_empty_frame exDf exRt "left") = [] ∧
    (_create_conditional_join_empty_frame exDf exRt "left").leftCols = exDf.cols ∧
    (_create_conditional_join_empty_frame exDf exRt "left").rightCols =
      (RightObj.frame exRt).toFrame.cols ∧
    ("left" = "inner" →
      (_create_conditional_join_empty_frame exDf exRt "left").rows = [] ∧
      (_create_conditional_join_empty_frame exDf exRt "left").leftDtypes =
        exDf.dtypes ∧
      (_create_conditional_join_empty_frame exDf exRt "left").rightDtypes =
        (RightObj.frame exRt).toFrame.dtypes) ∧
    ("left" = "left" →
      (_create_conditional_join_empty_frame exDf exRt "left").rows =
        (List.range exDf.rows.length).map (fun l => (some l, none)) ∧
      (_create_conditional_join_empty_frame exDf exRt "left").leftDtypes =
        exDf.dtypes ∧
      (_create_conditional_join_empty_frame exDf exRt "left").rightDtypes =
        (RightObj.frame exRt).toFrame.dtypes.map widen) ∧
    ("left" = "right" →
      (_create_conditional_join_empty_frame exDf exRt "left").rows =
        (List.range (RightObj.frame exRt).toFrame.rows.length).map
          (fun r => (none, some r)) ∧
      (_create_conditional_join_empty_frame exDf exRt "left").leftDtypes =
        exDf.dtypes.map widen ∧
      (_create_conditional_join_empty_frame exDf exRt "left").rightDtypes =
        (RightObj.frame exRt).toFrame.dtypes) ∧
    widen DType.int = DType.float ∧ widen DType.float = DType.float ∧
    widen DType.date = DType.date ∧ widen DType.str = DType.str ∧
    widen DType.cat = DType.cat :=
  c7_empty_result_typing exDf (RightObj.frame exRt) [["val", "val", "=="]]
    "left" false (_create_conditional_join_empty_frame exDf exRt "left")
    (by rfl) (by decide)

theorem flatMap_length_ge (l : List (Nat)) (f : Nat → List (Option Nat × Option Nat))
    (h : ∀ a ∈ l, f a ≠ []) : l.length ≤ (l.flatMap f).length := by
  induction l with
  | nil => simp
  | cons a t ih =>
    simp only [List.flatMap_cons, List.length_append, List.length_cons]
    have h1 : 1 ≤ (f a).length := by
      have h2 := h a (List.mem_cons_self a t)
      cases hfa : f a with
      | nil => exact absurd hfa h2
      | cons b bs => simp
    have h2 := ih fun b hb => h b (List.mem_cons_of_mem _ hb)
    omega

theorem left_blocks_len (n : Nat) (g : Nat → List (Nat × Nat)) :
    n ≤ ((List.range n).flatMap fun l =>
      if (g l).isEmpty then [((some l : Option Nat), (none : Option Nat))]
      else (g l).map fun p => (some l, some p.2)).length := by
  have h := flatMap_length_ge (List.range n)
    (fun l => if (g l).isEmpty then [((some l : Option Nat), (none : Option Nat))]
      else (g l).map fun p => (some l, some p.2)) ?_
  · simpa using h
  · intro a ha
    by_cases hg : (g a).isEmpty = true
    · simp [hg]
    · simp only [hg, if_false]
      have hne : g a ≠ [] := by simpa [List.isEmpty_iff] using hg
      simpa using hne

theorem left_blocks_mem (n : Nat) (g : Nat → List (Nat × Nat))
    (l : Nat) (hl : l < n) :
    ∃ pr ∈ ((List.range n).flatMap fun l =>
      if (g l).isEmpty then [((some l : Option Nat), (none : Option Nat))]
      else (g l).map fun p => (some l, some p.2)), pr.1 = some l := by
  by_cases hg : (g l).isEmpty = true
  · refine ⟨(some l, none), List.mem_flatMap.mpr ⟨l, List.mem_range.mpr hl, ?_⟩, rfl⟩
    simp [hg]
  · cases hgl : g l with
    | nil => rw [hgl] at hg; simp at hg
    | cons p ps =>
      refine ⟨(some l, some p.2),
        List.mem_flatMap.mpr ⟨l, List.mem_range.mpr hl, ?_⟩, rfl⟩
      rw [if_neg hg, hgl]
      exact List.mem_map_of_mem _ (List.mem_cons_self p ps)

theorem right_blocks_len (n : Nat) (g : Nat → List (Nat × Nat)) :
    n ≤ ((List.range n).flatMap fun r =>
      if (g r).isEmpty then [((none : Option Nat), (some r : Option Nat))]
      else (g r).map fun p => (some p.1, some r)).length := by
  have h := flatMap_length_ge (List.range n)
    (fun r => if (g r).isEmpty then [((none : Option Nat), (some r : Option Nat))]
      else (g r).map fun p => (some p.1, some r)) ?_
  · simpa using h
  · intro a ha
    by_cases hg : (g a).isEmpty = true
    · simp [hg]
    · simp only [hg, if_false]
      have hne : g a ≠ [] := by simpa [List.isEmpty_iff] using hg
      simpa using hne

theorem right_blocks_mem (n : Nat) (g : Nat → List (Nat × Nat))
    (r : Nat) (hr : r < n) :
    ∃ pr ∈ ((List.range n).flatMap fun r =>
      if (g r).isEmpty then [((none : Option Nat), (some r : Option Nat))]
      else (g r).map fun p => (some p.1, some r)), pr.2 = some r := by
  by_cases hg : (g r).isEmpty = true
  · refine ⟨(none, some r), List.mem_flatMap.mpr ⟨r, List.mem_range.mpr hr, ?_⟩, rfl⟩
    simp [hg]
  · cases hgl : g r with
    | nil => rw [hgl] at hg; simp at hg
    | cons p ps =>
      refine ⟨(some p.1, some r),
        List.mem_flatMap.mpr ⟨r, List.mem_range.mpr hr, ?_⟩, rfl⟩
      rw [if_neg hg, hgl]
      exact List.mem_map_of_mem _ (List.mem_cons_self p ps)

/-- C8: for every valid call with `how='left'`, the result has at least as
many rows as the left table and every left row position appears in at least
one result row — with a null right side when that position has no matched
partner; the mirror property holds for `how='right'`. -/
theorem c8_left_join_completeness (df : Frame) (right : RightObj)
    (conds : List RawCond) (how : String) (sb : Bool) (J : JoinedFrame)
    (h : conditional_join df right conds how sb = .ok J) :
    (how = "left" →
      df.rows.length ≤ J.rows.length ∧
      ∀ l, l < df.rows.length →
        (∃ pr ∈ J.rows, pr.1 = some l) ∧
        ((∀ pr ∈ J.rows, pr.1 = some l → pr.2 = none) →
          ((some l : Option Nat), (none : Option Nat)) ∈ J.rows)) ∧
    (how = "right" →
      right.toFrame.rows.length ≤ J.rows.length ∧
      ∀ r, r < right.toFrame.rows.length →
        (∃ pr ∈ J.rows, pr.2 = some r) ∧
        ((∀ pr ∈ J.rows, pr.2 = some r → pr.1 = none) →
          ((none : Option Nat), (some r : Option Nat)) ∈ J.rows)) := by
  have hderL : ∀ (rows : List (Option Nat × Option Nat)) (l : Nat),
      (∃ pr ∈ rows, pr.1 = some l) →
      (∀ pr ∈ rows, pr.1 = some l → pr.2 = none) →
      ((some l : Option Nat), (none : Option Nat)) ∈ rows := by
    intro rows l ⟨pr, hm, hf⟩ hall
    have hs := hall pr hm hf
    obtain ⟨a, b⟩ := pr
    simp only at hf hs
    subst hf
    subst hs
    exact hm
  have hderR : ∀ (rows : List (Option Nat × Option Nat)) (r : Nat),
      (∃ pr ∈ rows, pr.2 = some r) →
      (∀ pr ∈ rows, pr.2 = some r → pr.1 = none) →
      ((none : Option Nat), (some r : Option Nat)) ∈ rows := by
    intro rows r ⟨pr, hm, hf⟩ hall
    have hs := hall pr hm hf
    obtain ⟨a, b⟩ := pr
    simp only at hf hs
    subst hf
    subst hs
    exact hm
  have h' : _conditional_join_compute df right conds how sb = .ok J := h
  rcases compute_ok_cases df right conds how sb J h' with ⟨-, hJ⟩ | ⟨li, ri, -, hJ⟩
  · subst hJ
    constructor
    · intro h1
      subst h1
      rw [empty_frame_left]
      refine ⟨by simp, ?_⟩
      intro l hl
      have hex : ∃ pr ∈ (List.range df.rows.length).map
          (fun l => ((some l : Option Nat), (none : Option Nat))), pr.1 = some l :=
        ⟨(some l, none), List.mem_map.mpr ⟨l, List.mem_range.mpr hl, rfl⟩, rfl⟩
      exact ⟨hex, hderL _ l hex⟩
    · intro h1
      subst h1
      rw [empty_frame_right]
      refine ⟨by simp, ?_⟩
      intro r hr
      have hex : ∃ pr ∈ (List.range right.toFrame.rows.length).map
          (fun r => ((none : Option Nat), (some r : Option Nat))), pr.2 = some r :=
        ⟨(none, some r), List.mem_map.mpr ⟨r, List.mem_range.mpr hr, rfl⟩, rfl⟩
      exact ⟨hex, hderR _ r hex⟩
  · subst hJ
    constructor
    · intro h1
      subst h1
      have hred : _create_conditional_join_frame df right.toFrame li ri "left" sb =
          ⟨df.cols, df.dtypes, right.toFrame.cols, right.toFrame.dtypes,
            (List.range df.rows.length).flatMap fun l =>
              if ((if sb then (li.zip ri).insertionSort pairLe else li.zip ri).filter
                    fun (p : Nat × Nat) => p.1 == l).isEmpty
              then [((some l : Option Nat), (none : Option Nat))]
              else ((if sb then (li.zip ri).insertionSort pairLe else li.zip ri).filter
                    fun (p : Nat × Nat) => p.1 == l).map
                  fun p => (some l, some p.2)⟩ := rfl
      rw [hred]
      refine ⟨?_, ?_⟩
      · exact left_blocks_len df.rows.length
          (fun l => (if sb then (li.zip ri).insertionSort pairLe
            else li.zip ri).filter fun (p : Nat × Nat) => p.1 == l)
      · intro l hl
        have hex := left_blocks_mem df.rows.length
          (fun l => (if sb then (li.zip ri).insertionSort pairLe
            else li.zip ri).filter fun (p : Nat × Nat) => p.1 == l) l hl
        exact ⟨hex, hderL _ l hex⟩
    · intro h1
      subst h1
      have hred : _create_conditional_join_frame df right.toFrame li ri "right" sb =
          ⟨df.cols, df.dtypes, right.toFrame.cols, right.toFrame.dtypes,
            (List.range right.toFrame.rows.length).flatMap fun r =>
              if ((if sb then (li.zip ri).insertionSort pairLe else li.zip ri).filter
                    fun (p : Nat × Nat) => p.2 == r).isEmpty
              then [((none : Option Nat), (some r : Option Nat))]
              else ((if sb then (li.zip ri).insertionSort pairLe else li.zip ri).filter
                    fun (p : Nat × Nat) => p.2 == r).map
                  fun p => (some p.1, some r)⟩ := rfl
      rw [hred]
      refine ⟨?_, ?_⟩
      · exact right_blocks_len right.toFrame.rows.length
          (fun r => (if sb then (li.zip ri).insertionSort pairLe
            else li.zip ri).filter fun (p : Nat × Nat) => p.2 == r)
      · intro r hr
        have hex := right_blocks_mem right.toFrame.rows.length
          (fun r => (if sb then (li.zip ri).insertionSort pairLe
            else li.zip ri).filter fun (p : Nat × Nat) => p.2 == r) r hr
        exact ⟨hex, hderR _ r hex⟩

theorem c8_left_join_completeness_witness :
    (("left" : String) = "left" →
      exDf.rows.length ≤ (JoinedFrame.mk ["val"] [DType.int] ["val"] [DType.int]
        [(some 0, some 0), (some 1, none)]).rows.length ∧
      ∀ l, l < exDf.rows.length →
        (∃ pr ∈ (JoinedFrame.mk ["val"] [DType.int] ["val"] [DType.int]
          [(some 0, some 0), (some 1, none)]).rows, pr.1 = some l) ∧
        ((∀ pr ∈ (JoinedFrame.mk ["val"] [DType.int] ["val"] [DType.int]
            [(some 0, some 0), (some 1, none)]).rows, pr.1 = some l → pr.2 = none) →
          ((some l : Option Nat), (none : Option Nat)) ∈
            (JoinedFrame.mk ["val"] [DType.int] ["val"] [DType.int]
              [(some 0, some 0), (some 1, none)]).rows)) ∧
    (("left" : String) = "right" →
      (RightObj.frame exRt).toFrame.rows.length ≤
        (JoinedFrame.mk ["val"] [DType.int] ["val"] [DType.int]
          [(some 0, some 0), (some 1, none)]).rows.length ∧
      ∀ r, r < (RightObj.frame exRt).toFrame.rows.length →
        (∃ pr ∈ (JoinedFrame.mk ["val"] [DType.int] ["val"] [DType.int]
          [(some 0, some 0), (some 1, none)]).rows, pr.2 = some r) ∧
        ((∀ pr ∈ (JoinedFrame.mk ["val"] [DType.int] ["val"] [DType.int]
            [(some 0, some 0), (some 1, none)]).rows, pr.2 = some r → pr.1 = none) →
          ((none : Option Nat), (some r : Option Nat)) ∈
            (JoinedFrame.mk ["val"] [DType.int] ["val"] [DType.int]
              [(some 0, some 0), (some 1, none)]).rows)) :=
  c8_left_join_completeness exDf (RightObj.frame exRt) [["val", "val", "<"]]
    "left" false
    (JoinedFrame.mk ["val"] [DType.int] ["val"] [DType.int]
      [(some 0, some 0), (some 1, none)])
    (by rfl)

/-! ## Membership utilities for soundness -/

theorem col_length (f : Frame) (c : String) : (f.col c).length = f.rows.length := by
  unfold Frame.col
  split <;> simp

theorem mem_zip_range (l : List Val) (n : Nat) (hn : l.length = n) (i : Nat) (u : Val) :
    (i, u) ∈ (List.range n).zip l ↔ i < n ∧ l.getD i none = u := by
  constructor
  · intro h
    rcases List.mem_iff_getElem.mp h with ⟨k, hk, hget⟩
    have hk2 : k < n := by
      have h2 := hk
      simp [List.length_zip, hn] at h2
      omega
    have hkr : k < (List.range n).length := by simpa using hk2
    have hkl : k < l.length := by omega
    have hget2 : ((List.range n).zip l)[k] = ((List.range n)[k], l[k]) :=
      List.getElem_zip ..
    rw [hget2] at hget
    have h1 : (List.range n)[k] = k := by simp
    obtain ⟨ha, hb⟩ := Prod.mk.injEq .. ▸ hget
    rw [h1] at ha
    subst ha
    refine ⟨hk2, ?_⟩
    rw [List.getD_eq_getElem _ _ (by omega)]
    exact hb
  · rintro ⟨hi, hu⟩
    have hiz : i < ((List.range n).zip l).length := by
      simp only [List.length_zip, List.length_range, hn]
      omega
    have hir : i < (List.range n).length := by simpa using hi
    have hil : i < l.length := by omega
    refine List.mem_iff_getElem.mpr ⟨i, hiz, ?_⟩
    have hget2 : ((List.range n).zip l)[i] = ((List.range n)[i], l[i]) :=
      List.getElem_zip ..
    rw [hget2, List.getElem_range]
    rw [List.getD_eq_getElem _ _ (by omega)] at hu
    rw [hu]

theorem mem_colS (f : Frame) (c : String) (i : Nat) (u : Val) :
    (i, u) ∈ f.colS c ↔ i < f.rows.length ∧ (f.col c).getD i none = u := by
  unfold Frame.colS
  exact mem_zip_range _ _ (col_length f c) i u

theorem mem_locS (f : Frame) (labels : List Nat) (c : String) (i : Nat) (u : Val) :
    (i, u) ∈ f.locS labels c ↔ i ∈ labels ∧ (f.col c).getD i none = u := by
  unfold Frame.locS
  rw [List.mem_map]
  constructor
  · rintro ⟨l, hl, heq⟩
    obtain ⟨h1, h2⟩ := Prod.mk.injEq .. ▸ heq
    subst h1
    exact ⟨hl, h2⟩
  · rintro ⟨hl, hu⟩
    exact ⟨i, hl, by rw [hu]⟩

theorem mem_matchedPairs (J : JoinedFrame) (l r : Nat) :
    (l, r) ∈ matchedPairs J ↔ (some l, some r) ∈ J.rows := by
  unfold matchedPairs
  rw [List.mem_filterMap]
  constructor
  · rintro ⟨pr, hm, hf⟩
    obtain ⟨a, b⟩ := pr
    cases a with
    | none => cases hf
    | some x =>
      cases b with
      | none => cases hf
      | some y =>
        obtain ⟨h1, h2⟩ := Prod.mk.injEq .. ▸ (Option.some.injEq .. ▸ hf)
        simp only [Option.some.injEq] at hf
        obtain ⟨rfl, rfl⟩ : x = l ∧ y = r := by simpa [Prod.ext_iff] using hf
        exact hm
  · intro hm
    exact ⟨(some l, some r), hm, rfl⟩

theorem create_frame_rows_sub (df rt : Frame) (li ri : List Nat) (how : String)
    (sb : Bool) (l r : Nat)
    (h : (some l, some r) ∈ (_create_conditional_join_frame df rt li ri how sb).rows) :
    (l, r) ∈ li.zip ri := by
  have hperm : (if sb then (li.zip ri).insertionSort pairLe else li.zip ri).Perm
      (li.zip ri) := by
    cases sb with
    | false => simp
    | true => simpa using List.perm_insertionSort pairLe (li.zip ri)
  unfold _create_conditional_join_frame at h
  dsimp only at h
  split at h
  · rcases List.mem_map.mp h with ⟨p, hp, heq⟩
    obtain ⟨h1, h2⟩ : some p.1 = some l ∧ some p.2 = some r := by
      simpa [Prod.ext_iff] using heq
    obtain ⟨a, b⟩ := p
    simp only [Option.some.injEq] at h1 h2
    subst h1
    subst h2
    exact hperm.mem_iff.mp hp
  · split at h
    · rcases List.mem_flatMap.mp h with ⟨l0, hl0, hb⟩
      by_cases he : ((if sb then (li.zip ri).insertionSort pairLe
          else li.zip ri).filter fun (p : Nat × Nat) => p.1 == l0).isEmpty = true
      · rw [if_pos he] at hb
        simp at hb
      · rw [if_neg he] at hb
        rcases List.mem_map.mp hb with ⟨p, hp, heq⟩
        obtain ⟨h1, h2⟩ : some l0 = some l ∧ some p.2 = some r := by
          simpa [Prod.ext_iff] using heq
        simp only [Option.some.injEq] at h1 h2
        subst h1
        subst h2
        rcases List.mem_filter.mp hp with ⟨hpm, hpf⟩
        have h3 : p.1 = l0 := by simpa using hpf
        obtain ⟨a, b⟩ := p
        simp only at h3
        subst h3
        exact hperm.mem_iff.mp hpm
    · rcases List.mem_flatMap.mp h with ⟨r0, hr0, hb⟩
      by_cases he : ((if sb then (li.zip ri).insertionSort pairLe
          else li.zip ri).filter fun (p : Nat × Nat) => p.2 == r0).isEmpty = true
      · rw [if_pos he] at hb
        simp at hb
      · rw [if_neg he] at hb
        rcases List.mem_map.mp hb with ⟨p, hp, heq⟩
        obtain ⟨h1, h2⟩ : some p.1 = some l ∧ some r0 = some r := by
          simpa [Prod.ext_iff] using heq
        simp only [Option.some.injEq] at h1 h2
        subst h1
        subst h2
        rcases List.mem_filter.mp hp with ⟨hpm, hpf⟩
        have h3 : p.2 = r0 := by simpa using hpf
        obtain ⟨a, b⟩ := p
        simp only at h3
        subst h3
        exact hperm.mem_iff.mp hpm

theorem mem_hashJoin (lk rk : List (List Val)) (i j : Nat) :
    (i, j) ∈ hashJoinPositions lk rk ↔
      i < lk.length ∧ j < rk.length ∧ rk.getD j [] = lk.getD i [] := by
  unfold hashJoinPositions
  rw [List.mem_flatMap]
  constructor
  · rintro ⟨a, ha, hm⟩
    rcases List.mem_map.mp hm with ⟨b, hb, heq⟩
    obtain ⟨rfl, rfl⟩ : a = i ∧ b = j := by simpa [Prod.ext_iff] using heq
    rcases List.mem_filter.mp hb with ⟨hbr, hbf⟩
    exact ⟨List.mem_range.mp ha, List.mem_range.mp hbr, by simpa using hbf⟩
  · rintro ⟨hi, hj, heq⟩
    exact ⟨i, List.mem_range.mpr hi, List.mem_map.mpr ⟨j,
      List.mem_filter.mpr ⟨List.mem_range.mpr hj, by simpa using heq⟩, rfl⟩⟩

theorem lt_pairs_len (L R : Series) (strict : Bool) :
    (pairsOf (_less_than_indices L R strict 1)).1.length =
      (pairsOf (_less_than_indices L R strict 1)).2.length := by
  rw [lt_indices_eq]
  by_cases hw : ltWork L R strict = []
  · rw [if_pos hw]
    rfl
  · rw [if_neg hw, if_neg (by omega)]
    unfold pairsOf
    have hpre : List.Forall₂ (fun x y => x < y) ((ltWork L R strict).map fun t => t.2.2)
        (List.replicate ((ltWork L R strict).map fun t => t.2.2).length
          ((sort_values (dropna R)).map Prod.snd).length) := by
      rw [forall₂_replicate_right]
      intro s hs
      rcases List.mem_map.mp hs with ⟨t, ht, rfl⟩
      exact ltWork_si_lt L R strict t ht
    rw [interval_ranges_eq _ _ hpre (by simpa using hw)]
    rw [zipWith_replicate_left', zipWith_replicate_right', List.map_map,
      List.zipWith_map, List.zipWith_same]
    simp only [List.length_map, List.length_flatten, List.map_map]
    refine congrArg List.sum (List.map_congr_left fun t _ => ?_)
    simp [List.length_replicate, List.length_range']

theorem gt_pairs_len (L R : Series) (strict : Bool) :
    (pairsOf (_greater_than_indices L R strict 1)).1.length =
      (pairsOf (_greater_than_indices L R strict 1)).2.length := by
  rw [gt_indices_eq]
  by_cases hw : gtWork L R strict = []
  · rw [if_pos hw]
    rfl
  · rw [if_neg hw, if_neg (by omega)]
    unfold pairsOf
    have hpre : List.Forall₂ (fun x y => x < y)
        (List.replicate ((gtWork L R strict).map fun t => t.2.2).length 0)
        ((gtWork L R strict).map fun t => t.2.2) := by
      rw [forall₂_replicate_left]
      intro s hs
      rcases List.mem_map.mp hs with ⟨t, ht, rfl⟩
      exact gtWork_si_pos L R strict t ht
    rw [interval_ranges_eq _ _ hpre (by simpa using hw)]
    rw [zipWith_replicate_left', List.zipWith_map, List.zipWith_same]
    simp only [List.length_map, List.length_flatten, List.map_map]
    refine congrArg List.sum (List.map_congr_left fun t _ => ?_)
    simp [List.length_replicate, List.length_range']

theorem ne_pairs_mem (L R : Series) (i j : Nat)
    (h : (i, j) ∈ pairList (pairsOf (_not_equal_indices L R))) :
    ∃ v w, (i, some v) ∈ L ∧ (j, some w) ∈ R ∧ v ≠ w := by
  unfold _not_equal_indices at h
  dsimp only at h
  split at h
  · simp [pairsOf, pairList] at h
  · have h2 : (i, j) ∈ ((pairsOf (_less_than_indices L R true 1)).1 ++
        (pairsOf (_greater_than_indices L R true 1)).1).zip
        ((pairsOf (_less_than_indices L R true 1)).2 ++
          (pairsOf (_greater_than_indices L R true 1)).2) := h
    rw [List.zip_append (lt_pairs_len L R true)] at h2
    rcases List.mem_append.mp h2 with hlt | hgt
    · rcases (lt_pairs_mem L R true i j).mp hlt with ⟨v, w, hv, hw, hrel⟩
      simp only [if_true] at hrel
      exact ⟨v, w, hv, hw, by omega⟩
    · rcases (gt_pairs_mem L R true i j).mp hgt with ⟨v, w, hv, hw, hrel⟩
      simp only [if_true] at hrel
      exact ⟨v, w, hv, hw, by omega⟩

theorem getD_map_fst (L : Series) (i : Nat) (hi : i < L.length) :
    (L.map Prod.fst).getD i 0 = (L.get ⟨i, hi⟩).1 := by
  rw [List.getD_eq_getElem _ _ (by simpa using hi), List.getElem_map]
  rfl

theorem getD_map_key (L : Series) (i : Nat) (hi : i < L.length) :
    (L.map fun p => [p.2]).getD i [] = [(L.get ⟨i, hi⟩).2] := by
  rw [List.getD_eq_getElem _ _ (by simpa using hi), List.getElem_map]
  rfl

theorem eq_indices_single_eq (lc rc : KeyedRows) (a b : List Nat)
    (h : _equal_indices lc rc 1 = some (a, b)) :
    a.zip b = (hashJoinPositions (lc.map Prod.snd) (rc.map Prod.snd)).map
      (fun p => ((lc.map Prod.fst).getD p.1 0, (rc.map Prod.fst).getD p.2 0)) := by
  unfold _equal_indices at h
  dsimp only at h
  split at h
  · cases h
  · split at h
    · rename_i h11
      exact absurd h11 (by omega)
    · injection h with h2
      obtain ⟨ha, hb⟩ := Prod.mk.injEq .. ▸ h2
      rw [← ha, ← hb, List.zip_map']

theorem eq_indices_single_mem (L R : Series) (a b : List Nat)
    (h : _equal_indices (L.map fun p => (p.1, [p.2]))
      (R.map fun p => (p.1, [p.2])) 1 = some (a, b))
    (l r : Nat) (hm : (l, r) ∈ a.zip b) : ∃ u, (l, u) ∈ L ∧ (r, u) ∈ R := by
  have he := eq_indices_single_eq _ _ a b h
  rw [he] at hm
  rcases List.mem_map.mp hm with ⟨p, hp, heq⟩
  obtain ⟨p1, p2⟩ := p
  obtain ⟨hl, hr⟩ := Prod.mk.injEq .. ▸ heq
  have e1L : (L.map fun p => (p.1, [p.2])).map Prod.fst = L.map Prod.fst := by
    rw [List.map_map]
    exact List.map_congr_left fun q _ => rfl
  have e1R : (R.map fun p => (p.1, [p.2])).map Prod.fst = R.map Prod.fst := by
    rw [List.map_map]
    exact List.map_congr_left fun q _ => rfl
  have e2L : (L.map fun p => (p.1, [p.2])).map Prod.snd =
      L.map fun p => [p.2] := by
    rw [List.map_map]
    exact List.map_congr_left fun q _ => rfl
  have e2R : (R.map fun p => (p.1, [p.2])).map Prod.snd =
      R.map fun p => [p.2] := by
    rw [List.map_map]
    exact List.map_congr_left fun q _ => rfl
  rw [e2L, e2R] at hp
  rcases (mem_hashJoin _ _ p1 p2).mp hp with ⟨h1, h2, hkey⟩
  have h1L : p1 < L.length := by simpa using h1
  have h2R : p2 < R.length := by simpa using h2
  rw [getD_map_key R p2 h2R, getD_map_key L p1 h1L] at hkey
  have hval : (R.get ⟨p2, h2R⟩).2 = (L.get ⟨p1, h1L⟩).2 := by simpa using hkey
  rw [e1L, getD_map_fst L p1 h1L] at hl
  rw [e1R, getD_map_fst R p2 h2R] at hr
  refine ⟨(L.get ⟨p1, h1L⟩).2, ?_, ?_⟩
  · have hx : (l, (L.get ⟨p1, h1L⟩).2) = L.get ⟨p1, h1L⟩ := by rw [← hl]
    rw [hx]
    exact List.get_mem L p1 h1L
  · have hx : (r, (L.get ⟨p1, h1L⟩).2) = R.get ⟨p2, h2R⟩ := by rw [← hr, ← hval]
    rw [hx]
    exact List.get_mem R p2 h2R

theorem eq_indices_multi_mem (lc rc : KeyedRows) (a b : List Nat)
    (h : _equal_indices lc rc 2 = some (a, b)) :
    a = (hashJoinPositions (lc.map Prod.snd) (rc.map Prod.snd)).map Prod.fst ∧
    b = (hashJoinPositions (lc.map Prod.snd) (rc.map Prod.snd)).map Prod.snd := by
  unfold _equal_indices at h
  dsimp only at h
  split at h
  · cases h
  · split at h
    · injection h with h'
      exact ⟨(Prod.mk.injEq .. ▸ h').1.symm, (Prod.mk.injEq .. ▸ h').2.symm⟩
    · rename_i h12
      exact absurd (by omega) h12

theorem generic_single_sound (df rt : Frame) (c : Cond)
    (hop : c.op ∈ [">", "<", ">=", "<=", "==", "!="])
    (li ri : List Nat)
    (hd : computeDispatch df rt [c] = some (li, ri))
    (l r : Nat) (hm : (l, r) ∈ li.zip ri) :
    elemCmp c.op ((df.col c.left_on).getD l none)
      ((rt.col c.right_on).getD r none) = true := by
  obtain ⟨lo, ro, op⟩ := c
  simp only at hop ⊢
  fin_cases hop
  · -- op = ">"
    have hd3 : (match _greater_than_indices (df.colS lo) (rt.colS ro) true 1 with
        | none => none
        | some res => some (pairsOf (some res))) = some (li, ri) := hd
    cases hg : _greater_than_indices (df.colS lo) (rt.colS ro) true 1 with
    | none => rw [hg] at hd3; cases hd3
    | some res =>
      rw [hg] at hd3
      injection hd3 with hres
      have h4 : (l, r) ∈ pairList (pairsOf (_greater_than_indices
          (df.colS lo) (rt.colS ro) true 1)) := by
        unfold pairList
        rw [hg, hres]
        exact hm
      rcases (gt_pairs_mem _ _ true l r).mp h4 with ⟨v, w, hvL, hwR, hrel⟩
      simp only [if_true] at hrel
      rw [((mem_colS df lo l (some v)).mp hvL).2,
        ((mem_colS rt ro r (some w)).mp hwR).2]
      simp [elemCmp]
      omega
  · -- op = "<"
    have hd3 : (match _less_than_indices (df.colS lo) (rt.colS ro) true 1 with
        | none => none
        | some res => some (pairsOf (some res))) = some (li, ri) := hd
    cases hg : _less_than_indices (df.colS lo) (rt.colS ro) true 1 with
    | none => rw [hg] at hd3; cases hd3
    | some res =>
      rw [hg] at hd3
      injection hd3 with hres
      have h4 : (l, r) ∈ pairList (pairsOf (_less_than_indices
          (df.colS lo) (rt.colS ro) true 1)) := by
        unfold pairList
        rw [hg, hres]
        exact hm
      rcases (lt_pairs_mem _ _ true l r).mp h4 with ⟨v, w, hvL, hwR, hrel⟩
      simp only [if_true] at hrel
      rw [((mem_colS df lo l (some v)).mp hvL).2,
        ((mem_colS rt ro r (some w)).mp hwR).2]
      simp [elemCmp]
      omega
  · -- op = ">="
    have hd3 : (match _greater_than_indices (df.colS lo) (rt.colS ro) false 1 with
        | none => none
        | some res => some (pairsOf (some res))) = some (li, ri) := hd
    cases hg : _greater_than_indices (df.colS lo) (rt.colS ro) false 1 with
    | none => rw [hg] at hd3; cases hd3
    | some res =>
      rw [hg] at hd3
      injection hd3 with hres
      have h4 : (l, r) ∈ pairList (pairsOf (_greater_than_indices
          (df.colS lo) (rt.colS ro) false 1)) := by
        unfold pairList
        rw [hg, hres]
        exact hm
      rcases (gt_pairs_mem _ _ false l r).mp h4 with ⟨v, w, hvL, hwR, hrel⟩
      simp only [Bool.false_eq_true, if_false] at hrel
      rw [((mem_colS df lo l (some v)).mp hvL).2,
        ((mem_colS rt ro r (some w)).mp hwR).2]
      simp [elemCmp]
      omega
  · -- op = "<="
    have hd3 : (match _less_than_indices (df.colS lo) (rt.colS ro) false 1 with
        | none => none
        | some res => some (pairsOf (some res))) = some (li, ri) := hd
    cases hg : _less_than_indices (df.colS lo) (rt.colS ro) false 1 with
    | none => rw [hg] at hd3; cases hd3
    | some res =>
      rw [hg] at hd3
      injection hd3 with hres
      have h4 : (l, r) ∈ pairList (pairsOf (_less_than_indices
          (df.colS lo) (rt.colS ro) false 1)) := by
        unfold pairList
        rw [hg, hres]
        exact hm
      rcases (lt_pairs_mem _ _ false l r).mp h4 with ⟨v, w, hvL, hwR, hrel⟩
      simp only [Bool.false_eq_true, if_false] at hrel
      rw [((mem_colS df lo l (some v)).mp hvL).2,
        ((mem_colS rt ro r (some w)).mp hwR).2]
      simp [elemCmp]
      omega
  · -- op = "=="
    have hd3 : (match (match _equal_indices
        (((df.colS lo).filter fun p => p.2.isSome).map fun p => (p.1, [p.2]))
        (((rt.colS ro).filter fun p => p.2.isSome).map fun p => (p.1, [p.2])) 1 with
        | none => none
        | some (a, b) => some (MatchResult.pairs a b)) with
        | none => none
        | some res => some (pairsOf (some res))) = some (li, ri) := hd
    cases hg : _equal_indices
        (((df.colS lo).filter fun p => p.2.isSome).map fun p => (p.1, [p.2]))
        (((rt.colS ro).filter fun p => p.2.isSome).map fun p => (p.1, [p.2])) 1 with
    | none =>
      simp only [hg] at hd3
      cases hd3
    | some pr =>
      obtain ⟨a, b⟩ := pr
      simp only [hg] at hd3
      injection hd3 with hres
      have ha : a = li := congrArg Prod.fst hres
      have hb : b = ri := congrArg Prod.snd hres
      rcases eq_indices_single_mem _ _ a b hg l r (by rw [ha, hb]; exact hm)
        with ⟨u, huL, huR⟩
      rcases List.mem_filter.mp huL with ⟨huL2, hsL⟩
      rcases List.mem_filter.mp huR with ⟨huR2, hsR⟩
      rcases Option.isSome_iff_exists.mp (by simpa using hsL) with ⟨v, rfl⟩
      rw [((mem_colS df lo l (some v)).mp huL2).2,
        ((mem_colS rt ro r (some v)).mp huR2).2]
      simp [elemCmp, elemEq]
  · -- op = "!="
    have hd3 : (match _not_equal_indices (df.colS lo) (rt.colS ro) with
        | none => none
        | some res => some (pairsOf (some res))) = some (li, ri) := hd
    cases hg : _not_equal_indices (df.colS lo) (rt.colS ro) with
    | none => rw [hg] at hd3; cases hd3
    | some res =>
      rw [hg] at hd3
      injection hd3 with hres
      have h4 : (l, r) ∈ pairList (pairsOf (_not_equal_indices
          (df.colS lo) (rt.colS ro))) := by
        unfold pairList
        rw [hg, hres]
        exact hm
      rcases ne_pairs_mem _ _ l r h4 with ⟨v, w, hvL, hwR, hne⟩
      rw [((mem_colS df lo l (some v)).mp hvL).2,
        ((mem_colS rt ro r (some w)).mp hwR).2]
      simp [elemCmp, elemEq]
      exact hne

theorem getD_map_nat {β : Type} [Inhabited β] (f : Nat → β) (l : List Nat) (i : Nat)
    (d : β) (hi : i < l.length) :
    (l.map f).getD i d = f (l.getD i 0) := by
  rw [List.getD_eq_getElem _ _ (by simpa using hi), List.getElem_map,
    List.getD_eq_getElem _ _ hi]

theorem getD_mem_nat (l : List Nat) (i : Nat) (hi : i < l.length) :
    l.getD i 0 ∈ l := by
  rw [List.getD_eq_getElem _ _ hi]
  exact List.getElem_mem hi

theorem locKeyed_snd (f : Frame) (labels : List Nat) (cs : List String) :
    (f.locKeyed labels cs).map Prod.snd =
      labels.map fun l => cs.map fun c => (f.col c).getD l none := by
  unfold Frame.locKeyed
  rw [List.map_map]
  exact List.map_congr_left fun q _ => rfl

theorem locKeyed_length (f : Frame) (labels : List Nat) (cs : List String) :
    (f.locKeyed labels cs).length = labels.length := by
  unfold Frame.locKeyed
  simp

theorem eq_combine_sound (df rt : Frame) (conds : List Cond) (li ri : List Nat)
    (hd : _multiple_conditional_join_eq df rt conds = some (li, ri))
    (l r : Nat) (hm : (l, r) ∈ li.zip ri) :
    ∀ c ∈ conds, elemCmp c.op ((df.col c.left_on).getD l none)
      ((rt.col c.right_on).getD r none) = true := by
  unfold _multiple_conditional_join_eq at hd
  dsimp only at hd
  split at hd
  · cases hd
  · rename_i dfi rix heq
    obtain ⟨hdfi, hrix⟩ := eq_indices_multi_mem _ _ _ _ heq
    rw [locKeyed_snd, locKeyed_snd] at hdfi hrix
    -- shared facts derivation, then split on the rest-empty if
    have main : ∀ (p : Nat × Nat), p ∈ hashJoinPositions
        (((List.range df.rows.length).filter fun l =>
          ((conds.filter fun c => c.op == "==").map fun c => c.left_on).all fun c =>
            ((df.col c).getD l none).isSome).map fun l =>
          ((conds.filter fun c => c.op == "==").map fun c => c.left_on).map fun c =>
            (df.col c).getD l none)
        (((List.range rt.rows.length).filter fun r =>
          ((conds.filter fun c => c.op == "==").map fun c => c.right_on).all fun c =>
            ((rt.col c).getD r none).isSome).map fun r =>
          ((conds.filter fun c => c.op == "==").map fun c => c.right_on).map fun c =>
            (rt.col c).getD r none) →
        ∀ c ∈ conds, c.op = "==" →
        elemCmp c.op ((df.col c.left_on).getD
            (((List.range df.rows.length).filter fun l =>
              ((conds.filter fun c => c.op == "==").map fun c => c.left_on).all fun c =>
                ((df.col c).getD l none).isSome).getD p.1 0) none)
          ((rt.col c.right_on).getD
            (((List.range rt.rows.length).filter fun r =>
              ((conds.filter fun c => c.op == "==").map fun c => c.right_on).all fun c =>
                ((rt.col c).getD r none).isSome).getD p.2 0) none) = true := by
      intro p hp c hc hcop
      obtain ⟨p1, p2⟩ := p
      dsimp only
      rcases (mem_hashJoin _ _ p1 p2).mp hp with ⟨h1, h2, hkey⟩
      rw [List.length_map] at h1 h2
      rw [getD_map_nat _ _ _ _ h1, getD_map_nat _ _ _ _ h2] at hkey
      rw [List.map_map, List.map_map] at hkey
      have hpt := List.map_inj_left.mp hkey.symm c
        (List.mem_filter.mpr ⟨hc, by simp [hcop]⟩)
      simp only [Function.comp_apply] at hpt
      have hlmem := getD_mem_nat _ p1 h1
      rcases List.mem_filter.mp hlmem with ⟨-, hallL⟩
      have hsome := (List.all_eq_true.mp hallL) c.left_on
        (List.mem_map_of_mem _ (List.mem_filter.mpr ⟨hc, by simp [hcop]⟩))
      rcases Option.isSome_iff_exists.mp hsome with ⟨v, hv⟩
      rw [hcop]
      rw [hv] at hpt ⊢
      rw [← hpt]
      simp [elemCmp, elemEq]
    split at hd
    · rename_i hrestE
      injection hd with hres
      have hli : li = dfi.map fun p =>
          ((List.range df.rows.length).filter fun l =>
            ((conds.filter fun c => c.op == "==").map fun c => c.left_on).all fun c =>
              ((df.col c).getD l none).isSome).getD p 0 :=
        (congrArg Prod.fst hres).symm
      have hri : ri = rix.map fun p =>
          ((List.range rt.rows.length).filter fun r =>
            ((conds.filter fun c => c.op == "==").map fun c => c.right_on).all fun c =>
              ((rt.col c).getD r none).isSome).getD p 0 :=
        (congrArg Prod.snd hres).symm
      rw [hli, hri, hdfi, hrix, List.map_map, List.map_map, List.zip_map'] at hm
      rcases List.mem_map.mp hm with ⟨p, hp, hpair⟩
      obtain ⟨hl, hr⟩ := Prod.mk.injEq .. ▸ hpair
      intro c hc
      by_cases hop : c.op = "=="
      · have := main p hp c hc hop
        rw [← hl, ← hr]
        exact this
      · exfalso
        have hrest0 : (conds.filter fun c => c.op != "==") = [] := by
          simpa [List.isEmpty_iff] using hrestE
        have : c ∈ (conds.filter fun c => c.op != "==") :=
          List.mem_filter.mpr ⟨hc, by simp [hop]⟩
        rw [hrest0] at this
        cases this
    · rename_i hrestE
      split at hd
      · cases hd
      · injection hd with hres
        have hli : li = ((dfi.zip rix).filter fun pr =>
            (conds.filter fun c => c.op != "==").all fun c =>
              elemCmp c.op ((df.col c.left_on).getD
                (((List.range df.rows.length).filter fun l =>
                  ((conds.filter fun c => c.op == "==").map fun c => c.left_on).all fun c =>
                    ((df.col c).getD l none).isSome).getD pr.1 0) none)
                ((rt.col c.right_on).getD
                (((List.range rt.rows.length).filter fun r =>
                  ((conds.filter fun c => c.op == "==").map fun c => c.right_on).all fun c =>
                    ((rt.col c).getD r none).isSome).getD pr.2 0) none)).map
            fun pr => ((List.range df.rows.length).filter fun l =>
              ((conds.filter fun c => c.op == "==").map fun c => c.left_on).all fun c =>
                ((df.col c).getD l none).isSome).getD pr.1 0 :=
          (congrArg Prod.fst hres).symm
        have hri : ri = ((dfi.zip rix).filter fun pr =>
            (conds.filter fun c => c.op != "==").all fun c =>
              elemCmp c.op ((df.col c.left_on).getD
                (((List.range df.rows.length).filter fun l =>
                  ((conds.filter fun c => c.op == "==").map fun c => c.left_on).all fun c =>
                    ((df.col c).getD l none).isSome).getD pr.1 0) none)
                ((rt.col c.right_on).getD
                (((List.range rt.rows.length).filter fun r =>
                  ((conds.filter fun c => c.op == "==").map fun c => c.right_on).all fun c =>
                    ((rt.col c).getD r none).isSome).getD pr.2 0) none)).map
            fun pr => ((List.range rt.rows.length).filter fun r =>
              ((conds.filter fun c => c.op == "==").map fun c => c.right_on).all fun c =>
                ((rt.col c).getD r none).isSome).getD pr.2 0 :=
          (congrArg Prod.snd hres).symm
        rw [hli, hri, List.zip_map'] at hm
        rcases List.mem_map.mp hm with ⟨pr, hpr, hpair⟩
        obtain ⟨hl, hr⟩ := Prod.mk.injEq .. ▸ hpair
        rcases List.mem_filter.mp hpr with ⟨hprz, hmask⟩
        have hprh : pr ∈ hashJoinPositions
            (((List.range df.rows.length).filter fun l =>
              ((conds.filter fun c => c.op == "==").map fun c => c.left_on).all fun c =>
                ((df.col c).getD l none).isSome).map fun l =>
              ((conds.filter fun c => c.op == "==").map fun c => c.left_on).map fun c =>
                (df.col c).getD l none)
            (((List.range rt.rows.length).filter fun r =>
              ((conds.filter fun c => c.op == "==").map fun c => c.right_on).all fun c =>
                ((rt.col c).getD r none).isSome).map fun r =>
              ((conds.filter fun c => c.op == "==").map fun c => c.right_on).map fun c =>
                (rt.col c).getD r none) := by
          rw [hdfi, hrix, List.zip_map'] at hprz
          rcases List.mem_map.mp hprz with ⟨q, hq, hqe⟩
          have : (q.1, q.2) = q := rfl
          rw [this] at hqe
          rw [← hqe]
          exact hq
        intro c hc
        by_cases hop : c.op = "=="
        · have := main pr hprh c hc hop
          rw [← hl, ← hr]
          exact this
        · have := List.all_eq_true.mp hmask c
            (List.mem_filter.mpr ⟨hc, by simp [hop]⟩)
          rw [← hl, ← hr]
          simpa using this

theorem ne_pairs_mem_generic (L R : Series) (dfi rix : List Nat)
    (hg : _generic_func_cond_join L R "!=" 1 = some (.pairs dfi rix))
    (l r : Nat) (hm : (l, r) ∈ dfi.zip rix) :
    ∃ v w, (l, some v) ∈ L ∧ (r, some w) ∈ R ∧ v ≠ w := by
  have hg2 : _not_equal_indices L R = some (.pairs dfi rix) := hg
  refine ne_pairs_mem L R l r ?_
  unfold pairList
  rw [hg2]
  exact hm

theorem ne_combine_sound (df rt : Frame) (conds : List Cond) (li ri : List Nat)
    (hall : ∀ c ∈ conds, c.op = "!=")
    (hd : _multiple_conditional_join_ne df rt conds = some (li, ri))
    (l r : Nat) (hm : (l, r) ∈ li.zip ri) :
    ∀ c ∈ conds, elemCmp c.op ((df.col c.left_on).getD l none)
      ((rt.col c.right_on).getD r none) = true := by
  unfold _multiple_conditional_join_ne at hd
  cases conds with
  | nil => cases hd
  | cons first rest =>
    have hfop : first.op = "!=" := hall first (List.mem_cons_self first rest)
    cases hg : _generic_func_cond_join (df.colS first.left_on)
        (rt.colS first.right_on) first.op 1 with
    | none =>
      simp only [hg] at hd
      cases hd
    | some res =>
      cases res with
      | bounds a b c d =>
        simp only [hg] at hd
        cases hd
      | pairs dfi rix =>
        simp only [hg] at hd
        rw [hfop] at hg
        have hfirst_sound : ∀ l r, (l, r) ∈ dfi.zip rix →
            elemCmp first.op ((df.col first.left_on).getD l none)
              ((rt.col first.right_on).getD r none) = true := by
          intro l r hlr
          rcases ne_pairs_mem_generic _ _ dfi rix hg l r hlr with ⟨v, w, hvL, hwR, hvw⟩
          rw [((mem_colS df first.left_on l (some v)).mp hvL).2,
            ((mem_colS rt first.right_on r (some w)).mp hwR).2, hfop]
          simp [elemCmp, elemEq]
          exact hvw
        split at hd
        · rename_i hrestE
          injection hd with hres
          have hli : li = dfi := (congrArg Prod.fst hres).symm
          have hri : ri = rix := (congrArg Prod.snd hres).symm
          subst hli
          subst hri
          intro c hc
          rcases List.mem_cons.mp hc with rfl | hcr
          · exact hfirst_sound l r hm
          · exfalso
            rw [List.isEmpty_iff.mp hrestE] at hcr
            cases hcr
        · rename_i hrestE
          split at hd
          · cases hd
          · injection hd with hres
            have hli : li = _ := (congrArg Prod.fst hres).symm
            have hri : ri = _ := (congrArg Prod.snd hres).symm
            rw [hli, hri, List.zip_map'] at hm
            have hid : ((dfi.zip rix).filter fun (pr : Nat × Nat) =>
                rest.all fun (c : Cond) =>
                  elemCmp c.op ((df.col c.left_on).getD pr.1 none)
                    ((rt.col c.right_on).getD pr.2 none)).map
                (fun (pr : Nat × Nat) => (pr.1, pr.2)) =
                (dfi.zip rix).filter fun (pr : Nat × Nat) =>
                rest.all fun (c : Cond) =>
                  elemCmp c.op ((df.col c.left_on).getD pr.1 none)
                    ((rt.col c.right_on).getD pr.2 none) := by
              exact List.map_id' _
            rw [hid] at hm
            rcases List.mem_filter.mp hm with ⟨hmz, hmask⟩
            intro c hc
            rcases List.mem_cons.mp hc with rfl | hcr
            · exact hfirst_sound l r hmz
            · have := List.all_eq_true.mp hmask c hcr
              simpa using this

theorem zip_self_map {α β : Type} (l : List α) (f : α → β) :
    l.zip (l.map f) = l.map fun a => (a, f a) := by
  induction l with
  | nil => rfl
  | cons x xs ih => simp only [List.map_cons, List.zip_cons_cons, ih]

theorem zip_replicate_snd {α β : Type} (l : List α) (b : β) (k : Nat)
    (h : l.length = k) :
    l.zip (List.replicate k b) = l.map fun a => (a, b) := by
  subst h
  induction l with
  | nil => rfl
  | cons x xs ih => simp only [List.length_cons, List.replicate_succ,
      List.zip_cons_cons, List.map_cons, ih]

theorem mem_slice {α : Type} (l : List α) (a b : Nat) (x : α)
    (h : x ∈ (l.drop a).take b) :
    ∃ p, a ≤ p ∧ p < a + b ∧ ∃ hp : p < l.length, l[p] = x := by
  rcases List.mem_iff_getElem.mp h with ⟨m, hm, hget⟩
  have hmb : m < b := by
    have h2 := hm
    simp only [List.length_take] at h2
    omega
  have hm2 : m < (l.drop a).length := by
    have h2 := hm
    simp only [List.length_take] at h2
    omega
  have hlen : a + m < l.length := by
    have h2 := hm2
    simp only [List.length_drop] at h2
    omega
  refine ⟨a + m, by omega, by omega, hlen, ?_⟩
  have e1 : ((l.drop a).take b)[m] = (l.drop a)[m] := List.getElem_take ..
  have e2 : (l.drop a)[m] = l[a + m] := List.getElem_drop ..
  rw [← hget, e1, e2]

theorem mem_flatten_blocks (scanned : List (Nat × List Nat)) (l r : Nat)
    (h : (l, r) ∈ ((scanned.map fun pr => List.replicate pr.2.length pr.1).flatten).zip
      ((scanned.map fun pr => pr.2).flatten)) :
    ∃ pr ∈ scanned, pr.1 = l ∧ r ∈ pr.2 := by
  rw [zip_flatten] at h
  · rw [List.zipWith_map, List.zipWith_same] at h
    rcases List.mem_flatten.mp h with ⟨blk, hblk, hmem⟩
    rcases List.mem_map.mp hblk with ⟨pr, hpr, rfl⟩
    rw [zip_replicate_left' _ _ _ rfl] at hmem
    rcases List.mem_map.mp hmem with ⟨b, hb, heq⟩
    obtain ⟨h1, h2⟩ := Prod.mk.injEq .. ▸ heq
    exact ⟨pr, hpr, h1, h2 ▸ hb⟩
  · rw [List.forall₂_map_left_iff, List.forall₂_map_right_iff, List.forall₂_same]
    intro pr _
    simp

theorem scan_pairs_mem (work : List (Nat × Int × Nat)) (right_index : List Nat)
    (fL2 fR2 : Nat → Val) (op2 : String) (f1 f2 : Nat × Int × Nat → Nat)
    (scanned : List (Nat × List Nat))
    (hscan : scanned =
      ((((work.map fun t => t.1).zip ((work.map fun t => t.1).map fL2)).zip
          ((work.map f1).zip (work.map f2))).map
        (fun (t : (Nat × Val) × Nat × Nat) =>
          (t.1.1, ((((right_index.zip (right_index.map fR2)).drop t.2.1).take
              (t.2.2 - t.2.1)).filter fun (rv : Nat × Val) =>
            elemCmp op2 t.1.2 rv.2).map Prod.fst))).filter
        fun (pr : Nat × List Nat) => !pr.2.isEmpty)
    (l r : Nat)
    (hm : (l, r) ∈ ((scanned.map fun pr => List.replicate pr.2.length pr.1).flatten).zip
      ((scanned.map fun pr => pr.2).flatten)) :
    ∃ t ∈ work, t.1 = l ∧ ∃ p, f1 t ≤ p ∧ p < f1 t + (f2 t - f1 t) ∧
      ∃ hp : p < right_index.length, right_index[p] = r ∧
      elemCmp op2 (fL2 t.1) (fR2 r) = true := by
  subst hscan
  rcases mem_flatten_blocks _ l r hm with ⟨pr, hpr, hprl, hprr⟩
  rcases List.mem_filter.mp hpr with ⟨hpr2, -⟩
  rw [List.map_map, zip_self_map, List.zip_map', List.zip_map', List.zip_map',
    List.map_map] at hpr2
  rcases List.mem_map.mp hpr2 with ⟨t, ht, hte⟩
  subst hte
  rcases List.mem_map.mp hprr with ⟨rv, hrv, hrve⟩
  rcases List.mem_filter.mp hrv with ⟨hslice, hcmp⟩
  rcases mem_slice _ _ _ _ hslice with ⟨p, hp1, hp2, hp3, hp4⟩
  have hp3a : p < right_index.length := by simpa using hp3
  have hg : (right_index.map fun a => (a, fR2 a))[p] =
      (right_index[p], fR2 right_index[p]) := List.getElem_map ..
  rw [hg] at hp4
  obtain ⟨hrv1, hrv2⟩ := Prod.mk.injEq .. ▸ hp4
  have hcmp2 : elemCmp op2 (fL2 t.1) rv.2 = true := by simpa using hcmp
  refine ⟨t, ht, hprl, p, hp1, hp2, hp3a, ?_, ?_⟩
  · rw [hrv1, hrve]
  · have h5 : rv.2 = fR2 right_index[p] := by rw [← hrv2]
    rw [← hrve, ← hrv1]
    rw [h5] at hcmp2
    exact hcmp2

theorem lt_scan_core (L R : Series) (strict : Bool)
    (fL2 fR2 : Nat → Val) (op2 : String) (l r : Nat)
    (scanned : List (Nat × List Nat))
    (hscan : scanned =
      (((((ltWork L R strict).map fun t => t.1).zip
          (((ltWork L R strict).map fun t => t.1).map fL2)).zip
          (((ltWork L R strict).map fun t => t.2.2).zip
            ((ltWork L R strict).map fun _ =>
              ((sort_values (dropna R)).map Prod.snd).length))).map
        (fun (t : (Nat × Val) × Nat × Nat) =>
          (t.1.1, ((((((sort_values (dropna R)).map Prod.fst).zip
              (((sort_values (dropna R)).map Prod.fst).map fR2)).drop t.2.1).take
              (t.2.2 - t.2.1)).filter fun (rv : Nat × Val) =>
            elemCmp op2 t.1.2 rv.2).map Prod.fst))).filter
        fun (pr : Nat × List Nat) => !pr.2.isEmpty)
    (hm : (l, r) ∈ ((scanned.map fun pr => List.replicate pr.2.length pr.1).flatten).zip
      ((scanned.map fun pr => pr.2).flatten)) :
    (∃ v w, (l, some v) ∈ L ∧ (r, some w) ∈ R ∧
      (if strict then v < w else v ≤ w)) ∧
    elemCmp op2 (fL2 l) (fR2 r) = true := by
  have hs := sort_values_snd_sorted (dropna R)
  rcases scan_pairs_mem (ltWork L R strict) ((sort_values (dropna R)).map Prod.fst)
    fL2 fR2 op2 (fun t => t.2.2)
    (fun _ => ((sort_values (dropna R)).map Prod.snd).length) scanned hscan l r hm
    with ⟨t, ht, htl, p, hp1, hp2, hp3, hpr, hcmp⟩
  have ht2 : (t.1, t.2.1, t.2.2) ∈ ltWork L R strict := ht
  rcases (mem_ltWork_iff L R strict t.1 t.2.1 t.2.2).mp ht2 with ⟨hmemL, hseq, hslt⟩
  have hplen : p < ((sort_values (dropna R)).map Prod.snd).length := by
    simpa using hp3
  have hrD : ((sort_values (dropna R)).map Prod.fst).getD p 0 = r := by
    rw [List.getD_eq_getElem _ _ hp3]
    exact hpr
  have hRmem := rs_index R p hplen
  rw [hrD] at hRmem
  subst htl
  constructor
  · refine ⟨t.2.1, ((sort_values (dropna R)).map Prod.snd).getD p 0,
      (mem_dropna L t.1 t.2.1).mp hmemL, hRmem, ?_⟩
    rw [hseq] at hp1
    cases strict with
    | false =>
      simp only [Bool.false_eq_true, if_false] at hp1 ⊢
      have hnot : ¬ (((sort_values (dropna R)).map Prod.snd).getD p 0 < t.2.1) := by
        rw [sorted_countP_lt _ hs t.2.1 p hplen]
        unfold searchsorted_left at hp1
        omega
      omega
    | true =>
      simp only [if_true] at hp1 ⊢
      have hnot : ¬ (((sort_values (dropna R)).map Prod.snd).getD p 0 ≤ t.2.1) := by
        rw [sorted_countP_le _ hs t.2.1 p hplen]
        unfold searchsorted_right at hp1
        omega
      omega
  · exact hcmp

theorem gt_scan_core (L R : Series) (strict : Bool)
    (fL2 fR2 : Nat → Val) (op2 : String) (l r : Nat)
    (scanned : List (Nat × List Nat))
    (hscan : scanned =
      (((((gtWork L R strict).map fun t => t.1).zip
          (((gtWork L R strict).map fun t => t.1).map fL2)).zip
          (((gtWork L R strict).map fun _ => 0).zip
            ((gtWork L R strict).map fun t => t.2.2))).map
        (fun (t : (Nat × Val) × Nat × Nat) =>
          (t.1.1, ((((((sort_values (dropna R)).map Prod.fst).zip
              (((sort_values (dropna R)).map Prod.fst).map fR2)).drop t.2.1).take
              (t.2.2 - t.2.1)).filter fun (rv : Nat × Val) =>
            elemCmp op2 t.1.2 rv.2).map Prod.fst))).filter
        fun (pr : Nat × List Nat) => !pr.2.isEmpty)
    (hm : (l, r) ∈ ((scanned.map fun pr => List.replicate pr.2.length pr.1).flatten).zip
      ((scanned.map fun pr => pr.2).flatten)) :
    (∃ v w, (l, some v) ∈ L ∧ (r, some w) ∈ R ∧
      (if strict then w < v else w ≤ v)) ∧
    elemCmp op2 (fL2 l) (fR2 r) = true := by
  have hs := sort_values_snd_sorted (dropna R)
  rcases scan_pairs_mem (gtWork L R strict) ((sort_values (dropna R)).map Prod.fst)
    fL2 fR2 op2 (fun _ => 0) (fun t => t.2.2) scanned hscan l r hm
    with ⟨t, ht, htl, p, hp1, hp2, hp3, hpr, hcmp⟩
  have ht2 : (t.1, t.2.1, t.2.2) ∈ gtWork L R strict := ht
  rcases (mem_gtWork_iff L R strict t.1 t.2.1 t.2.2).mp ht2 with ⟨hmemL, hseq, hspos⟩
  have hplen : p < ((sort_values (dropna R)).map Prod.snd).length := by
    simpa using hp3
  have hrD : ((sort_values (dropna R)).map Prod.fst).getD p 0 = r := by
    rw [List.getD_eq_getElem _ _ hp3]
    exact hpr
  have hRmem := rs_index R p hplen
  rw [hrD] at hRmem
  subst htl
  constructor
  · refine ⟨t.2.1, ((sort_values (dropna R)).map Prod.snd).getD p 0,
      (mem_dropna L t.1 t.2.1).mp hmemL, hRmem, ?_⟩
    rw [hseq] at hp2
    simp only [Nat.zero_add, Nat.sub_zero] at hp2
    cases strict with
    | false =>
      simp only [Bool.false_eq_true, if_false] at hp2 ⊢
      have hx := (sorted_countP_le _ hs t.2.1 p hplen).mpr
        (by unfold searchsorted_right at hp2; omega)
      exact hx
    | true =>
      simp only [if_true] at hp2 ⊢
      have hx := (sorted_countP_lt _ hs t.2.1 p hplen).mpr
        (by unfold searchsorted_left at hp2; omega)
      exact hx
  · exact hcmp

theorem generic_bounds_op (L R : Series) (op : String) (a b c d : List Nat)
    (hg : _generic_func_cond_join L R op 2 = some (.bounds a b c d)) :
    (op == "<" || op == "<=") = true ∨ (op == ">" || op == ">=") = true := by
  by_cases h1 : (op == "<" || op == "<=") = true
  · exact Or.inl h1
  by_cases h2 : (op == ">" || op == ">=") = true
  · exact Or.inr h2
  exfalso
  unfold _generic_func_cond_join at hg
  dsimp only at hg
  rw [if_neg h1, if_neg h2] at hg
  by_cases h3 : (op == "!=") = true
  · rw [if_pos h3] at hg
    unfold _not_equal_indices at hg
    dsimp only at hg
    split at hg
    · cases hg
    · injection hg with h4
      cases h4
  · rw [if_neg h3] at hg
    cases he : _equal_indices (L.map fun p => (p.1, [p.2]))
        (R.map fun p => (p.1, [p.2])) 2 with
    | none =>
      simp only [he] at hg
      cases hg
    | some pr =>
      obtain ⟨x, y⟩ := pr
      simp only [he] at hg
      injection hg with h4
      cases h4

theorem map_const_replicate {α β : Type} (l : List α) (b : β) :
    l.map (fun _ => b) = List.replicate l.length b := by
  induction l with
  | nil => rfl
  | cons x xs ih => simp only [List.map_cons, List.length_cons,
      List.replicate_succ, ih]

theorem tail_branches_mem (scanned : List (Nat × List Nat)) (rest2 : List Cond)
    (df rt : Frame) (li ri : List Nat) (l r : Nat)
    (hd : (if scanned.isEmpty = true then none
        else if rest2.isEmpty = true then
          some ((scanned.map fun pr => List.replicate pr.2.length pr.1).flatten,
                (scanned.map fun pr => pr.2).flatten)
        else
          if ((((scanned.map fun pr => List.replicate pr.2.length pr.1).flatten).zip
              ((scanned.map fun pr => pr.2).flatten)).filter fun (pr : Nat × Nat) =>
                rest2.all fun (c : Cond) =>
                  elemCmp c.op ((df.col c.left_on).getD pr.1 none)
                    ((rt.col c.right_on).getD pr.2 none)).isEmpty = true then none
          else some (((((scanned.map fun pr =>
                List.replicate pr.2.length pr.1).flatten).zip
              ((scanned.map fun pr => pr.2).flatten)).filter fun (pr : Nat × Nat) =>
                rest2.all fun (c : Cond) =>
                  elemCmp c.op ((df.col c.left_on).getD pr.1 none)
                    ((rt.col c.right_on).getD pr.2 none)).map Prod.fst,
            ((((scanned.map fun pr => List.replicate pr.2.length pr.1).flatten).zip
              ((scanned.map fun pr => pr.2).flatten)).filter fun (pr : Nat × Nat) =>
                rest2.all fun (c : Cond) =>
                  elemCmp c.op ((df.col c.left_on).getD pr.1 none)
                    ((rt.col c.right_on).getD pr.2 none)).map Prod.snd)) =
      some (li, ri))
    (hm : (l, r) ∈ li.zip ri) :
    ((l, r) ∈ ((scanned.map fun pr => List.replicate pr.2.length pr.1).flatten).zip
      ((scanned.map fun pr => pr.2).flatten)) ∧
    (∀ c ∈ rest2, elemCmp c.op ((df.col c.left_on).getD l none)
      ((rt.col c.right_on).getD r none) = true) := by
  split at hd
  · cases hd
  · split at hd
    · rename_i hrE
      injection hd with hres
      have hli : li = (scanned.map fun pr => List.replicate pr.2.length pr.1).flatten :=
        (congrArg Prod.fst hres).symm
      have hri : ri = (scanned.map fun pr => pr.2).flatten :=
        (congrArg Prod.snd hres).symm
      subst hli
      subst hri
      refine ⟨hm, ?_⟩
      intro c hc
      rw [List.isEmpty_iff.mp hrE] at hc
      cases hc
    · split at hd
      · cases hd
      · injection hd with hres
        have hli : li = _ := (congrArg Prod.fst hres).symm
        have hri : ri = _ := (congrArg Prod.snd hres).symm
        rw [hli, hri, List.zip_map'] at hm
        have hid := List.map_id' ((((scanned.map fun pr =>
            List.replicate pr.2.length pr.1).flatten).zip
            ((scanned.map fun pr => pr.2).flatten)).filter fun (pr : Nat × Nat) =>
              rest2.all fun (c : Cond) =>
                elemCmp c.op ((df.col c.left_on).getD pr.1 none)
                  ((rt.col c.right_on).getD pr.2 none))
        rw [hid] at hm
        rcases List.mem_filter.mp hm with ⟨hmz, hmask⟩
        refine ⟨hmz, ?_⟩
        intro c hc
        have := List.all_eq_true.mp hmask c hc
        simpa using this


theorem le_lt_combine_sound (df rt : Frame) (conds : List Cond) (li ri : List Nat)
    (hd : _multiple_conditional_join_le_lt df rt conds = some (li, ri))
    (l r : Nat) (hm : (l, r) ∈ li.zip ri) :
    ∀ c ∈ conds, elemCmp c.op ((df.col c.left_on).getD l none)
      ((rt.col c.right_on).getD r none) = true := by
  unfold _multiple_conditional_join_le_lt at hd
  dsimp only at hd
  cases hf : conds.foldl (narrowStep df rt)
      (some (List.range df.rows.length, List.range rt.rows.length)) with
  | none =>
    simp only [hf] at hd
    cases hd
  | some dfr =>
    obtain ⟨dfi0, rix0⟩ := dfr
    simp only [hf] at hd
    split at hd
    · cases hd
    · rename_i first rest1 heq2
      have hsub : ∀ c ∈ conds, c ∈ first :: rest1 := by
        intro c hc
        split at heq2
        · cases heq2
        · rename_i c0 tl
          split at heq2
          · injection heq2 with q1 q2
            subst q1
            subst q2
            exact hc
          · split at heq2
            · injection heq2 with q1 q2
              subst q1
              subst q2
              exact hc
            · rename_i lt_gt hlast
              injection heq2 with q1 q2
              subst q1
              subst q2
              by_cases hceq : c = lt_gt
              · rw [hceq]
                exact List.mem_cons_self _ _
              · exact List.mem_cons_of_mem _ ((List.mem_erase_of_ne hceq).mpr hc)
      suffices hs2 : ∀ c ∈ first :: rest1, elemCmp c.op
          ((df.col c.left_on).getD l none)
          ((rt.col c.right_on).getD r none) = true by
        intro c hc
        exact hs2 c (hsub c hc)
      clear heq2 hsub hf
      cases hg : _generic_func_cond_join (df.locS dfi0 first.left_on)
          (rt.locS rix0 first.right_on) first.op 2 with
      | none =>
        simp only [hg] at hd
        cases hd
      | some res =>
        cases res with
        | pairs a b =>
          simp only [hg] at hd
          cases hd
        | bounds dfi rix sis ixs =>
          simp only [hg] at hd
          cases rest1 with
          | nil => cases hd
          | cons second rest2 =>
            rcases generic_bounds_op _ _ _ _ _ _ _ hg with hfam | hfam
            · have hfam2 : first.op = "<" ∨ first.op = "<=" := by simpa using hfam
              rcases hfam2 with hopeq | hopeq
              · rw [hopeq] at hg hd
                have hg2 : _less_than_indices (df.locS dfi0 first.left_on)
                    (rt.locS rix0 first.right_on) true 2 =
                    some (MatchResult.bounds dfi rix sis ixs) := hg
                rw [lt_indices_eq] at hg2
                split at hg2
                · cases hg2
                · rw [if_pos (by omega)] at hg2
                  injection hg2 with hmr
                  injection hmr with e1 e2 e3 e4
                  rw [← e1, ← e2, ← e3, ← e4] at hd
                  rw [if_pos (show (less_than_join_types.contains "<") = true
                    from rfl)] at hd
                  rw [show List.replicate (((ltWork (df.locS dfi0 first.left_on)
                        (rt.locS rix0 first.right_on) true).map fun t => t.2.2)).length
                      ((sort_values (dropna (rt.locS rix0 first.right_on))).map
                        Prod.snd).length =
                      (ltWork (df.locS dfi0 first.left_on)
                        (rt.locS rix0 first.right_on) true).map (fun _ =>
                        ((sort_values (dropna (rt.locS rix0 first.right_on))).map
                          Prod.snd).length) from by
                    rw [List.length_map]
                    exact (map_const_replicate _ _).symm] at hd
                  dsimp only at hd
                  rcases tail_branches_mem _ rest2 df rt li ri l r hd hm with ⟨hmz, hrest⟩
                  rcases lt_scan_core (df.locS dfi0 first.left_on)
                      (rt.locS rix0 first.right_on) true
                      (fun l => (df.col second.left_on).getD l none)
                      (fun r => (rt.col second.right_on).getD r none)
                      second.op l r _ rfl hmz with ⟨⟨v, w, hvL, hwR, hrel⟩, hsecond⟩
                  intro c hc
                  rcases List.mem_cons.mp hc with rfl | hc1
                  · rw [hopeq, ((mem_locS df dfi0 c.left_on l (some v)).mp hvL).2,
                      ((mem_locS rt rix0 c.right_on r (some w)).mp hwR).2]
                    simp only [if_true] at hrel
                    simp [elemCmp]
                    omega
                  · rcases List.mem_cons.mp hc1 with rfl | hc2
                    · exact hsecond
                    · exact hrest c hc2

              · rw [hopeq] at hg hd
                have hg2 : _less_than_indices (df.locS dfi0 first.left_on)
                    (rt.locS rix0 first.right_on) false 2 =
                    some (MatchResult.bounds dfi rix sis ixs) := hg
                rw [lt_indices_eq] at hg2
                split at hg2
                · cases hg2
                · rw [if_pos (by omega)] at hg2
                  injection hg2 with hmr
                  injection hmr with e1 e2 e3 e4
                  rw [← e1, ← e2, ← e3, ← e4] at hd
                  rw [if_pos (show (less_than_join_types.contains "<=") = true
                    from rfl)] at hd
                  rw [show List.replicate (((ltWork (df.locS dfi0 first.left_on)
                        (rt.locS rix0 first.right_on) false).map fun t => t.2.2)).length
                      ((sort_values (dropna (rt.locS rix0 first.right_on))).map
                        Prod.snd).length =
                      (ltWork (df.locS dfi0 first.left_on)
                        (rt.locS rix0 first.right_on) false).map (fun _ =>
                        ((sort_values (dropna (rt.locS rix0 first.right_on))).map
                          Prod.snd).length) from by
                    rw [List.length_map]
                    exact (map_const_replicate _ _).symm] at hd
                  dsimp only at hd
                  rcases tail_branches_mem _ rest2 df rt li ri l r hd hm with ⟨hmz, hrest⟩
                  rcases lt_scan_core (df.locS dfi0 first.left_on)
                      (rt.locS rix0 first.right_on) false
                      (fun l => (df.col second.left_on).getD l none)
                      (fun r => (rt.col second.right_on).getD r none)
                      second.op l r _ rfl hmz with ⟨⟨v, w, hvL, hwR, hrel⟩, hsecond⟩
                  intro c hc
                  rcases List.mem_cons.mp hc with rfl | hc1
                  · rw [hopeq, ((mem_locS df dfi0 c.left_on l (some v)).mp hvL).2,
                      ((mem_locS rt rix0 c.right_on r (some w)).mp hwR).2]
                    simp only [Bool.false_eq_true, if_false] at hrel
                    simp [elemCmp]
                    omega
                  · rcases List.mem_cons.mp hc1 with rfl | hc2
                    · exact hsecond
                    · exact hrest c hc2

            · have hfam2 : first.op = ">" ∨ first.op = ">=" := by simpa using hfam
              rcases hfam2 with hopeq | hopeq
              · rw [hopeq] at hg hd
                have hg2 : _greater_than_indices (df.locS dfi0 first.left_on)
                    (rt.locS rix0 first.right_on) true 2 =
                    some (MatchResult.bounds dfi rix sis ixs) := hg
                rw [gt_indices_eq] at hg2
                split at hg2
                · cases hg2
                · rw [if_pos (by omega)] at hg2
                  injection hg2 with hmr
                  injection hmr with e1 e2 e3 e4
                  rw [← e1, ← e2, ← e3, ← e4] at hd
                  rw [if_neg (show ¬ (less_than_join_types.contains ">") = true
                    from by decide)] at hd
                  rw [show List.replicate (((gtWork (df.locS dfi0 first.left_on)
                        (rt.locS rix0 first.right_on) true).map fun t => t.2.2)).length 0 =
                      (gtWork (df.locS dfi0 first.left_on)
                        (rt.locS rix0 first.right_on) true).map (fun _ => (0 : Nat)) from by
                    rw [List.length_map]
                    exact (map_const_replicate _ _).symm] at hd
                  dsimp only at hd
                  rcases tail_branches_mem _ rest2 df rt li ri l r hd hm with ⟨hmz, hrest⟩
                  rcases gt_scan_core (df.locS dfi0 first.left_on)
                      (rt.locS rix0 first.right_on) true
                      (fun l => (df.col second.left_on).getD l none)
                      (fun r => (rt.col second.right_on).getD r none)
                      second.op l r _ rfl hmz with ⟨⟨v, w, hvL, hwR, hrel⟩, hsecond⟩
                  intro c hc
                  rcases List.mem_cons.mp hc with rfl | hc1
                  · rw [hopeq, ((mem_locS df dfi0 c.left_on l (some v)).mp hvL).2,
                      ((mem_locS rt rix0 c.right_on r (some w)).mp hwR).2]
                    simp only [if_true] at hrel
                    simp [elemCmp]
                    omega
                  · rcases List.mem_cons.mp hc1 with rfl | hc2
                    · exact hsecond
                    · exact hrest c hc2

              · rw [hopeq] at hg hd
                have hg2 : _greater_than_indices (df.locS dfi0 first.left_on)
                    (rt.locS rix0 first.right_on) false 2 =
                    some (MatchResult.bounds dfi rix sis ixs) := hg
                rw [gt_indices_eq] at hg2
                split at hg2
                · cases hg2
                · rw [if_pos (by omega)] at hg2
                  injection hg2 with hmr
                  injection hmr with e1 e2 e3 e4
                  rw [← e1, ← e2, ← e3, ← e4] at hd
                  rw [if_neg (show ¬ (less_than_join_types.contains ">=") = true
                    from by decide)] at hd
                  rw [show List.replicate (((gtWork (df.locS dfi0 first.left_on)
                        (rt.locS rix0 first.right_on) false).map fun t => t.2.2)).length 0 =
                      (gtWork (df.locS dfi0 first.left_on)
                        (rt.locS rix0 first.right_on) false).map (fun _ => (0 : Nat)) from by
                    rw [List.length_map]
                    exact (map_const_replicate _ _).symm] at hd
                  dsimp only at hd
                  rcases tail_branches_mem _ rest2 df rt li ri l r hd hm with ⟨hmz, hrest⟩
                  rcases gt_scan_core (df.locS dfi0 first.left_on)
                      (rt.locS rix0 first.right_on) false
                      (fun l => (df.col second.left_on).getD l none)
                      (fun r => (rt.col second.right_on).getD r none)
                      second.op l r _ rfl hmz with ⟨⟨v, w, hvL, hwR, hrel⟩, hsecond⟩
                  intro c hc
                  rcases List.mem_cons.mp hc with rfl | hc1
                  · rw [hopeq, ((mem_locS df dfi0 c.left_on l (some v)).mp hvL).2,
                      ((mem_locS rt rix0 c.right_on r (some w)).mp hwR).2]
                    simp only [Bool.false_eq_true, if_false] at hrel
                    simp [elemCmp]
                    omega
                  · rcases List.mem_cons.mp hc1 with rfl | hc2
                    · exact hsecond
                    · exact hrest c hc2


theorem dispatch_sound (df rt : Frame) (conds : List Cond) (li ri : List Nat)
    (hops : ∀ c ∈ conds, c.op ∈ [">", "<", ">=", "<=", "==", "!="])
    (hd : computeDispatch df rt conds = some (li, ri))
    (l r : Nat) (hm : (l, r) ∈ li.zip ri) :
    ∀ c ∈ conds, elemCmp c.op ((df.col c.left_on).getD l none)
      ((rt.col c.right_on).getD r none) = true := by
  cases conds with
  | nil =>
    have hnone : computeDispatch df rt [] = none := rfl
    rw [hnone] at hd
    cases hd
  | cons c1 tl =>
    cases tl with
    | nil =>
      intro c hc
      rcases List.mem_cons.mp hc with rfl | h0
      · exact generic_single_sound df rt c (hops c hc) li ri hd l r hm
      · cases h0
    | cons c2 tl2 =>
      have hd2 : (if (c1 :: c2 :: tl2).any (fun c => c.op == "==") then
          _multiple_conditional_join_eq df rt (c1 :: c2 :: tl2)
        else if (c1 :: c2 :: tl2).any (fun c =>
            less_than_join_types.contains c.op ||
            greater_than_join_types.contains c.op) then
          _multiple_conditional_join_le_lt df rt (c1 :: c2 :: tl2)
        else _multiple_conditional_join_ne df rt (c1 :: c2 :: tl2)) =
          some (li, ri) := hd
      by_cases he : ((c1 :: c2 :: tl2).any fun c => c.op == "==") = true
      · rw [if_pos he] at hd2
        exact eq_combine_sound df rt _ li ri hd2 l r hm
      · rw [if_neg he] at hd2
        by_cases hl : ((c1 :: c2 :: tl2).any fun c =>
            less_than_join_types.contains c.op ||
            greater_than_join_types.contains c.op) = true
        · rw [if_pos hl] at hd2
          exact le_lt_combine_sound df rt _ li ri hd2 l r hm
        · rw [if_neg hl] at hd2
          have hall : ∀ c ∈ c1 :: c2 :: tl2, c.op = "!=" := by
            intro c hc
            have h1 := hops c hc
            have h2 : ¬ (c.op == "==") = true := by
              intro hcon
              exact he (List.any_eq_true.mpr ⟨c, hc, hcon⟩)
            have h3 : ¬ (less_than_join_types.contains c.op ||
                greater_than_join_types.contains c.op) = true := by
              intro hcon
              exact hl (List.any_eq_true.mpr ⟨c, hc, hcon⟩)
            obtain ⟨clo, cro, cop⟩ := c
            simp only at h1 h2 h3 ⊢
            fin_cases h1 <;>
              simp_all [less_than_join_types, greater_than_join_types]
          exact ne_combine_sound df rt _ li ri hall hd2 l r hm

/-- C1: soundness of the inner join — for every valid call with
`how='inner'`, every matched row pair (l, r) of the result satisfies every
supplied condition: the condition's operator, evaluated elementwise on the
original left column cell at row l and the original right column cell at
row r, yields True. -/
theorem c1_inner_soundness (df : Frame) (right : RightObj) (conds : List RawCond)
    (sb : Bool) (J : JoinedFrame)
    (h : conditional_join df right conds "inner" sb = Except.ok J)
    (l r : Nat) (hlr : (l, r) ∈ matchedPairs J) :
    ∀ c ∈ conds.map parseCond,
      elemCmp c.op ((df.col c.left_on).getD l none)
        ((right.toFrame.col c.right_on).getD r none) = true := by
  have h' : _conditional_join_compute df right conds "inner" sb = Except.ok J := h
  have hc := compute_ok_inv df right conds "inner" sb J h'
  have hp := prelim_ok_inv df right conds "inner" _ hc.1
  have hcolinv := checkCols_ok_inv df right.toFrame conds hp.2.2.2.2.2.2.2.2.1
  have hops : ∀ c ∈ conds.map parseCond,
      c.op ∈ [">", "<", ">=", "<=", "==", "!="] := by
    intro c hcm
    rcases List.mem_map.mp hcm with ⟨rc, hrc, rfl⟩
    have h2 := (hcolinv rc hrc).2.2
    have h3 : rc.getD 2 "" ∈ [">", "<", ">=", "<=", "==", "!="] := by
      simpa using h2
    exact h3
  rcases compute_ok_cases df right conds "inner" sb J h' with ⟨-, hJ⟩ |
    ⟨li, ri, hdd, hJ⟩
  · rw [hJ] at hlr
    rw [empty_frame_matchedPairs] at hlr
    cases hlr
  · rw [hJ] at hlr
    have hzip := create_frame_rows_sub df right.toFrame li ri "inner" sb l r
      ((mem_matchedPairs _ l r).mp hlr)
    exact dispatch_sound df right.toFrame _ li ri hops hdd l r hzip

theorem c1_inner_soundness_witness :
    elemCmp (parseCond ["val", "val", "<"]).op
      ((exDf.col (parseCond ["val", "val", "<"]).left_on).getD 0 none)
      (((RightObj.frame exRt).toFrame.col
        (parseCond ["val", "val", "<"]).right_on).getD 0 none) = true :=
  c1_inner_soundness exDf (RightObj.frame exRt) [["val", "val", "<"]] false
    (JoinedFrame.mk ["val"] [DType.int] ["val"] [DType.int] [(some 0, some 0)])
    (by rfl) 0 0 (by decide) (parseCond ["val", "val", "<"]) (by decide)

theorem elemCmp_true_nonnull (op : String) (a b : Val) (hop : op ≠ "!=")
    (h : elemCmp op a b = true) : a ≠ none ∧ b ≠ none := by
  unfold elemCmp at h
  by_cases h1 : (op == "==") = true
  · rw [if_pos h1] at h
    unfold elemEq at h
    cases a <;> cases b <;> simp_all
  · rw [if_neg h1] at h
    rw [if_neg (by simpa using hop)] at h
    cases a <;> cases b <;> simp_all

theorem generic_single_ne_nonnull (df rt : Frame) (c : Cond)
    (hop : c.op = "!=") (li ri : List Nat)
    (hd : computeDispatch df rt [c] = some (li, ri))
    (l r : Nat) (hm : (l, r) ∈ li.zip ri) :
    (df.col c.left_on).getD l none ≠ none ∧
    (rt.col c.right_on).getD r none ≠ none := by
  obtain ⟨lo, ro, op⟩ := c
  simp only at hop ⊢
  subst hop
  have hd3 : (match _not_equal_indices (df.colS lo) (rt.colS ro) with
      | none => none
      | some res => some (pairsOf (some res))) = some (li, ri) := hd
  cases hg : _not_equal_indices (df.colS lo) (rt.colS ro) with
  | none =>
    rw [hg] at hd3
    cases hd3
  | some res =>
    rw [hg] at hd3
    injection hd3 with hres
    have h4 : (l, r) ∈ pairList (pairsOf (_not_equal_indices
        (df.colS lo) (rt.colS ro))) := by
      unfold pairList
      rw [hg, hres]
      exact hm
    rcases ne_pairs_mem _ _ l r h4 with ⟨v, w, hvL, hwR, -⟩
    rw [((mem_colS df lo l (some v)).mp hvL).2,
      ((mem_colS rt ro r (some w)).mp hwR).2]
    simp

/-- C3 counterexample: a valid two-condition call over a left table whose
column `b` is null in row 0 returns the pair (0, 0) under the conditions
(a != x) and (b != y) — the `!=` mask treats NaN != 5 as True — refuting
the claim that no returned pair has a null value in a condition's column. -/
theorem c3_null_exclusion_counterexample :
    conditional_join exDfNull (RightObj.frame exRtNull)
      [["a", "x", "!="], ["b", "y", "!="]] "inner" false =
      Except.ok (JoinedFrame.mk ["a", "b"] [DType.float, DType.float]
        ["x", "y"] [DType.float, DType.float] [(some 0, some 0)]) ∧
    (0, 0) ∈ matchedPairs (JoinedFrame.mk ["a", "b"]
      [DType.float, DType.float] ["x", "y"] [DType.float, DType.float]
      [(some 0, some 0)]) ∧
    (exDfNull.col "b").getD 0 none = none :=
  ⟨by rfl, by decide, by decide⟩

/-- C3 amended: for every valid call, a matched pair never has a null cell
in the columns of a condition whose operator is not `!=`, and a single
(sole) `!=` condition also never matches null cells — its matcher drops
nulls on both sides.  (When a `!=` condition is combined with other
conditions it is applied as an elementwise mask, for which NaN != x is
True, so nulls can then be matched — the counterexample.) -/
theorem c3_null_exclusion_amended (df : Frame) (right : RightObj)
    (conds : List RawCond) (how : String) (sb : Bool) (J : JoinedFrame)
    (h : conditional_join df right conds how sb = Except.ok J)
    (l r : Nat) (hlr : (l, r) ∈ matchedPairs J) :
    (∀ c ∈ conds.map parseCond, c.op ≠ "!=" →
      (df.col c.left_on).getD l none ≠ none ∧
      (right.toFrame.col c.right_on).getD r none ≠ none) ∧
    (∀ rc, conds = [rc] →
      (df.col (parseCond rc).left_on).getD l none ≠ none ∧
      (right.toFrame.col (parseCond rc).right_on).getD r none ≠ none) := by
  have h' : _conditional_join_compute df right conds how sb = Except.ok J := h
  have hc := compute_ok_inv df right conds how sb J h'
  have hp := prelim_ok_inv df right conds how _ hc.1
  have hcolinv := checkCols_ok_inv df right.toFrame conds hp.2.2.2.2.2.2.2.2.1
  have hops : ∀ c ∈ conds.map parseCond,
      c.op ∈ [">", "<", ">=", "<=", "==", "!="] := by
    intro c hcm
    rcases List.mem_map.mp hcm with ⟨rc, hrc, rfl⟩
    have h2 := (hcolinv rc hrc).2.2
    have h3 : rc.getD 2 "" ∈ [">", "<", ">=", "<=", "==", "!="] := by
      simpa using h2
    exact h3
  rcases compute_ok_cases df right conds how sb J h' with ⟨-, hJ⟩ |
    ⟨li, ri, hdd, hJ⟩
  · rw [hJ] at hlr
    rw [empty_frame_matchedPairs] at hlr
    cases hlr
  · rw [hJ] at hlr
    have hzip := create_frame_rows_sub df right.toFrame li ri how sb l r
      ((mem_matchedPairs _ l r).mp hlr)
    have hsound := dispatch_sound df right.toFrame _ li ri hops hdd l r hzip
    constructor
    · intro c hcm hcne
      exact elemCmp_true_nonnull c.op _ _ hcne (hsound c hcm)
    · intro rc hrc
      subst hrc
      by_cases hcne : (parseCond rc).op = "!="
      · exact generic_single_ne_nonnull df right.toFrame (parseCond rc) hcne
          li ri hdd l r hzip
      · exact elemCmp_true_nonnull _ _ _ hcne
          (hsound (parseCond rc) (by simp))

theorem c3_null_exclusion_amended_witness :
    (∀ c ∈ [["val", "val", "<"]].map parseCond, c.op ≠ "!=" →
      (exDf.col c.left_on).getD 0 none ≠ none ∧
      ((RightObj.frame exRt).toFrame.col c.right_on).getD 0 none ≠ none) ∧
    (∀ rc, [["val", "val", "<"]] = [rc] →
      (exDf.col (parseCond rc).left_on).getD 0 none ≠ none ∧
      ((RightObj.frame exRt).toFrame.col (parseCond rc).right_on).getD 0 none ≠
        none) :=
  c3_null_exclusion_amended exDf (RightObj.frame exRt) [["val", "val", "<"]]
    "inner" false (JoinedFrame.mk ["val"] [DType.int] ["val"] [DType.int]
      [(some 0, some 0)]) (by rfl) 0 0 (by decide)

theorem filterMap_somes (ps : List (Nat × Nat)) :
    (ps.map fun p => ((some p.1 : Option Nat), (some p.2 : Option Nat))).filterMap
      (fun pr => match pr with
        | (some l, some r) => some (l, r)
        | _ => none) = ps := by
  induction ps with
  | nil => rfl
  | cons p t ih => simp [ih]

theorem create_inner_rows (df rt : Frame) (li ri : List Nat) (sb : Bool) :
    (_create_conditional_join_frame df rt li ri "inner" sb).rows =
      ((if sb then (li.zip ri).insertionSort pairLe else li.zip ri).map
        fun p => (some p.1, some p.2)) := rfl

theorem matchedPairs_create_inner (df rt : Frame) (li ri : List Nat) (sb : Bool) :
    matchedPairs (_create_conditional_join_frame df rt li ri "inner" sb) =
      (if sb then (li.zip ri).insertionSort pairLe else li.zip ri) := by
  unfold matchedPairs
  rw [create_inner_rows]
  exact filterMap_somes _

/-- C5 counterexample: a valid right join with sort_by_appearance=True
returns the matched pairs in order [(1, 0), (0, 1)] — grouped by right
position, not sorted by (left_position, right_position): the first pair has
left position 1 and the second left position 0, violating the claimed
ascending lexicographic order. -/
theorem c5_row_order_counterexample :
    conditional_join exDfTwo (RightObj.frame exRtTwo) [["a", "b", "!="]]
      "right" true =
      Except.ok (JoinedFrame.mk ["a"] [DType.int] ["b"] [DType.int]
        [(some 1, some 0), (some 0, some 1)]) ∧
    matchedPairs (JoinedFrame.mk ["a"] [DType.int] ["b"] [DType.int]
      [(some 1, some 0), (some 0, some 1)]) = [(1, 0), (0, 1)] ∧
    ¬ pairLe (1, 0) (0, 1) :=
  ⟨by rfl, by rfl, by decide⟩

/-- C5 amended: for `how='inner'`, sort_by_appearance=True yields matched
pairs in ascending (left_position, right_position) lexicographic order and
the rows are exactly those pairs; sort_by_appearance=False yields the same
multiset of rows with no order guarantee.  (For outer joins the rows are
grouped by the probed side's frame order instead — see the
counterexample.) -/
theorem c5_row_order_amended (df : Frame) (right : RightObj)
    (conds : List RawCond) (J1 J2 : JoinedFrame)
    (h1 : conditional_join df right conds "inner" true = Except.ok J1)
    (h2 : conditional_join df right conds "inner" false = Except.ok J2) :
    List.Sorted pairLe (matchedPairs J1) ∧
    J1.rows = (matchedPairs J1).map (fun p => (some p.1, some p.2)) ∧
    J2.rows = (matchedPairs J2).map (fun p => (some p.1, some p.2)) ∧
    (matchedPairs J2).Perm (matchedPairs J1) ∧ J2.rows.Perm J1.rows := by
  have h1' : _conditional_join_compute df right conds "inner" true =
    Except.ok J1 := h1
  have h2' : _conditional_join_compute df right conds "inner" false =
    Except.ok J2 := h2
  rcases compute_ok_cases df right conds "inner" true J1 h1' with ⟨hn1, hJ1⟩ |
    ⟨li, ri, hd1, hJ1⟩
  · rcases compute_ok_cases df right conds "inner" false J2 h2' with ⟨-, hJ2⟩ |
      ⟨li, ri, hd2, hJ2⟩
    · subst hJ1
      subst hJ2
      rw [empty_frame_inner]
      refine ⟨?_, ?_, ?_, ?_, ?_⟩ <;> simp [matchedPairs]
    · rw [hn1] at hd2
      cases hd2
  · rcases compute_ok_cases df right conds "inner" false J2 h2' with ⟨hn2, hJ2⟩ |
      ⟨li2, ri2, hd2, hJ2⟩
    · rw [hn2] at hd1
      cases hd1
    · rw [hd1] at hd2
      injection hd2 with hd3
      obtain ⟨hli, hri⟩ := Prod.mk.injEq .. ▸ hd3
      subst hli
      subst hri
      subst hJ1
      subst hJ2
      rw [matchedPairs_create_inner, matchedPairs_create_inner,
        create_inner_rows, create_inner_rows, if_pos rfl]
      have hperm : (li.zip ri).Perm ((li.zip ri).insertionSort pairLe) :=
        (List.perm_insertionSort pairLe (li.zip ri)).symm
      refine ⟨?_, ?_, ?_, ?_, ?_⟩
      · exact List.sorted_insertionSort pairLe (li.zip ri)
      · rfl
      · simp only [Bool.false_eq_true, if_false]
      · simp only [Bool.false_eq_true, if_false]
        exact hperm
      · simp only [Bool.false_eq_true, if_false]
        exact hperm.map _

theorem c5_row_order_amended_witness :
    List.Sorted pairLe (matchedPairs (JoinedFrame.mk ["a"] [DType.int]
      ["b"] [DType.int] [(some 0, some 1), (some 1, some 0)])) ∧
    (JoinedFrame.mk ["a"] [DType.int] ["b"] [DType.int]
      [(some 0, some 1), (some 1, some 0)]).rows =
      (matchedPairs (JoinedFrame.mk ["a"] [DType.int] ["b"] [DType.int]
        [(some 0, some 1), (some 1, some 0)])).map
        (fun p => (some p.1, some p.2)) ∧
    (JoinedFrame.mk ["a"] [DType.int] ["b"] [DType.int]
      [(some 0, some 1), (some 1, some 0)]).rows =
      (matchedPairs (JoinedFrame.mk ["a"] [DType.int] ["b"] [DType.int]
        [(some 0, some 1), (some 1, some 0)])).map
        (fun p => (some p.1, some p.2)) ∧
    (matchedPairs (JoinedFrame.mk ["a"] [DType.int] ["b"] [DType.int]
      [(some 0, some 1), (some 1, some 0)])).Perm
      (matchedPairs (JoinedFrame.mk ["a"] [DType.int] ["b"] [DType.int]
        [(some 0, some 1), (some 1, some 0)])) ∧
    (JoinedFrame.mk ["a"] [DType.int] ["b"] [DType.int]
      [(some 0, some 1), (some 1, some 0)]).rows.Perm
      (JoinedFrame.mk ["a"] [DType.int] ["b"] [DType.int]
        [(some 0, some 1), (some 1, some 0)]).rows :=
  c5_row_order_amended exDfTwo (RightObj.frame exRtTwo) [["a", "b", "!="]]
    (JoinedFrame.mk ["a"] [DType.int] ["b"] [DType.int]
      [(some 0, some 1), (some 1, some 0)])
    (JoinedFrame.mk ["a"] [DType.int] ["b"] [DType.int]
      [(some 0, some 1), (some 1, some 0)])
    (by rfl) (by rfl)

/-! ## Completeness and uniqueness infrastructure -/

theorem elemCmp_of_opRel (op : String) (v w : Int)
    (hop : op ∈ [">", "<", ">=", "<=", "==", "!="]) (h : opRel op v w) :
    elemCmp op (some v) (some w) = true := by
  fin_cases hop <;> simp_all [opRel, elemCmp, elemEq]

theorem elemCmp_of_condHolds (df rt : Frame) (c : Cond) (l r : Nat)
    (hop : c.op ∈ [">", "<", ">=", "<=", "==", "!="])
    (h : condHolds df rt c l r) :
    elemCmp c.op ((df.col c.left_on).getD l none)
      ((rt.col c.right_on).getD r none) = true := by
  obtain ⟨v, w, hv, hw, hrel⟩ := h
  rw [hv, hw]
  exact elemCmp_of_opRel _ _ _ hop hrel

theorem colS_labels (f : Frame) (c : String) :
    (f.colS c).map Prod.fst = List.range f.rows.length := by
  unfold Frame.colS
  rw [List.map_fst_zip _ _ (by simp [col_length])]

theorem colS_labels_nodup (f : Frame) (c : String) : labelsNodup (f.colS c) := by
  unfold labelsNodup
  rw [colS_labels]
  exact List.nodup_range _

theorem locS_labels (f : Frame) (labels : List Nat) (c : String) :
    (f.locS labels c).map Prod.fst = labels := by
  unfold Frame.locS
  rw [List.map_map]
  have h2 : (Prod.fst ∘ fun l => (l, (f.col c).getD l none)) =
      fun (l : Nat) => l := rfl
  rw [h2]
  exact List.map_id' labels

theorem locS_labels_nodup (f : Frame) (labels : List Nat) (c : String)
    (h : labels.Nodup) : labelsNodup (f.locS labels c) := by
  unfold labelsNodup
  rw [locS_labels]
  exact h

theorem sorted_fst_nodup (R : Series) (h : labelsNodup R) :
    ((sort_values (dropna R)).map Prod.fst).Nodup := by
  have hperm := (sort_values_perm (dropna R)).map Prod.fst
  exact hperm.nodup_iff.mpr (dropna_nodup R h)

theorem filterMap_if_fst_sublist {β : Type} (g : Nat × Int → Option (Nat × β))
    (hg : ∀ p q, g p = some q → q.1 = p.1) (L : List (Nat × Int)) :
    ((L.filterMap g).map Prod.fst).Sublist (L.map Prod.fst) := by
  induction L with
  | nil => simp
  | cons p tl ih =>
    rw [List.filterMap_cons]
    cases hq : g p with
    | none =>
      simp only [List.map_cons]
      exact ih.cons p.1
    | some q =>
      simp only [List.map_cons]
      rw [hg p q hq]
      exact ih.cons₂ p.1

theorem ltWork_labels_nodup (L R : Series) (strict : Bool) (h : labelsNodup L) :
    ((ltWork L R strict).map fun t => t.1).Nodup := by
  rw [ltWork_eq]
  have hsub := filterMap_if_fst_sublist (fun p =>
    if (if strict then searchsorted_right ((sort_values (dropna R)).map Prod.snd) p.2
        else searchsorted_left ((sort_values (dropna R)).map Prod.snd) p.2) <
        ((sort_values (dropna R)).map Prod.snd).length then
      some (p.1, p.2,
        if strict then searchsorted_right ((sort_values (dropna R)).map Prod.snd) p.2
        else searchsorted_left ((sort_values (dropna R)).map Prod.snd) p.2)
    else none) ?_ (dropna L)
  · exact hsub.nodup (dropna_nodup L h)
  · intro p q hq
    simp only at hq
    split at hq <;> split at hq <;>
      first
        | (injection hq with h2
           rw [← h2])
        | cases hq

theorem gtWork_labels_nodup (L R : Series) (strict : Bool) (h : labelsNodup L) :
    ((gtWork L R strict).map fun t => t.1).Nodup := by
  rw [gtWork_eq]
  have hsub := filterMap_if_fst_sublist (fun p =>
    if 0 < (if strict then searchsorted_left ((sort_values (dropna R)).map Prod.snd) p.2
        else searchsorted_right ((sort_values (dropna R)).map Prod.snd) p.2) then
      some (p.1, p.2,
        if strict then searchsorted_left ((sort_values (dropna R)).map Prod.snd) p.2
        else searchsorted_right ((sort_values (dropna R)).map Prod.snd) p.2)
    else none) ?_ (dropna L)
  · exact hsub.nodup (dropna_nodup L h)
  · intro p q hq
    simp only at hq
    split at hq <;> split at hq <;>
      first
        | (injection hq with h2
           rw [← h2])
        | cases hq

theorem nodup_pair_blocks (work : List (Nat × Int × Nat))
    (f : Nat × Int × Nat → List Nat)
    (hfst : (work.map fun t => t.1).Nodup)
    (hsnd : ∀ t ∈ work, (f t).Nodup) :
    (work.flatMap fun t => (f t).map fun q => (t.1, q)).Nodup := by
  induction work with
  | nil => simp
  | cons t tl ih =>
    simp only [List.flatMap_cons, List.map_cons] at hfst ⊢
    rw [List.nodup_cons] at hfst
    refine List.Nodup.append ?_ ?_ ?_
    · exact (hsnd t (List.mem_cons_self _ _)).map
        (fun a b hab => (Prod.mk.injEq .. ▸ hab).2)
    · exact ih hfst.2 (fun u hu => hsnd u (List.mem_cons_of_mem _ hu))
    · intro x hx1 hx2
      rcases List.mem_map.mp hx1 with ⟨q, hq, rfl⟩
      rcases List.mem_flatMap.mp hx2 with ⟨u, hu, hxu⟩
      rcases List.mem_map.mp hxu with ⟨q2, hq2, heq⟩
      have h1 : u.1 = t.1 := (Prod.mk.injEq .. ▸ heq).1
      exact hfst.1 (List.mem_map.mpr ⟨u, hu, h1⟩)

theorem getD_inj_of_nodup (l : List Nat) (h : l.Nodup) (i j : Nat)
    (hi : i < l.length) (hj : j < l.length) (he : l.getD i 0 = l.getD j 0) :
    i = j := by
  rw [List.getD_eq_getElem _ _ hi, List.getD_eq_getElem _ _ hj] at he
  exact (List.Nodup.getElem_inj_iff h).mp he

theorem range_block_nodup (fst : List Nat) (hR : fst.Nodup) (a b : Nat)
    (hb : b ≤ fst.length) :
    ((List.range' a (b - a)).map fun q => fst.getD q 0).Nodup := by
  refine List.Nodup.map_on ?_ (List.nodup_range' ..)
  intro x hx y hy he
  rcases List.mem_range'_1.mp hx with ⟨hx1, hx2⟩
  rcases List.mem_range'_1.mp hy with ⟨hy1, hy2⟩
  exact getD_inj_of_nodup fst hR x y (by omega) (by omega) he

theorem lt_pairs_nodup (L R : Series) (strict : Bool)
    (hL : labelsNodup L) (hR : labelsNodup R) :
    (pairList (pairsOf (_less_than_indices L R strict 1))).Nodup := by
  rw [lt_pairList]
  have hbody : (ltWork L R strict).flatMap (fun t =>
      (List.range' t.2.2 (((sort_values (dropna R)).map Prod.snd).length - t.2.2)).map
        (fun q => (t.1, ((sort_values (dropna R)).map Prod.fst).getD q 0))) =
      (ltWork L R strict).flatMap (fun t =>
      ((List.range' t.2.2 (((sort_values (dropna R)).map Prod.snd).length - t.2.2)).map
        (fun q => ((sort_values (dropna R)).map Prod.fst).getD q 0)).map
        (fun q => (t.1, q))) := by
    rw [List.flatMap_def, List.flatMap_def]
    refine congrArg List.flatten (List.map_congr_left fun t _ => ?_)
    rw [List.map_map]
    rfl
  rw [hbody]
  refine nodup_pair_blocks _ _ (ltWork_labels_nodup L R strict hL) ?_
  intro t ht
  refine range_block_nodup _ (sorted_fst_nodup R hR) _ _ ?_
  simp

theorem gt_pairs_nodup (L R : Series) (strict : Bool)
    (hL : labelsNodup L) (hR : labelsNodup R) :
    (pairList (pairsOf (_greater_than_indices L R strict 1))).Nodup := by
  rw [gt_pairList]
  have hbody : (gtWork L R strict).flatMap (fun t =>
      (List.range' 0 t.2.2).map
        (fun q => (t.1, ((sort_values (dropna R)).map Prod.fst).getD q 0))) =
      (gtWork L R strict).flatMap (fun t =>
      ((List.range' 0 (t.2.2 - 0)).map
        (fun q => ((sort_values (dropna R)).map Prod.fst).getD q 0)).map
        (fun q => (t.1, q))) := by
    rw [List.flatMap_def, List.flatMap_def]
    refine congrArg List.flatten (List.map_congr_left fun t _ => ?_)
    rw [List.map_map, Nat.sub_zero]
    rfl
  rw [hbody]
  refine nodup_pair_blocks _ _ (gtWork_labels_nodup L R strict hL) ?_
  intro t ht
  refine range_block_nodup _ (sorted_fst_nodup R hR) _ _ ?_
  have hle : t.2.2 ≤ ((sort_values (dropna R)).map Prod.snd).length := by
    have ht2 : (t.1, t.2.1, t.2.2) ∈ gtWork L R strict := ht
    rcases (mem_gtWork_iff L R strict t.1 t.2.1 t.2.2).mp ht2 with ⟨-, hseq, -⟩
    rw [hseq]
    cases strict with
    | false => simpa using ss_right_le_length ((sort_values (dropna R)).map Prod.snd) t.2.1
    | true => simpa using ss_left_le_length ((sort_values (dropna R)).map Prod.snd) t.2.1
  simpa using hle

theorem labels_functional (s : Series) : labelsNodup s →
    ∀ i u u', (i, u) ∈ s → (i, u') ∈ s → u = u' := by
  induction s with
  | nil =>
    intro _ i u u' h1
    cases h1
  | cons p tl ih =>
    intro h i u u' h1 h2
    rw [labelsNodup, List.map_cons, List.nodup_cons] at h
    rcases List.mem_cons.mp h1 with he1 | h1t
    · rcases List.mem_cons.mp h2 with he2 | h2t
      · have h3 := he1.trans he2.symm
        exact (Prod.mk.injEq .. ▸ h3).2
      · exfalso
        apply h.1
        have h4 : i ∈ tl.map Prod.fst := List.mem_map.mpr ⟨(i, u'), h2t, rfl⟩
        rw [← he1]
        exact h4
    · rcases List.mem_cons.mp h2 with he2 | h2t
      · exfalso
        apply h.1
        have h4 : i ∈ tl.map Prod.fst := List.mem_map.mpr ⟨(i, u), h1t, rfl⟩
        rw [← he2]
        exact h4
      · exact ih h.2 i u u' h1t h2t

theorem ne_pairs_nodup (L R : Series) (hL : labelsNodup L) (hR : labelsNodup R) :
    (pairList (pairsOf (_not_equal_indices L R))).Nodup := by
  unfold _not_equal_indices
  dsimp only
  split
  · simp [pairsOf, pairList]
  · show (((pairsOf (_less_than_indices L R true 1)).1 ++
        (pairsOf (_greater_than_indices L R true 1)).1).zip
        ((pairsOf (_less_than_indices L R true 1)).2 ++
        (pairsOf (_greater_than_indices L R true 1)).2)).Nodup
    rw [List.zip_append (lt_pairs_len L R true)]
    refine List.Nodup.append ?_ ?_ ?_
    · exact lt_pairs_nodup L R true hL hR
    · exact gt_pairs_nodup L R true hL hR
    · intro x hx1 hx2
      obtain ⟨l, r⟩ := x
      rcases (lt_pairs_mem L R true l r).mp hx1 with ⟨v, w, hvL, hwR, hrel⟩
      rcases (gt_pairs_mem L R true l r).mp hx2 with ⟨v2, w2, hvL2, hwR2, hrel2⟩
      have hv := labels_functional L hL l (some v) (some v2) hvL hvL2
      have hw := labels_functional R hR r (some w) (some w2) hwR hwR2
      simp only [if_true] at hrel hrel2
      injection hv with hv2
      injection hw with hw2
      omega

theorem nodup_flatMap_pairs_nat (outer : List Nat) (f : Nat → List Nat)
    (houter : outer.Nodup) (hf : ∀ i ∈ outer, (f i).Nodup) :
    (outer.flatMap fun i => (f i).map fun j => (i, j)).Nodup := by
  induction outer with
  | nil => simp
  | cons t tl ih =>
    simp only [List.flatMap_cons] at *
    rw [List.nodup_cons] at houter
    refine List.Nodup.append ?_ ?_ ?_
    · exact (hf t (List.mem_cons_self _ _)).map
        (fun a b hab => (Prod.mk.injEq .. ▸ hab).2)
    · exact ih houter.2 (fun u hu => hf u (List.mem_cons_of_mem _ hu))
    · intro x hx1 hx2
      rcases List.mem_map.mp hx1 with ⟨q, hq, rfl⟩
      rcases List.mem_flatMap.mp hx2 with ⟨u, hu, hxu⟩
      rcases List.mem_map.mp hxu with ⟨q2, hq2, heq⟩
      have h1 : u = t := (Prod.mk.injEq .. ▸ heq).1
      rw [h1] at hu
      exact houter.1 hu

theorem hashJoin_nodup (lk rk : List (List Val)) :
    (hashJoinPositions lk rk).Nodup := by
  unfold hashJoinPositions
  refine nodup_flatMap_pairs_nat _ _ (List.nodup_range _) ?_
  intro i hi
  exact (List.nodup_range _).filter _

theorem eq_single_nodup (L R : Series) (a b : List Nat)
    (hL : labelsNodup L) (hR : labelsNodup R)
    (h : _equal_indices (L.map fun p => (p.1, [p.2]))
      (R.map fun p => (p.1, [p.2])) 1 = some (a, b)) :
    (a.zip b).Nodup := by
  rw [eq_indices_single_eq _ _ a b h]
  refine List.Nodup.map_on ?_ (hashJoin_nodup _ _)
  intro x hx y hy he
  obtain ⟨x1, x2⟩ := x
  obtain ⟨y1, y2⟩ := y
  rcases (mem_hashJoin _ _ x1 x2).mp hx with ⟨hx1, hx2, -⟩
  rcases (mem_hashJoin _ _ y1 y2).mp hy with ⟨hy1, hy2, -⟩
  obtain ⟨he1, he2⟩ := Prod.mk.injEq .. ▸ he
  have hlabL : ((L.map fun p => (p.1, [p.2])).map Prod.fst).Nodup := by
    rw [List.map_map]
    exact hL
  have hlabR : ((R.map fun p => (p.1, [p.2])).map Prod.fst).Nodup := by
    rw [List.map_map]
    exact hR
  have hq1 := getD_inj_of_nodup _ hlabL x1 y1 (by simpa using hx1)
    (by simpa using hy1) he1
  have hq2 := getD_inj_of_nodup _ hlabR x2 y2 (by simpa using hx2)
    (by simpa using hy2) he2
  rw [hq1, hq2]

theorem ltWork_mem_of (L R : Series) (strict : Bool) (l j : Nat) (v w : Int)
    (hvL : (l, some v) ∈ L) (hwR : (j, some w) ∈ R)
    (hrel : if strict then v < w else v ≤ w) :
    ∃ s q, (l, v, s) ∈ ltWork L R strict ∧
      q < ((sort_values (dropna R)).map Prod.snd).length ∧ s ≤ q ∧
      ((sort_values (dropna R)).map Prod.fst).getD q 0 = j ∧
      ((sort_values (dropna R)).map Prod.snd).getD q 0 = w := by
  have hs := sort_values_snd_sorted (dropna R)
  have hwRS : (j, w) ∈ sort_values (dropna R) :=
    (sort_values_perm (dropna R)).mem_iff.mpr ((mem_dropna R j w).mpr hwR)
  rcases List.mem_iff_getElem.mp hwRS with ⟨q, hq, hget⟩
  have hqv : ((sort_values (dropna R)).map Prod.snd).getD q 0 = w := by
    rw [List.getD_eq_getElem _ _ (by simpa using hq), List.getElem_map, hget]
  have hqj : ((sort_values (dropna R)).map Prod.fst).getD q 0 = j := by
    rw [List.getD_eq_getElem _ _ (by simpa using hq), List.getElem_map, hget]
  have hqlen : q < ((sort_values (dropna R)).map Prod.snd).length := by simpa using hq
  have hqge : (if strict then searchsorted_right ((sort_values (dropna R)).map Prod.snd) v
      else searchsorted_left ((sort_values (dropna R)).map Prod.snd) v) ≤ q := by
    cases strict with
    | false =>
      simp only [Bool.false_eq_true, if_false]
      simp only [Bool.false_eq_true, if_false] at hrel
      by_contra hcon
      have hx := (sorted_countP_lt _ hs v q hqlen).mpr
        (by unfold searchsorted_left at hcon; omega)
      rw [hqv] at hx
      omega
    | true =>
      simp only [if_true]
      simp only [if_true] at hrel
      by_contra hcon
      have hx := (sorted_countP_le _ hs v q hqlen).mpr
        (by unfold searchsorted_right at hcon; omega)
      rw [hqv] at hx
      omega
  refine ⟨_, q, ?_, hqlen, hqge, hqj, hqv⟩
  rw [mem_ltWork_iff]
  exact ⟨(mem_dropna L l v).mpr hvL, rfl, by omega⟩

theorem gtWork_mem_of (L R : Series) (strict : Bool) (l j : Nat) (v w : Int)
    (hvL : (l, some v) ∈ L) (hwR : (j, some w) ∈ R)
    (hrel : if strict then w < v else w ≤ v) :
    ∃ s q, (l, v, s) ∈ gtWork L R strict ∧
      q < ((sort_values (dropna R)).map Prod.snd).length ∧ q < s ∧
      ((sort_values (dropna R)).map Prod.fst).getD q 0 = j ∧
      ((sort_values (dropna R)).map Prod.snd).getD q 0 = w := by
  have hs := sort_values_snd_sorted (dropna R)
  have hwRS : (j, w) ∈ sort_values (dropna R) :=
    (sort_values_perm (dropna R)).mem_iff.mpr ((mem_dropna R j w).mpr hwR)
  rcases List.mem_iff_getElem.mp hwRS with ⟨q, hq, hget⟩
  have hqv : ((sort_values (dropna R)).map Prod.snd).getD q 0 = w := by
    rw [List.getD_eq_getElem _ _ (by simpa using hq), List.getElem_map, hget]
  have hqj : ((sort_values (dropna R)).map Prod.fst).getD q 0 = j := by
    rw [List.getD_eq_getElem _ _ (by simpa using hq), List.getElem_map, hget]
  have hqlen : q < ((sort_values (dropna R)).map Prod.snd).length := by simpa using hq
  have hqlt : q < (if strict then searchsorted_left ((sort_values (dropna R)).map Prod.snd) v
      else searchsorted_right ((sort_values (dropna R)).map Prod.snd) v) := by
    cases strict with
    | false =>
      simp only [Bool.false_eq_true, if_false]
      simp only [Bool.false_eq_true, if_false] at hrel
      have hx := (sorted_countP_le _ hs v q hqlen).mp (by rw [hqv]; omega)
      unfold searchsorted_right
      omega
    | true =>
      simp only [if_true]
      simp only [if_true] at hrel
      have hx := (sorted_countP_lt _ hs v q hqlen).mp (by rw [hqv]; omega)
      unfold searchsorted_left
      omega
  refine ⟨_, q, ?_, hqlen, hqlt, hqj, hqv⟩
  rw [mem_gtWork_iff]
  exact ⟨(mem_dropna L l v).mpr hvL, rfl, by omega⟩

theorem mem_slice_mpr {α : Type} (xs : List α) (a b p : Nat) (hp : p < xs.length)
    (h1 : a ≤ p) (h2 : p < a + b) : xs[p] ∈ (xs.drop a).take b := by
  obtain ⟨k, rfl⟩ : ∃ k, p = a + k := ⟨p - a, by omega⟩
  have hd : k < (xs.drop a).length := by
    simp only [List.length_drop]
    omega
  have ht : k < ((xs.drop a).take b).length := by
    simp only [List.length_take, List.length_drop]
    omega
  refine List.mem_iff_getElem.mpr ⟨k, ht, ?_⟩
  have e1 : ((xs.drop a).take b)[k] = (xs.drop a)[k] := List.getElem_take ..
  have e2 : (xs.drop a)[k] = xs[a + k] := List.getElem_drop ..
  rw [e1, e2]

theorem mem_flatten_blocks_mpr (scanned : List (Nat × List Nat)) (l r : Nat)
    (pr : Nat × List Nat) (hpr : pr ∈ scanned) (h1 : pr.1 = l) (h2 : r ∈ pr.2) :
    (l, r) ∈ ((scanned.map fun q => List.replicate q.2.length q.1).flatten).zip
      ((scanned.map fun q => q.2).flatten) := by
  induction scanned with
  | nil => cases hpr
  | cons hd tl ih =>
    simp only [List.map_cons, List.flatten_cons]
    rw [List.zip_append (by simp)]
    rcases List.mem_cons.mp hpr with rfl | htl
    · refine List.mem_append_left _ ?_
      rw [zip_replicate_left' _ _ _ rfl]
      exact List.mem_map.mpr ⟨r, h2, by rw [h1]⟩
    · exact List.mem_append_right _ (ih htl)

theorem narrow_foldl_none (df rt : Frame) (cs : List Cond) :
    cs.foldl (narrowStep df rt) none = none := by
  induction cs with
  | nil => rfl
  | cons c tl ih =>
    rw [List.foldl_cons]
    have h : narrowStep df rt none c = none := rfl
    rw [h]
    exact ih

theorem lt_types_mem (op : String) (h : less_than_join_types.contains op = true) :
    op = "<" ∨ op = "<=" := by
  have h2 : op ∈ less_than_join_types := by simpa using h
  simpa [less_than_join_types] using h2

theorem gt_types_mem (op : String) (h : greater_than_join_types.contains op = true) :
    op = ">" ∨ op = ">=" := by
  have h2 : op ∈ greater_than_join_types := by simpa using h
  simpa [greater_than_join_types] using h2

theorem generic_lt_family (L R : Series) (op : String) (k : Nat)
    (h : op = "<" ∨ op = "<=") :
    _generic_func_cond_join L R op k = _less_than_indices L R (op == "<") k := by
  rcases h with rfl | rfl <;> rfl

theorem generic_gt_family (L R : Series) (op : String) (k : Nat)
    (h : op = ">" ∨ op = ">=") :
    _generic_func_cond_join L R op k = _greater_than_indices L R (op == ">") k := by
  rcases h with rfl | rfl <;> rfl

theorem ne_pairs_mem_mpr (L R : Series) (i j : Nat) (v w : Int)
    (hvL : (i, some v) ∈ L) (hwR : (j, some w) ∈ R) (hne : v ≠ w) :
    (i, j) ∈ pairList (pairsOf (_not_equal_indices L R)) := by
  unfold _not_equal_indices
  dsimp only
  have hmem : (i, j) ∈ ((pairsOf (_less_than_indices L R true 1)).1 ++
      (pairsOf (_greater_than_indices L R true 1)).1).zip
      ((pairsOf (_less_than_indices L R true 1)).2 ++
        (pairsOf (_greater_than_indices L R true 1)).2) := by
    rw [List.zip_append (lt_pairs_len L R true)]
    rcases lt_or_gt_of_ne hne with hlt | hgt
    · exact List.mem_append_left _
        ((lt_pairs_mem L R true i j).mpr ⟨v, w, hvL, hwR, by simpa using hlt⟩)
    · exact List.mem_append_right _
        ((gt_pairs_mem L R true i j).mpr ⟨v, w, hvL, hwR, by simpa using hgt⟩)
  split
  · rename_i hguard
    exfalso
    simp only [Bool.and_eq_true, Bool.not_eq_true', decide_eq_false_iff_not] at hguard
    have hl0 : (pairsOf (_less_than_indices L R true 1)).1 = [] :=
      List.eq_nil_of_length_eq_zero (by omega)
    have hg0 : (pairsOf (_greater_than_indices L R true 1)).1 = [] :=
      List.eq_nil_of_length_eq_zero (by omega)
    rw [hl0, hg0] at hmem
    have hl2 : (pairsOf (_less_than_indices L R true 1)).2 = [] := by
      have := lt_pairs_len L R true
      rw [hl0] at this
      exact List.eq_nil_of_length_eq_zero (by simpa using this.symm)
    rw [hl2] at hmem
    simp at hmem
  · exact hmem

theorem eq_single_complete (L R : Series) (a b : List Nat) (l r : Nat) (u : Val)
    (h : _equal_indices (L.map fun p => (p.1, [p.2]))
      (R.map fun p => (p.1, [p.2])) 1 = some (a, b))
    (hvL : (l, u) ∈ L) (hwR : (r, u) ∈ R) :
    (l, r) ∈ a.zip b := by
  rw [eq_indices_single_eq _ _ a b h]
  rcases List.mem_iff_getElem.mp hvL with ⟨i, hi, hgi⟩
  rcases List.mem_iff_getElem.mp hwR with ⟨j, hj, hgj⟩
  have e1L : (L.map fun p => (p.1, [p.2])).map Prod.fst = L.map Prod.fst := by
    rw [List.map_map]
    exact List.map_congr_left fun q _ => rfl
  have e1R : (R.map fun p => (p.1, [p.2])).map Prod.fst = R.map Prod.fst := by
    rw [List.map_map]
    exact List.map_congr_left fun q _ => rfl
  have e2L : (L.map fun p => (p.1, [p.2])).map Prod.snd =
      L.map fun p => [p.2] := by
    rw [List.map_map]
    exact List.map_congr_left fun q _ => rfl
  have e2R : (R.map fun p => (p.1, [p.2])).map Prod.snd =
      R.map fun p => [p.2] := by
    rw [List.map_map]
    exact List.map_congr_left fun q _ => rfl
  have hgi2 : L.get ⟨i, hi⟩ = (l, u) := hgi
  have hgj2 : R.get ⟨j, hj⟩ = (r, u) := hgj
  refine List.mem_map.mpr ⟨(i, j), ?_, ?_⟩
  · rw [e2L, e2R]
    refine (mem_hashJoin _ _ i j).mpr ⟨by simpa using hi, by simpa using hj, ?_⟩
    rw [getD_map_key L i hi, getD_map_key R j hj, hgi2, hgj2]
  · rw [e1L, e1R]
    show ((L.map Prod.fst).getD i 0, (R.map Prod.fst).getD j 0) = (l, r)
    rw [getD_map_fst L i hi, getD_map_fst R j hj, hgi2, hgj2]

theorem big_zip_eq (work : List (Nat × Int × Nat)) (fL2 : Nat → Val)
    (f1 f2 : Nat × Int × Nat → Nat) :
    ((work.map fun t => t.1).zip ((work.map fun t => t.1).map fL2)).zip
      ((work.map f1).zip (work.map f2)) =
      work.map (fun t => ((t.1, fL2 t.1), (f1 t, f2 t))) := by
  rw [zip_self_map, List.zip_map', List.map_map, List.zip_map']
  rfl

theorem scan_pairs_mem_mpr (work : List (Nat × Int × Nat)) (right_index : List Nat)
    (fL2 fR2 : Nat → Val) (op2 : String) (f1 f2 : Nat × Int × Nat → Nat)
    (scanned : List (Nat × List Nat))
    (hscan : scanned =
      ((((work.map fun t => t.1).zip ((work.map fun t => t.1).map fL2)).zip
          ((work.map f1).zip (work.map f2))).map
        (fun (t : (Nat × Val) × Nat × Nat) =>
          (t.1.1, ((((right_index.zip (right_index.map fR2)).drop t.2.1).take
              (t.2.2 - t.2.1)).filter fun (rv : Nat × Val) =>
            elemCmp op2 t.1.2 rv.2).map Prod.fst))).filter
        fun (pr : Nat × List Nat) => !pr.2.isEmpty)
    (l r : Nat) (t : Nat × Int × Nat) (ht : t ∈ work) (htl : t.1 = l)
    (p : Nat) (hp1 : f1 t ≤ p) (hp2 : p < f1 t + (f2 t - f1 t))
    (hp : p < right_index.length) (hpr : right_index.getD p 0 = r)
    (hcmp : elemCmp op2 (fL2 l) (fR2 r) = true) :
    (l, r) ∈ ((scanned.map fun pr => List.replicate pr.2.length pr.1).flatten).zip
      ((scanned.map fun pr => pr.2).flatten) := by
  rw [big_zip_eq, List.map_map] at hscan
  subst hscan
  have hrc : r ∈ ((((right_index.zip (right_index.map fR2)).drop (f1 t)).take
      (f2 t - f1 t)).filter fun (rv : Nat × Val) =>
        elemCmp op2 (fL2 t.1) rv.2).map Prod.fst := by
    refine List.mem_map.mpr ⟨(r, fR2 r), ?_, rfl⟩
    refine List.mem_filter.mpr ⟨?_, ?_⟩
    · rw [zip_self_map]
      have hpm : p < (right_index.map fun a => (a, fR2 a)).length := by simpa using hp
      have hms := mem_slice_mpr (right_index.map fun a => (a, fR2 a))
        (f1 t) (f2 t - f1 t) p hpm hp1 (by omega)
      have hgp : (right_index.map fun a => (a, fR2 a))[p] =
          (right_index[p], fR2 right_index[p]) := List.getElem_map ..
      have hre : right_index[p] = r := by rw [← hpr, List.getD_eq_getElem _ _ hp]
      rw [hgp, hre] at hms
      exact hms
    · rw [htl]
      simpa using hcmp
  refine mem_flatten_blocks_mpr _ l r
    (t.1, ((((right_index.zip (right_index.map fR2)).drop (f1 t)).take
      (f2 t - f1 t)).filter fun (rv : Nat × Val) =>
        elemCmp op2 (fL2 t.1) rv.2).map Prod.fst) ?_ htl hrc
  refine List.mem_filter.mpr ⟨List.mem_map.mpr ⟨t, ht, rfl⟩, ?_⟩
  have hne : ((((right_index.zip (right_index.map fR2)).drop (f1 t)).take
      (f2 t - f1 t)).filter fun (rv : Nat × Val) =>
        elemCmp op2 (fL2 t.1) rv.2).map Prod.fst ≠ [] := List.ne_nil_of_mem hrc
  simp [List.isEmpty_iff, hne]

theorem lt_scan_complete (L R : Series) (strict : Bool)
    (fL2 fR2 : Nat → Val) (op2 : String) (l r : Nat)
    (scanned : List (Nat × List Nat))
    (hscan : scanned =
      (((((ltWork L R strict).map fun t => t.1).zip
          (((ltWork L R strict).map fun t => t.1).map fL2)).zip
          (((ltWork L R strict).map fun t => t.2.2).zip
            ((ltWork L R strict).map fun _ =>
              ((sort_values (dropna R)).map Prod.snd).length))).map
        (fun (t : (Nat × Val) × Nat × Nat) =>
          (t.1.1, ((((((sort_values (dropna R)).map Prod.fst).zip
              (((sort_values (dropna R)).map Prod.fst).map fR2)).drop t.2.1).take
              (t.2.2 - t.2.1)).filter fun (rv : Nat × Val) =>
            elemCmp op2 t.1.2 rv.2).map Prod.fst))).filter
        fun (pr : Nat × List Nat) => !pr.2.isEmpty)
    (v w : Int) (hvL : (l, some v) ∈ L) (hwR : (r, some w) ∈ R)
    (hrel : if strict then v < w else v ≤ w)
    (hcmp : elemCmp op2 (fL2 l) (fR2 r) = true) :
    (l, r) ∈ ((scanned.map fun pr => List.replicate pr.2.length pr.1).flatten).zip
      ((scanned.map fun pr => pr.2).flatten) := by
  rcases ltWork_mem_of L R strict l r v w hvL hwR hrel with
    ⟨s, q, hw, hqlen, hsq, hqj, hqv⟩
  refine scan_pairs_mem_mpr (ltWork L R strict)
    ((sort_values (dropna R)).map Prod.fst) fL2 fR2 op2
    (fun t => t.2.2) (fun _ => ((sort_values (dropna R)).map Prod.snd).length)
    scanned hscan l r (l, v, s) hw rfl q hsq
    (by show q < s + (((sort_values (dropna R)).map Prod.snd).length - s); omega)
    (by simpa using hqlen) ?_ hcmp
  exact hqj

theorem gt_scan_complete (L R : Series) (strict : Bool)
    (fL2 fR2 : Nat → Val) (op2 : String) (l r : Nat)
    (scanned : List (Nat × List Nat))
    (hscan : scanned =
      (((((gtWork L R strict).map fun t => t.1).zip
          (((gtWork L R strict).map fun t => t.1).map fL2)).zip
          (((gtWork L R strict).map fun _ => 0).zip
            ((gtWork L R strict).map fun t => t.2.2))).map
        (fun (t : (Nat × Val) × Nat × Nat) =>
          (t.1.1, ((((((sort_values (dropna R)).map Prod.fst).zip
              (((sort_values (dropna R)).map Prod.fst).map fR2)).drop t.2.1).take
              (t.2.2 - t.2.1)).filter fun (rv : Nat × Val) =>
            elemCmp op2 t.1.2 rv.2).map Prod.fst))).filter
        fun (pr : Nat × List Nat) => !pr.2.isEmpty)
    (v w : Int) (hvL : (l, some v) ∈ L) (hwR : (r, some w) ∈ R)
    (hrel : if strict then w < v else w ≤ v)
    (hcmp : elemCmp op2 (fL2 l) (fR2 r) = true) :
    (l, r) ∈ ((scanned.map fun pr => List.replicate pr.2.length pr.1).flatten).zip
      ((scanned.map fun pr => pr.2).flatten) := by
  rcases gtWork_mem_of L R strict l r v w hvL hwR hrel with
    ⟨s, q, hw, hqlen, hqs, hqj, hqv⟩
  refine scan_pairs_mem_mpr (gtWork L R strict)
    ((sort_values (dropna R)).map Prod.fst) fL2 fR2 op2
    (fun _ => 0) (fun t => t.2.2)
    scanned hscan l r (l, v, s) hw rfl q (Nat.zero_le q)
    (by show q < 0 + (s - 0); omega)
    (by simpa using hqlen) ?_ hcmp
  exact hqj

theorem tail_branches_complete (scanned : List (Nat × List Nat)) (rest2 : List Cond)
    (df rt : Frame) (l r : Nat)
    (hm : (l, r) ∈ ((scanned.map fun pr => List.replicate pr.2.length pr.1).flatten).zip
      ((scanned.map fun pr => pr.2).flatten))
    (hmask : ∀ c ∈ rest2, elemCmp c.op ((df.col c.left_on).getD l none)
      ((rt.col c.right_on).getD r none) = true) :
    ∃ li ri, (if scanned.isEmpty = true then none
        else if rest2.isEmpty = true then
          some ((scanned.map fun pr => List.replicate pr.2.length pr.1).flatten,
                (scanned.map fun pr => pr.2).flatten)
        else
          if ((((scanned.map fun pr => List.replicate pr.2.length pr.1).flatten).zip
              ((scanned.map fun pr => pr.2).flatten)).filter fun (pr : Nat × Nat) =>
                rest2.all fun (c : Cond) =>
                  elemCmp c.op ((df.col c.left_on).getD pr.1 none)
                    ((rt.col c.right_on).getD pr.2 none)).isEmpty = true then none
          else some (((((scanned.map fun pr =>
                List.replicate pr.2.length pr.1).flatten).zip
              ((scanned.map fun pr => pr.2).flatten)).filter fun (pr : Nat × Nat) =>
                rest2.all fun (c : Cond) =>
                  elemCmp c.op ((df.col c.left_on).getD pr.1 none)
                    ((rt.col c.right_on).getD pr.2 none)).map Prod.fst,
            ((((scanned.map fun pr => List.replicate pr.2.length pr.1).flatten).zip
              ((scanned.map fun pr => pr.2).flatten)).filter fun (pr : Nat × Nat) =>
                rest2.all fun (c : Cond) =>
                  elemCmp c.op ((df.col c.left_on).getD pr.1 none)
                    ((rt.col c.right_on).getD pr.2 none)).map Prod.snd)) =
      some (li, ri) ∧ (l, r) ∈ li.zip ri := by
  have hsne : scanned.isEmpty = false := by
    cases hsc : scanned with
    | nil =>
      subst hsc
      simp at hm
    | cons x xs => rfl
  rw [if_neg (by rw [hsne]; exact Bool.false_ne_true)]
  by_cases hre : rest2.isEmpty = true
  · rw [if_pos hre]
    exact ⟨_, _, rfl, hm⟩
  · rw [if_neg hre]
    have hkm : (l, r) ∈ (((scanned.map fun pr =>
        List.replicate pr.2.length pr.1).flatten).zip
        ((scanned.map fun pr => pr.2).flatten)).filter fun (pr : Nat × Nat) =>
          rest2.all fun (c : Cond) =>
            elemCmp c.op ((df.col c.left_on).getD pr.1 none)
              ((rt.col c.right_on).getD pr.2 none) := by
      refine List.mem_filter.mpr ⟨hm, ?_⟩
      exact List.all_eq_true.mpr fun c hc => by simpa using hmask c hc
    have hkne : ¬ ((((scanned.map fun pr =>
        List.replicate pr.2.length pr.1).flatten).zip
        ((scanned.map fun pr => pr.2).flatten)).filter fun (pr : Nat × Nat) =>
          rest2.all fun (c : Cond) =>
            elemCmp c.op ((df.col c.left_on).getD pr.1 none)
              ((rt.col c.right_on).getD pr.2 none)).isEmpty = true := by
      rw [List.isEmpty_iff]
      exact fun hnil => by rw [hnil] at hkm; cases hkm
    rw [if_neg hkne]
    refine ⟨_, _, rfl, ?_⟩
    rw [List.zip_map']
    have hid := List.map_id' ((((scanned.map fun pr =>
        List.replicate pr.2.length pr.1).flatten).zip
        ((scanned.map fun pr => pr.2).flatten)).filter fun (pr : Nat × Nat) =>
          rest2.all fun (c : Cond) =>
            elemCmp c.op ((df.col c.left_on).getD pr.1 none)
              ((rt.col c.right_on).getD pr.2 none))
    rw [hid]
    exact hkm

theorem tail_branches_sub (scanned : List (Nat × List Nat)) (rest2 : List Cond)
    (df rt : Frame) (li ri : List Nat)
    (hd : (if scanned.isEmpty = true then none
        else if rest2.isEmpty = true then
          some ((scanned.map fun pr => List.replicate pr.2.length pr.1).flatten,
                (scanned.map fun pr => pr.2).flatten)
        else
          if ((((scanned.map fun pr => List.replicate pr.2.length pr.1).flatten).zip
              ((scanned.map fun pr => pr.2).flatten)).filter fun (pr : Nat × Nat) =>
                rest2.all fun (c : Cond) =>
                  elemCmp c.op ((df.col c.left_on).getD pr.1 none)
                    ((rt.col c.right_on).getD pr.2 none)).isEmpty = true then none
          else some (((((scanned.map fun pr =>
                List.replicate pr.2.length pr.1).flatten).zip
              ((scanned.map fun pr => pr.2).flatten)).filter fun (pr : Nat × Nat) =>
                rest2.all fun (c : Cond) =>
                  elemCmp c.op ((df.col c.left_on).getD pr.1 none)
                    ((rt.col c.right_on).getD pr.2 none)).map Prod.fst,
            ((((scanned.map fun pr => List.replicate pr.2.length pr.1).flatten).zip
              ((scanned.map fun pr => pr.2).flatten)).filter fun (pr : Nat × Nat) =>
                rest2.all fun (c : Cond) =>
                  elemCmp c.op ((df.col c.left_on).getD pr.1 none)
                    ((rt.col c.right_on).getD pr.2 none)).map Prod.snd)) =
      some (li, ri)) :
    (li.zip ri).Sublist
      (((scanned.map fun pr => List.replicate pr.2.length pr.1).flatten).zip
        ((scanned.map fun pr => pr.2).flatten)) := by
  split at hd
  · cases hd
  · split at hd
    · injection hd with hres
      have hli : li = (scanned.map fun pr => List.replicate pr.2.length pr.1).flatten :=
        (congrArg Prod.fst hres).symm
      have hri : ri = (scanned.map fun pr => pr.2).flatten :=
        (congrArg Prod.snd hres).symm
      rw [hli, hri]
    · split at hd
      · cases hd
      · injection hd with hres
        have hli : li = _ := (congrArg Prod.fst hres).symm
        have hri : ri = _ := (congrArg Prod.snd hres).symm
        rw [hli, hri, List.zip_map']
        have hid := List.map_id' ((((scanned.map fun pr =>
            List.replicate pr.2.length pr.1).flatten).zip
            ((scanned.map fun pr => pr.2).flatten)).filter fun (pr : Nat × Nat) =>
              rest2.all fun (c : Cond) =>
                elemCmp c.op ((df.col c.left_on).getD pr.1 none)
                  ((rt.col c.right_on).getD pr.2 none))
        rw [hid]
        exact List.filter_sublist _

theorem nodup_flatten_zip (scanned : List (Nat × List Nat))
    (hfst : (scanned.map Prod.fst).Nodup) (hsnd : ∀ pr ∈ scanned, pr.2.Nodup) :
    (((scanned.map fun pr => List.replicate pr.2.length pr.1).flatten).zip
      ((scanned.map fun pr => pr.2).flatten)).Nodup := by
  induction scanned with
  | nil => simp
  | cons hd tl ih =>
    simp only [List.map_cons, List.flatten_cons]
    rw [List.zip_append (by simp)]
    rw [List.map_cons, List.nodup_cons] at hfst
    refine List.Nodup.append ?_ ?_ ?_
    · rw [zip_replicate_left' _ _ _ rfl]
      exact (hsnd hd (List.mem_cons_self _ _)).map
        (fun a b hab => (Prod.mk.injEq .. ▸ hab).2)
    · exact ih hfst.2 (fun pr hpr => hsnd pr (List.mem_cons_of_mem _ hpr))
    · intro x hx1 hx2
      rw [zip_replicate_left' _ _ _ rfl] at hx1
      rcases List.mem_map.mp hx1 with ⟨b, hb, rfl⟩
      rcases mem_flatten_blocks tl hd.1 b hx2 with ⟨pr, hpr, hpr1, -⟩
      exact hfst.1 (List.mem_map.mpr ⟨pr, hpr, hpr1⟩)

theorem scanned_zip_nodup (work : List (Nat × Int × Nat)) (right_index : List Nat)
    (fL2 fR2 : Nat → Val) (op2 : String) (f1 f2 : Nat × Int × Nat → Nat)
    (scanned : List (Nat × List Nat))
    (hscan : scanned =
      ((((work.map fun t => t.1).zip ((work.map fun t => t.1).map fL2)).zip
          ((work.map f1).zip (work.map f2))).map
        (fun (t : (Nat × Val) × Nat × Nat) =>
          (t.1.1, ((((right_index.zip (right_index.map fR2)).drop t.2.1).take
              (t.2.2 - t.2.1)).filter fun (rv : Nat × Val) =>
            elemCmp op2 t.1.2 rv.2).map Prod.fst))).filter
        fun (pr : Nat × List Nat) => !pr.2.isEmpty)
    (hwork : (work.map fun t => t.1).Nodup) (hri : right_index.Nodup) :
    (((scanned.map fun pr => List.replicate pr.2.length pr.1).flatten).zip
      ((scanned.map fun pr => pr.2).flatten)).Nodup := by
  rw [big_zip_eq, List.map_map] at hscan
  subst hscan
  refine nodup_flatten_zip _ ?_ ?_
  · have h1 : ((((work.map fun t =>
        ((fun (t : (Nat × Val) × Nat × Nat) =>
          (t.1.1, ((((right_index.zip (right_index.map fR2)).drop t.2.1).take
              (t.2.2 - t.2.1)).filter fun (rv : Nat × Val) =>
            elemCmp op2 t.1.2 rv.2).map Prod.fst)) ∘
          fun (t : Nat × Int × Nat) => ((t.1, fL2 t.1), (f1 t, f2 t))) t)).filter
        (fun (pr : Nat × List Nat) => !pr.2.isEmpty)).map Prod.fst).Sublist
        ((work.map fun t =>
        ((fun (t : (Nat × Val) × Nat × Nat) =>
          (t.1.1, ((((right_index.zip (right_index.map fR2)).drop t.2.1).take
              (t.2.2 - t.2.1)).filter fun (rv : Nat × Val) =>
            elemCmp op2 t.1.2 rv.2).map Prod.fst)) ∘
          fun (t : Nat × Int × Nat) => ((t.1, fL2 t.1), (f1 t, f2 t))) t).map
          Prod.fst) :=
      (List.filter_sublist _).map _
    refine h1.nodup ?_
    rw [List.map_map]
    exact hwork
  · intro pr hpr
    rcases List.mem_map.mp (List.mem_filter.mp hpr).1 with ⟨t, ht, hte⟩
    have hpr2 : pr.2 = ((((right_index.zip (right_index.map fR2)).drop (f1 t)).take
        (f2 t - f1 t)).filter fun (rv : Nat × Val) =>
          elemCmp op2 (fL2 t.1) rv.2).map Prod.fst := by
      rw [← hte]
      rfl
    rw [hpr2]
    have hsl : (((((right_index.zip (right_index.map fR2)).drop (f1 t)).take
        (f2 t - f1 t)).filter fun (rv : Nat × Val) =>
          elemCmp op2 (fL2 t.1) rv.2).map Prod.fst).Sublist
        ((((right_index.zip (right_index.map fR2)).drop (f1 t)).take
          (f2 t - f1 t)).map Prod.fst) :=
      (List.filter_sublist _).map _
    refine hsl.nodup ?_
    have he1 : (((right_index.zip (right_index.map fR2)).drop (f1 t)).take
        (f2 t - f1 t)).map Prod.fst =
        ((right_index.drop (f1 t)).take (f2 t - f1 t)) := by
      rw [zip_self_map, List.map_take, List.map_drop, List.map_map]
      have : (Prod.fst ∘ fun a => ((a, fR2 a) : Nat × Val)) = fun a => a := rfl
      rw [this, List.map_id']
    rw [he1]
    exact ((List.take_sublist _ _).trans (List.drop_sublist _ _)).nodup hri

theorem narrowStep_nodup (df rt : Frame) (c : Cond) (d e d2 e2 : List Nat)
    (hdn : d.Nodup) (hen : e.Nodup)
    (hstep : narrowStep df rt (some (d, e)) c = some (d2, e2)) :
    d2.Nodup ∧ e2.Nodup := by
  unfold narrowStep at hstep
  dsimp only at hstep
  by_cases hne : (c.op == "!=") = true
  · rw [if_pos hne] at hstep
    injection hstep with h2
    obtain ⟨h3, h4⟩ := Prod.mk.injEq .. ▸ h2
    rw [← h3, ← h4]
    exact ⟨hdn, hen⟩
  · rw [if_neg hne] at hstep
    cases hg : _generic_func_cond_join (df.locS d c.left_on)
        (rt.locS e c.right_on) c.op 2 with
    | none =>
      simp only [hg] at hstep
      cases hstep
    | some res =>
      cases res with
      | pairs a b =>
        simp only [hg] at hstep
        cases hstep
      | bounds a b si ix =>
        simp only [hg] at hstep
        injection hstep with h2
        obtain ⟨h3, h4⟩ := Prod.mk.injEq .. ▸ h2
        rcases generic_bounds_op _ _ _ _ _ _ _ hg with hfam | hfam
        · have hfam2 : c.op = "<" ∨ c.op = "<=" := by simpa using hfam
          rw [generic_lt_family _ _ _ _ hfam2] at hg
          rw [lt_indices_eq] at hg
          split at hg
          · cases hg
          · rw [if_pos (by omega)] at hg
            injection hg with hmr
            injection hmr with f1 f2 f3 f4
            constructor
            · rw [← h3, ← f1]
              refine ltWork_labels_nodup _ _ _ ?_
              unfold labelsNodup
              rw [locS_labels]
              exact hdn
            · rw [← h4, ← f2]
              refine sorted_fst_nodup _ ?_
              unfold labelsNodup
              rw [locS_labels]
              exact hen
        · have hfam2 : c.op = ">" ∨ c.op = ">=" := by simpa using hfam
          rw [generic_gt_family _ _ _ _ hfam2] at hg
          rw [gt_indices_eq] at hg
          split at hg
          · cases hg
          · rw [if_pos (by omega)] at hg
            injection hg with hmr
            injection hmr with f1 f2 f3 f4
            constructor
            · rw [← h3, ← f1]
              refine gtWork_labels_nodup _ _ _ ?_
              unfold labelsNodup
              rw [locS_labels]
              exact hdn
            · rw [← h4, ← f2]
              refine sorted_fst_nodup _ ?_
              unfold labelsNodup
              rw [locS_labels]
              exact hen

theorem narrow_foldl_nodup (df rt : Frame) (cs : List Cond) :
    ∀ d e d2 e2, d.Nodup → e.Nodup →
      cs.foldl (narrowStep df rt) (some (d, e)) = some (d2, e2) →
      d2.Nodup ∧ e2.Nodup := by
  induction cs with
  | nil =>
    intro d e d2 e2 hdn hen hf
    injection hf with h2
    obtain ⟨h3, h4⟩ := Prod.mk.injEq .. ▸ h2
    rw [← h3, ← h4]
    exact ⟨hdn, hen⟩
  | cons c tl ih =>
    intro d e d2 e2 hdn hen hf
    rw [List.foldl_cons] at hf
    cases hstep : narrowStep df rt (some (d, e)) c with
    | none =>
      rw [hstep, narrow_foldl_none] at hf
      cases hf
    | some pr =>
      obtain ⟨d1, e1⟩ := pr
      rw [hstep] at hf
      rcases narrowStep_nodup df rt c d e d1 e1 hdn hen hstep with ⟨h1, h2⟩
      exact ih d1 e1 d2 e2 h1 h2 hf


theorem narrowStep_inv (df rt : Frame) (c : Cond) (d e : List Nat) (l r : Nat)
    (hop : c.op ∈ [">", "<", ">=", "<=", "!="])
    (hl : l ∈ d) (hr : r ∈ e) (hdn : d.Nodup) (hen : e.Nodup)
    (hc : condHolds df rt c l r) :
    ∃ d2 e2, narrowStep df rt (some (d, e)) c = some (d2, e2) ∧
      l ∈ d2 ∧ r ∈ e2 ∧ d2.Nodup ∧ e2.Nodup := by
  obtain ⟨v, w, hv, hw, hrel⟩ := hc
  obtain ⟨clo, cro, cop⟩ := c
  simp only at hop hrel hv hw
  have hvL : (l, some v) ∈ df.locS d clo :=
    (mem_locS df d clo l (some v)).mpr ⟨hl, hv⟩
  have hwR : (r, some w) ∈ rt.locS e cro :=
    (mem_locS rt e cro r (some w)).mpr ⟨hr, hw⟩
  fin_cases hop
  · have hrel2 : w < v := by simpa [opRel] using hrel
    rcases gtWork_mem_of (df.locS d clo) (rt.locS e cro) true l r v w hvL hwR
      (by simpa using hrel2) with ⟨s, q, hwk, hqlen, hqord, hqj, hqv⟩
    have hwne : gtWork (df.locS d clo) (rt.locS e cro) true ≠ [] :=
      List.ne_nil_of_mem hwk
    have hg : _generic_func_cond_join (df.locS d clo) (rt.locS e cro) ">" 2 =
        some (MatchResult.bounds
          ((gtWork (df.locS d clo) (rt.locS e cro) true).map fun t => t.1)
          ((sort_values (dropna (rt.locS e cro))).map Prod.fst)
          ((gtWork (df.locS d clo) (rt.locS e cro) true).map fun t => t.2.2)
          (List.replicate
            (((gtWork (df.locS d clo) (rt.locS e cro) true).map
              fun t => t.2.2)).length
            0)) := by
      rw [generic_gt_family _ _ _ _ (Or.inl rfl),
        show ((">" : String) == ">") = true from rfl,
        gt_indices_eq, if_neg hwne, if_pos (by omega)]
    refine ⟨(gtWork (df.locS d clo) (rt.locS e cro) true).map fun t => t.1,
      (sort_values (dropna (rt.locS e cro))).map Prod.fst, ?_, ?_, ?_, ?_, ?_⟩
    · unfold narrowStep
      dsimp only
      rw [if_neg (by decide), hg]
    · exact List.mem_map.mpr ⟨(l, v, s), hwk, rfl⟩
    · rw [← hqj]
      exact getD_mem_nat _ _ (by simpa using hqlen)
    · exact gtWork_labels_nodup _ _ _ (locS_labels_nodup df d clo hdn)
    · exact sorted_fst_nodup _ (locS_labels_nodup rt e cro hen)
  · have hrel2 : v < w := by simpa [opRel] using hrel
    rcases ltWork_mem_of (df.locS d clo) (rt.locS e cro) true l r v w hvL hwR
      (by simpa using hrel2) with ⟨s, q, hwk, hqlen, hqord, hqj, hqv⟩
    have hwne : ltWork (df.locS d clo) (rt.locS e cro) true ≠ [] :=
      List.ne_nil_of_mem hwk
    have hg : _generic_func_cond_join (df.locS d clo) (rt.locS e cro) "<" 2 =
        some (MatchResult.bounds
          ((ltWork (df.locS d clo) (rt.locS e cro) true).map fun t => t.1)
          ((sort_values (dropna (rt.locS e cro))).map Prod.fst)
          ((ltWork (df.locS d clo) (rt.locS e cro) true).map fun t => t.2.2)
          (List.replicate
            (((ltWork (df.locS d clo) (rt.locS e cro) true).map
              fun t => t.2.2)).length
            ((sort_values (dropna (rt.locS e cro))).map Prod.snd).length)) := by
      rw [generic_lt_family _ _ _ _ (Or.inl rfl),
        show (("<" : String) == "<") = true from rfl,
        lt_indices_eq, if_neg hwne, if_pos (by omega)]
    refine ⟨(ltWork (df.locS d clo) (rt.locS e cro) true).map fun t => t.1,
      (sort_values (dropna (rt.locS e cro))).map Prod.fst, ?_, ?_, ?_, ?_, ?_⟩
    · unfold narrowStep
      dsimp only
      rw [if_neg (by decide), hg]
    · exact List.mem_map.mpr ⟨(l, v, s), hwk, rfl⟩
    · rw [← hqj]
      exact getD_mem_nat _ _ (by simpa using hqlen)
    · exact ltWork_labels_nodup _ _ _ (locS_labels_nodup df d clo hdn)
    · exact sorted_fst_nodup _ (locS_labels_nodup rt e cro hen)
  · have hrel2 : w ≤ v := by simpa [opRel] using hrel
    rcases gtWork_mem_of (df.locS d clo) (rt.locS e cro) false l r v w hvL hwR
      (by simpa using hrel2) with ⟨s, q, hwk, hqlen, hqord, hqj, hqv⟩
    have hwne : gtWork (df.locS d clo) (rt.locS e cro) false ≠ [] :=
      List.ne_nil_of_mem hwk
    have hg : _generic_func_cond_join (df.locS d clo) (rt.locS e cro) ">=" 2 =
        some (MatchResult.bounds
          ((gtWork (df.locS d clo) (rt.locS e cro) false).map fun t => t.1)
          ((sort_values (dropna (rt.locS e cro))).map Prod.fst)
          ((gtWork (df.locS d clo) (rt.locS e cro) false).map fun t => t.2.2)
          (List.replicate
            (((gtWork (df.locS d clo) (rt.locS e cro) false).map
              fun t => t.2.2)).length
            0)) := by
      rw [generic_gt_family _ _ _ _ (Or.inr rfl),
        show ((">=" : String) == ">") = false from rfl,
        gt_indices_eq, if_neg hwne, if_pos (by omega)]
    refine ⟨(gtWork (df.locS d clo) (rt.locS e cro) false).map fun t => t.1,
      (sort_values (dropna (rt.locS e cro))).map Prod.fst, ?_, ?_, ?_, ?_, ?_⟩
    · unfold narrowStep
      dsimp only
      rw [if_neg (by decide), hg]
    · exact List.mem_map.mpr ⟨(l, v, s), hwk, rfl⟩
    · rw [← hqj]
      exact getD_mem_nat _ _ (by simpa using hqlen)
    · exact gtWork_labels_nodup _ _ _ (locS_labels_nodup df d clo hdn)
    · exact sorted_fst_nodup _ (locS_labels_nodup rt e cro hen)
  · have hrel2 : v ≤ w := by simpa [opRel] using hrel
    rcases ltWork_mem_of (df.locS d clo) (rt.locS e cro) false l r v w hvL hwR
      (by simpa using hrel2) with ⟨s, q, hwk, hqlen, hqord, hqj, hqv⟩
    have hwne : ltWork (df.locS d clo) (rt.locS e cro) false ≠ [] :=
      List.ne_nil_of_mem hwk
    have hg : _generic_func_cond_join (df.locS d clo) (rt.locS e cro) "<=" 2 =
        some (MatchResult.bounds
          ((ltWork (df.locS d clo) (rt.locS e cro) false).map fun t => t.1)
          ((sort_values (dropna (rt.locS e cro))).map Prod.fst)
          ((ltWork (df.locS d clo) (rt.locS e cro) false).map fun t => t.2.2)
          (List.replicate
            (((ltWork (df.locS d clo) (rt.locS e cro) false).map
              fun t => t.2.2)).length
            ((sort_values (dropna (rt.locS e cro))).map Prod.snd).length)) := by
      rw [generic_lt_family _ _ _ _ (Or.inr rfl),
        show (("<=" : String) == "<") = false from rfl,
        lt_indices_eq, if_neg hwne, if_pos (by omega)]
    refine ⟨(ltWork (df.locS d clo) (rt.locS e cro) false).map fun t => t.1,
      (sort_values (dropna (rt.locS e cro))).map Prod.fst, ?_, ?_, ?_, ?_, ?_⟩
    · unfold narrowStep
      dsimp only
      rw [if_neg (by decide), hg]
    · exact List.mem_map.mpr ⟨(l, v, s), hwk, rfl⟩
    · rw [← hqj]
      exact getD_mem_nat _ _ (by simpa using hqlen)
    · exact ltWork_labels_nodup _ _ _ (locS_labels_nodup df d clo hdn)
    · exact sorted_fst_nodup _ (locS_labels_nodup rt e cro hen)
  · refine ⟨d, e, ?_, hl, hr, hdn, hen⟩
    unfold narrowStep
    dsimp only
    rw [if_pos (by decide)]

theorem narrow_foldl_inv (df rt : Frame) (cs : List Cond) (l r : Nat) :
    ∀ d e, l ∈ d → r ∈ e → d.Nodup → e.Nodup →
      (∀ c ∈ cs, c.op ∈ [">", "<", ">=", "<=", "!="]) →
      (∀ c ∈ cs, condHolds df rt c l r) →
      ∃ d2 e2, cs.foldl (narrowStep df rt) (some (d, e)) = some (d2, e2) ∧
        l ∈ d2 ∧ r ∈ e2 ∧ d2.Nodup ∧ e2.Nodup := by
  induction cs with
  | nil =>
    intro d e hl hr hdn hen _ _
    exact ⟨d, e, rfl, hl, hr, hdn, hen⟩
  | cons c tl ih =>
    intro d e hl hr hdn hen hops hc
    rcases narrowStep_inv df rt c d e l r (hops c (List.mem_cons_self _ _))
      hl hr hdn hen (hc c (List.mem_cons_self _ _)) with
      ⟨d1, e1, hstep, hl1, hr1, hdn1, hen1⟩
    rw [List.foldl_cons, hstep]
    exact ih d1 e1 hl1 hr1 hdn1 hen1
      (fun x hx => hops x (List.mem_cons_of_mem _ hx))
      (fun x hx => hc x (List.mem_cons_of_mem _ hx))
